import Mathlib

/-!
# Poll-Creator: the in-memory poll store

A shallow embedding of the Go poll store (`src/backend/main.go`, with identical
copies in `src/api/common.go` and `src/api/index.go`) and proofs of its
contract.

Modelling conventions.

* A Go `map[string]V` is an association list `List (String × V)`; `mapGet` is
  the two-valued read `v, ok := m[k]` and `mapSet` the write `m[k] = v`.
* `Store.polls` holds `*Poll`; every pointer stored there is freshly allocated
  by `CreatePoll` / `SeedDefault`, so a poll is modelled as the value stored at
  its key, and the in-place mutations `poll.X = ...` as a write at that key.
* Go `int` is modelled as the unbounded `Int` (a counter would need `2^63`
  distinct voter keys to wrap).
* Every store method holds `s.mu` for its whole body, so a method is modelled
  as one atomic function on the store value.
* `uuid.New().String()` and `time.Now().UTC().Format(time.RFC3339)` are inputs
  of the embedding: the generated id and the timestamp are parameters.
* A run-time panic (the write to a nil inner vote map in `Vote`) is a third
  outcome next to success and error; the writes made before it are kept.
* Strings are sequences of Unicode code points (request bodies are decoded
  from JSON, which yields valid UTF-8).
* The HTTP handlers are modelled after JSON decoding: a handler takes the
  decoded request (and the voter key that `getVoterKey` extracted) and returns
  the status and the value passed to `writeJSON`.
* A `float64` is a value `mant * 2^exp` (`F64`); conversion, division and
  multiplication round the exact result to the nearest value with a 53-bit
  mantissa, ties to even (`roundToF64`), and `math.Round` is `f64Round`. The
  exponent is not bounded, which agrees with binary64 between `2^-1022` and
  `2^1024`, far beyond what 64-bit counters produce.
* Goroutines calling `Vote` concurrently are modelled by a step relation
  (`goStep`) over the store, the holder of the write lock and one program
  point per goroutine; `Vote` itself is the composition of its check phase and
  its write phase (`Vote_eq_checks_writes`).
-/

namespace PollCreator

/-! ## Go maps -/

/-- The read `v, ok := m[k]`: the value bound to `k`, if any. -/
def mapGet {β : Type} : List (String × β) → String → Option β
  | [], _ => none
  | (k', v) :: rest, k => if k' = k then some v else mapGet rest k

/-- The write `m[k] = v`: replaces the binding of `k`, or adds one. -/
def mapSet {β : Type} : List (String × β) → String → β → List (String × β)
  | [], k, v => [(k, v)]
  | (k', v') :: rest, k, v =>
    if k' = k then (k, v) :: rest else (k', v') :: mapSet rest k v

/-- The keys of a map, in storage order. -/
def mapKeys {β : Type} (m : List (String × β)) : List String :=
  m.map Prod.fst

/-! ## Models -/

/-- Go `type Option struct { ID int; Text string; Votes int }`. -/
structure PollOption where
  ID : Int
  Text : String
  Votes : Int
deriving DecidableEq, Repr

/-- Go `type Poll struct`. -/
structure Poll where
  ID : String
  Question : String
  Options : List PollOption
  TotalVotes : Int
  Closed : Bool
  CreatedAt : String
deriving DecidableEq, Repr

/-- Go `type Store struct` (the mutex is not part of the value). -/
structure Store where
  polls : List (String × Poll)
  votes : List (String × List (String × Int))
deriving DecidableEq, Repr

/-- What a store method hands back: a value, an `error`, or a panic. -/
inductive Outcome (α : Type) where
  | ok (v : α)
  | err (msg : String)
  | panic (msg : String)
deriving DecidableEq, Repr

/-! ## strings.TrimSpace -/

/-- Go `unicode.IsSpace`. -/
def isSpace (c : Char) : Bool :=
  c = '\t' || c = '\n' || c = '\x0b' || c = '\x0c' || c = '\r' || c = ' '
    || c.toNat = 0x85 || c.toNat = 0xA0 || c.toNat = 0x1680
    || (0x2000 ≤ c.toNat && c.toNat ≤ 0x200a)
    || c.toNat = 0x2028 || c.toNat = 0x2029 || c.toNat = 0x202f
    || c.toNat = 0x205f || c.toNat = 0x3000

/-- Go `strings.TrimSpace`: drops leading and trailing white space. -/
def TrimSpace (s : String) : String :=
  String.mk ((s.data.dropWhile isSpace).reverse.dropWhile isSpace).reverse

/-! ## Store -/

/-- Go `NewStore`. -/
def NewStore : Store :=
  { polls := [], votes := [] }

/-- The loop `for i, text := range options { opts[i] = Option{ID: i, ...} }`
of `CreatePoll`, started at index `i`. -/
def mkOptions : Nat → List String → List PollOption
  | _, [] => []
  | i, text :: rest =>
    { ID := (i : Int), Text := TrimSpace text, Votes := 0 } :: mkOptions (i + 1) rest

/-- Go `Store.CreatePoll`; `id` and `createdAt` are the generated id and
timestamp. -/
def CreatePoll (s : Store) (id createdAt question : String) (options : List String) :
    Store × Poll :=
  let poll : Poll :=
    { ID := id
      Question := TrimSpace question
      Options := mkOptions 0 options
      TotalVotes := 0
      Closed := false
      CreatedAt := createdAt }
  ({ polls := mapSet s.polls id poll, votes := mapSet s.votes id [] }, poll)

/-- Go `Store.GetPoll`: `none` is the nil pointer. -/
def GetPoll (s : Store) (id : String) : Option Poll :=
  mapGet s.polls id

/-- Go `Store.GetAllPolls` (Go leaves the order unspecified; the model lists
the polls in storage order). -/
def GetAllPolls (s : Store) : List Poll :=
  s.polls.map Prod.snd

/-- Go `Store.HasVoted`. -/
def HasVoted (s : Store) (pollID voterKey : String) : Bool × Int :=
  match mapGet s.votes pollID with
  | some voters =>
    match mapGet voters voterKey with
    | some optID => (true, optID)
    | none => (false, -1)
  | none => (false, -1)

/-- The statement `poll.Options[optionID].Votes++`. -/
def incVotesAt : List PollOption → Nat → List PollOption
  | [], _ => []
  | o :: os, 0 => { o with Votes := o.Votes + 1 } :: os
  | o :: os, n + 1 => o :: incVotesAt os n

/-- The poll after `poll.Options[optionID].Votes++; poll.TotalVotes++`. -/
def countVote (poll : Poll) (optionID : Int) : Poll :=
  { poll with
    Options := incVotesAt poll.Options optionID.toNat
    TotalVotes := poll.TotalVotes + 1 }

/-- Go `Store.Vote`. The inner map `s.votes[pollID]` is nil when the key is
absent: reading it reports "not voted", and the final write panics after the
two counters have been incremented. -/
def Vote (s : Store) (pollID voterKey : String) (optionID : Int) :
    Store × Outcome Poll :=
  match mapGet s.polls pollID with
  | none => (s, .err "Poll not found")
  | some poll =>
    if poll.Closed then (s, .err "This poll is closed")
    else if optionID < 0 ∨ optionID ≥ (poll.Options.length : Int) then
      (s, .err "Invalid option")
    else
      match mapGet s.votes pollID with
      | some voters =>
        match mapGet voters voterKey with
        | some _ => (s, .err "You have already voted on this poll")
        | none =>
          ({ polls := mapSet s.polls pollID (countVote poll optionID)
             votes := mapSet s.votes pollID (mapSet voters voterKey optionID) },
           .ok (countVote poll optionID))
      | none =>
        ({ s with polls := mapSet s.polls pollID (countVote poll optionID) },
         .panic "assignment to entry in nil map")

/-- Go `Store.ClosePoll`. -/
def ClosePoll (s : Store) (id : String) : Store × Outcome Poll :=
  match mapGet s.polls id with
  | none => (s, .err "Poll not found")
  | some poll =>
    ({ s with polls := mapSet s.polls id { poll with Closed := true } },
     .ok { poll with Closed := true })

/-- The default poll built by `SeedDefault`. -/
def defaultPoll (id createdAt : String) : Poll :=
  { ID := id
    Question := "What's your favorite programming language?"
    Options :=
      [ { ID := 0, Text := "JavaScript", Votes := 12 },
        { ID := 1, Text := "Python", Votes := 18 },
        { ID := 2, Text := "Go", Votes := 25 },
        { ID := 3, Text := "Rust", Votes := 8 },
        { ID := 4, Text := "TypeScript", Votes := 15 },
        { ID := 5, Text := "Java", Votes := 10 } ]
    TotalVotes := 88
    Closed := false
    CreatedAt := createdAt }

/-- Go `Store.SeedDefault`. -/
def SeedDefault (s : Store) (id createdAt : String) : Store :=
  { polls := mapSet s.polls id (defaultPoll id createdAt), votes := mapSet s.votes id [] }

/-! ## Runs of store operations -/

/-- One call of a store method. The generated id and timestamp of
`SeedDefault` and `CreatePoll` are part of the call. -/
inductive Op where
  | seedDefault (id createdAt : String)
  | createPoll (id createdAt question : String) (options : List String)
  | vote (pollID voterKey : String) (optionID : Int)
  | closePoll (id : String)
  | getPoll (id : String)
  | getAllPolls
  | hasVoted (pollID voterKey : String)
deriving DecidableEq, Repr

/-- The store after one call (the readers take the read lock and write
nothing). -/
def step (s : Store) : Op → Store
  | .seedDefault id createdAt => SeedDefault s id createdAt
  | .createPoll id createdAt question options =>
    (CreatePoll s id createdAt question options).1
  | .vote pollID voterKey optionID => (Vote s pollID voterKey optionID).1
  | .closePoll id => (ClosePoll s id).1
  | .getPoll _ => s
  | .getAllPolls => s
  | .hasVoted _ _ => s

/-- The store after a finite sequence of calls. -/
def run (s : Store) : List Op → Store
  | [] => s
  | op :: ops => run (step s op) ops

/-- An id is fresh when the store has never used it as a key. -/
def freshId (s : Store) (id : String) : Bool :=
  (mapGet s.polls id).isNone && (mapGet s.votes id).isNone

/-- The call generates, if it generates an id at all, a fresh one
(what `uuid.New()` provides). -/
def freshOp (s : Store) : Op → Bool
  | .seedDefault id _ => freshId s id
  | .createPoll id _ _ _ => freshId s id
  | _ => true

/-- Every id generated along the run is fresh at the time of its call. -/
def freshRun : Store → List Op → Bool
  | _, [] => true
  | s, op :: ops => freshOp s op && freshRun (step s op) ops

/-- The sum of the vote counters of a poll's options. -/
def sumVotes (opts : List PollOption) : Int :=
  (opts.map PollOption.Votes).sum

/-- The counter invariant: every stored poll's total is the sum of its option
counters. -/
def SumInv (s : Store) : Prop :=
  ∀ kp ∈ s.polls, kp.2.TotalVotes = sumVotes kp.2.Options

/-- Every per-poll vote record has at most one entry per voter key. -/
def VotesNodup (s : Store) : Prop :=
  ∀ kv ∈ s.votes, (mapKeys kv.2).Nodup

/-- Poll `p` exists and its vote record maps voter `v` to option `o`. -/
def Recorded (s : Store) (p v : String) (o : Int) : Prop :=
  (∃ poll, mapGet s.polls p = some poll) ∧
    ∃ voters, mapGet s.votes p = some voters ∧ mapGet voters v = some o

/-! ## Concurrent callers of Vote -/

/-- The four checks of `Vote`, made after `s.mu.Lock()` and before the first
write: the message of the error returned, or `none` when all four pass. -/
def voteChecks (s : Store) (pollID voterKey : String) (optionID : Int) : Option String :=
  match mapGet s.polls pollID with
  | none => some "Poll not found"
  | some poll =>
    if poll.Closed then some "This poll is closed"
    else if optionID < 0 ∨ optionID ≥ (poll.Options.length : Int) then
      some "Invalid option"
    else
      match mapGet s.votes pollID with
      | some voters =>
        match mapGet voters voterKey with
        | some _ => some "You have already voted on this poll"
        | none => none
      | none => none

/-- The three writes of `Vote` and its return value; they run after the checks
have passed, under the same lock. -/
def voteWrites (s : Store) (pollID voterKey : String) (optionID : Int) :
    Store × Outcome Poll :=
  match mapGet s.polls pollID with
  | none => (s, .panic "invalid memory address or nil pointer dereference")
  | some poll =>
    match mapGet s.votes pollID with
    | some voters =>
      ({ polls := mapSet s.polls pollID (countVote poll optionID)
         votes := mapSet s.votes pollID (mapSet voters voterKey optionID) },
       .ok (countVote poll optionID))
    | none =>
      ({ s with polls := mapSet s.polls pollID (countVote poll optionID) },
       .panic "assignment to entry in nil map")

/-- Where a goroutine that called `Vote` stands: before `s.mu.Lock()`, holding
the lock before the checks, holding the lock after the checks have passed, or
returned (the deferred `s.mu.Unlock()` has run). -/
inductive Pc where
  | start
  | locked
  | checked
  | done (r : Outcome Poll)
deriving DecidableEq, Repr

/-- The shared store, the goroutine holding the write lock of `s.mu` (if any),
and the position of every goroutine. -/
structure Conc where
  store : Store
  holder : Option Nat
  pcs : List Pc
deriving DecidableEq, Repr

/-- All `n` goroutines are about to call `Vote` and the lock is free. -/
def initConc (s : Store) (n : Nat) : Conc :=
  { store := s, holder := none, pcs := List.replicate n Pc.start }

/-- Goroutine `i`, running `Vote(pollID, voterKey, os[i])`, is scheduled for one
step. `Lock` succeeds only when nobody holds the lock, otherwise the goroutine
stays blocked; a goroutine that has returned does nothing. -/
def goStep (pollID voterKey : String) (os : List Int) (c : Conc) (i : Nat) : Conc :=
  match c.pcs[i]?, os[i]? with
  | some Pc.start, some _ =>
    if c.holder = none then { c with holder := some i, pcs := c.pcs.set i Pc.locked }
    else c
  | some Pc.locked, some o =>
    match voteChecks c.store pollID voterKey o with
    | some msg => { c with holder := none, pcs := c.pcs.set i (Pc.done (.err msg)) }
    | none => { c with pcs := c.pcs.set i Pc.checked }
  | some Pc.checked, some o =>
    { store := (voteWrites c.store pollID voterKey o).1
      holder := none
      pcs := c.pcs.set i (Pc.done (voteWrites c.store pollID voterKey o).2) }
  | _, _ => c

/-- The state after the goroutines were scheduled in the order `sched`. -/
def exec (pollID voterKey : String) (os : List Int) (c : Conc) : List Nat → Conc
  | [] => c
  | i :: sched => exec pollID voterKey os (goStep pollID voterKey os c i) sched

/-- The goroutine has returned. -/
def Pc.isDone : Pc → Bool
  | Pc.done _ => true
  | _ => false

/-- Every goroutine has returned. -/
def allDone (c : Conc) : Bool :=
  c.pcs.all Pc.isDone

/-- The schedule that runs goroutines `k, k+1, ..., k+n-1` one after the other,
three steps each. -/
def seqSched : Nat → Nat → List Nat
  | _, 0 => []
  | k, n + 1 => k :: k :: k :: seqSched (k + 1) n

/-- The error `Vote` returns on poll `poll` for option index `o` when it does
not succeed: the poll-closed error on a closed poll, else the invalid-option
error for an index out of range, else the already-voted error. -/
def rejectMsg (poll : Poll) (o : Int) : String :=
  if poll.Closed then "This poll is closed"
  else if o < 0 ∨ o ≥ (poll.Options.length : Int) then "Invalid option"
  else "You have already voted on this poll"

/-- The state of the concurrent callers is consistent with the lock discipline:
a goroutine past `Lock` is the holder. Either nobody has written yet, the store
is the initial store `s`, a goroutine past the checks has passed them on `s`,
and a goroutine that returned failed them on `s` with `rejectMsg`; or one
goroutine `w` has completed `Vote(p, v, os[w])` on `s`, and every other
goroutine that returned got `rejectMsg`. -/
def ConcInv (s : Store) (p v : String) (os : List Int) (poll : Poll) (c : Conc) : Prop :=
  c.pcs.length = os.length ∧
  (∀ j : Nat,
    (c.pcs[j]? = some Pc.locked ∨ c.pcs[j]? = some Pc.checked) → c.holder = some j) ∧
  ((c.store = s ∧
      ∀ (j : Nat) (pc : Pc) (o : Int), c.pcs[j]? = some pc → os[j]? = some o →
        pc = Pc.start ∨ pc = Pc.locked ∨
        (pc = Pc.checked ∧ voteChecks s p v o = none) ∨
        (pc = Pc.done (.err (rejectMsg poll o)) ∧ voteChecks s p v o ≠ none)) ∨
    ∃ (w : Nat) (ow : Int), os[w]? = some ow ∧ voteChecks s p v ow = none ∧
      c.store = (Vote s p v ow).1 ∧
      c.pcs[w]? = some (Pc.done (Vote s p v ow).2) ∧
      ∀ (j : Nat) (pc : Pc) (o : Int), j ≠ w → c.pcs[j]? = some pc → os[j]? = some o →
        pc = Pc.start ∨ pc = Pc.locked ∨ pc = Pc.done (.err (rejectMsg poll o)))

/-! ## Request handlers -/

/-- Go `type CreatePollRequest struct`, after JSON decoding. -/
structure CreatePollRequest where
  Question : String
  Options : List String
deriving DecidableEq, Repr

/-- Go `type VoteRequest struct`, after JSON decoding; `none` is the nil
pointer of an absent `optionId`. -/
structure VoteRequest where
  OptionID : Option Int
deriving DecidableEq, Repr

/-- Go `type PollResponse struct`. -/
structure PollResponse where
  poll : Poll
  HasVoted : Bool
  VotedOptionID : Option Int
deriving DecidableEq, Repr

/-- Go `type ResultOption struct`; the `float64` percentage is held as the
rational number that the float denotes. -/
structure ResultOption where
  ID : Int
  Text : String
  Votes : Int
  Percentage : ℚ
deriving DecidableEq, Repr

/-- Go `type PollResults struct`. -/
structure PollResults where
  ID : String
  Question : String
  Options : List ResultOption
  TotalVotes : Int
  Closed : Bool
  CreatedAt : String
deriving DecidableEq, Repr

/-- The JSON value a handler writes: `ErrorResponse{Error: msg}`, a poll, a
`PollResponse` or a `PollResults`. -/
inductive Body where
  | error (msg : String)
  | poll (p : Poll)
  | pollResponse (r : PollResponse)
  | results (r : PollResults)
deriving DecidableEq, Repr

/-- What `writeJSON(w, status, data)` sends. -/
structure Response where
  status : Nat
  body : Body
deriving DecidableEq, Repr

/-- The loop `for _, o := range req.Options { if strings.TrimSpace(o) != "" {
validOpts = append(validOpts, o) } }` of the create-poll handler, with the
slice built so far. -/
def filterValid : List String → List String → List String
  | validOpts, [] => validOpts
  | validOpts, o :: rest =>
    if TrimSpace o ≠ "" then filterValid (validOpts ++ [o]) rest
    else filterValid validOpts rest

/-- Go `Server.handleCreatePoll` (and the `POST` branch of `Polls`) on a
decoded request; `id` and `createdAt` are what `CreatePoll` generates when it
is reached. -/
def handleCreatePoll (s : Store) (id createdAt : String) (req : CreatePollRequest) :
    Store × Response :=
  if TrimSpace req.Question = "" ∨ req.Options.length < 2 then
    (s, { status := 400, body := .error "Question and at least 2 options are required." })
  else if (filterValid [] req.Options).length < 2 then
    (s, { status := 400, body := .error "At least 2 non-empty options are required." })
  else
    ((CreatePoll s id createdAt req.Question (filterValid [] req.Options)).1,
     { status := 201
       body := .poll (CreatePoll s id createdAt req.Question (filterValid [] req.Options)).2 })

/-- The status the vote handler picks for an error message of `Store.Vote`:
`status := http.StatusBadRequest`, changed for two messages. -/
def voteErrorStatus (msg : String) : Nat :=
  if msg = "Poll not found" then 404
  else if msg = "You have already voted on this poll" then 409
  else 400

/-- Go `Server.handleVote` (and `Vote` of `api/polls/[id]/vote.go`) on a decoded
request, for the voter key that `getVoterKey` extracted. A panic inside
`Store.Vote` leaves no response (`none`). -/
def handleVote (s : Store) (pollID voterKey : String) (req : VoteRequest) :
    Store × Option Response :=
  match req.OptionID with
  | none => (s, some { status := 400, body := .error "optionId is required." })
  | some optionID =>
    match Vote s pollID voterKey optionID with
    | (s', .err msg) => (s', some { status := voteErrorStatus msg, body := .error msg })
    | (s', .ok poll) =>
      (s', some { status := 200
                  body := .pollResponse
                    { poll := poll, HasVoted := true, VotedOptionID := some optionID } })
    | (s', .panic _) => (s', none)

/-- A finite `float64`: the number `mant * 2^exp`. Values produced by
`roundToF64` have `mant = 0`, or `2^52 ≤ |mant| < 2^53`. -/
structure F64 where
  mant : Int
  exp : Int
deriving DecidableEq, Repr

/-- The rational number a `float64` denotes. -/
def F64.toRat (x : F64) : ℚ :=
  if 0 ≤ x.exp then (x.mant : ℚ) * (2 ^ x.exp.toNat : Nat)
  else (x.mant : ℚ) / (2 ^ (-x.exp).toNat : Nat)

/-- The integer nearest to `num / den`, ties to the even one. -/
def roundHalfEven (num den : Nat) : Nat :=
  if 2 * (num % den) < den then num / den
  else if den < 2 * (num % den) then num / den + 1
  else if (num / den) % 2 = 0 then num / den
  else num / den + 1

/-- The position of the highest set bit, by halving at most `fuel` times. -/
def log2Fuel : Nat → Nat → Nat
  | 0, _ => 0
  | fuel + 1, n => if n < 2 then 0 else log2Fuel fuel (n / 2) + 1

/-- The position of the highest set bit of `n`: `2^(log2 n) ≤ n < 2^(log2 n + 1)`
for `n > 0`. -/
def log2 (n : Nat) : Nat :=
  log2Fuel n n

/-- IEEE 754 round-to-nearest, ties-to-even, of the exact number `n / d` to a
53-bit mantissa: the exponent `e` is chosen with `2^52 ≤ |n/d| / 2^e < 2^53`,
and the scaled value is rounded to an integer. -/
def roundToF64 (n : Int) (d : Nat) : F64 :=
  if n = 0 ∨ d = 0 then { mant := 0, exp := 0 }
  else
    let a := n.natAbs
    let e₀ : Int := (log2 a : Int) - (log2 d : Int) - 52
    let e : Int :=
      if a * 2 ^ (-e₀).toNat < 2 ^ 52 * (d * 2 ^ e₀.toNat) then e₀ - 1 else e₀
    let m := roundHalfEven (a * 2 ^ (-e).toNat) (d * 2 ^ e.toNat)
    let m' : Nat := if m = 2 ^ 53 then 2 ^ 52 else m
    let e' : Int := if m = 2 ^ 53 then e + 1 else e
    { mant := if n < 0 then -(m' : Int) else (m' : Int), exp := e' }

/-- Go `float64(n)` for an `int`, and a float constant such as `1000`. -/
def f64OfInt (n : Int) : F64 :=
  roundToF64 n 1

/-- Go `x / y` on `float64`: the exact quotient, rounded. (For `y = 0` Go gives
an infinity or NaN; the results handler divides only by a positive total.) -/
def f64Div (x y : F64) : F64 :=
  roundToF64 ((if y.mant < 0 then -x.mant else x.mant) * 2 ^ (x.exp - y.exp).toNat)
    (y.mant.natAbs * 2 ^ (y.exp - x.exp).toNat)

/-- Go `x * y` on `float64`: the exact product, rounded. -/
def f64Mul (x y : F64) : F64 :=
  roundToF64 (x.mant * y.mant * 2 ^ (x.exp + y.exp).toNat) (2 ^ (-(x.exp + y.exp)).toNat)

/-- Go `math.Round(x)`: the nearest integer, halves away from zero; a float
with `exp ≥ 0` is an integer already. -/
def f64Round (x : F64) : F64 :=
  if 0 ≤ x.exp then x
  else
    f64OfInt
      (if x.mant < 0 then
        -(((2 * x.mant.natAbs + 2 ^ (-x.exp).toNat) / (2 * 2 ^ (-x.exp).toNat) : Nat) : Int)
      else (((2 * x.mant.natAbs + 2 ^ (-x.exp).toNat) / (2 * 2 ^ (-x.exp).toNat) : Nat) : Int))

/-- The expression `math.Round(float64(votes)/float64(total)*1000) / 10` of the
results handler. -/
def percentageF64 (votes total : Int) : F64 :=
  f64Div (f64Round (f64Mul (f64Div (f64OfInt votes) (f64OfInt total)) (f64OfInt 1000)))
    (f64OfInt 10)

/-- The percentage of the results view: `pct := 0.0`, replaced by
`math.Round(float64(votes)/float64(total)*1000) / 10` when `total > 0`. -/
def percentage (votes total : Int) : ℚ :=
  if total > 0 then (percentageF64 votes total).toRat else 0

/-- Rounding of an exact number to the nearest integer, halves away from zero
(what `math.Round` does to the number its argument denotes). -/
def mathRound (x : ℚ) : ℚ :=
  if 0 ≤ x then (⌊x + 1 / 2⌋ : Int) else -((⌊-x + 1 / 2⌋ : Int) : ℚ)

/-- The percentage as the specification words it, in exact arithmetic:
`round(votes / totalVotes * 1000) / 10`, halves rounded away from zero. -/
def specPercentage (votes total : Int) : ℚ :=
  mathRound ((votes : ℚ) / (total : ℚ) * 1000) / 10

/-- The loop `for i, o := range poll.Options { results.Options[i] = ... }` of the
results handler. -/
def mkResultOptions (total : Int) : List PollOption → List ResultOption
  | [] => []
  | o :: rest =>
    { ID := o.ID, Text := o.Text, Votes := o.Votes, Percentage := percentage o.Votes total }
      :: mkResultOptions total rest

/-- Go `Server.handleGetResults` (and `Results`). -/
def handleGetResults (s : Store) (pollID : String) : Response :=
  match GetPoll s pollID with
  | none => { status := 404, body := .error "Poll not found." }
  | some poll =>
    { status := 200
      body := .results
        { ID := poll.ID
          Question := poll.Question
          Options := mkResultOptions poll.TotalVotes poll.Options
          TotalVotes := poll.TotalVotes
          Closed := poll.Closed
          CreatedAt := poll.CreatedAt } }

/-- Go `Server.handleClosePoll`. -/
def handleClosePoll (s : Store) (pollID : String) : Store × Response :=
  match ClosePoll s pollID with
  | (s', .ok poll) => (s', { status := 200, body := .poll poll })
  | (s', .err msg) => (s', { status := 404, body := .error msg })
  | (s', .panic msg) => (s', { status := 404, body := .error msg })

/-- Poll `q'` has the options of poll `q`, in the same positions with the same
ids and texts, and no counter is lower. -/
def OptionsKept (q q' : Poll) : Prop :=
  q'.Options.length = q.Options.length ∧
  ∀ (i : Nat) (o : PollOption), q.Options[i]? = some o →
    ∃ o', q'.Options[i]? = some o' ∧ o'.ID = o.ID ∧ o'.Text = o.Text ∧ o.Votes ≤ o'.Votes

/-- Every option's id is its position and its counter is not negative. -/
def WellIndexed (q : Poll) : Prop :=
  ∀ (i : Nat) (o : PollOption), q.Options[i]? = some o → o.ID = (i : Int) ∧ 0 ≤ o.Votes

/-! ## Counters against vote records -/

/-- The number of entries of a vote record whose option index is `i`. -/
def countFor (voters : List (String × Int)) (i : Int) : Nat :=
  (voters.filter (fun kv => decide (kv.2 = i))).length

/-- The counters `SeedDefault` starts the default poll with. -/
def seedCounts : List Int :=
  [12, 18, 25, 8, 15, 10]

/-- Bookkeeping for the proofs, not part of the store: the counters each poll
was created with (zeros by `CreatePoll`, `seedCounts` by `SeedDefault`). -/
def baseStep (b : List (String × List Int)) : Op → List (String × List Int)
  | .seedDefault id _ => mapSet b id seedCounts
  | .createPoll id _ _ options => mapSet b id (List.replicate options.length 0)
  | _ => b

/-- The initial counters of all polls after a sequence of calls. -/
def baseRun (b : List (String × List Int)) : List Op → List (String × List Int)
  | [] => b
  | op :: ops => baseRun (baseStep b op) ops

/-- Poll counters agree with the vote record `voters` on top of the initial
counters `base`: recorded indices are in range, each option counter is its
initial value plus the number of voters recorded for it, and the total is the
initial total plus the number of voters. -/
def Tally (poll : Poll) (voters : List (String × Int)) (base : List Int) : Prop :=
  base.length = poll.Options.length ∧
  (∀ kv ∈ voters, 0 ≤ kv.2 ∧ kv.2 < (poll.Options.length : Int)) ∧
  (∀ (i : Nat) (o : PollOption) (c : Int), poll.Options[i]? = some o → base[i]? = some c →
    o.Votes = c + (countFor voters (i : Int) : Int)) ∧
  poll.TotalVotes = base.sum + (voters.length : Int)

/-- Every poll has a vote record and recorded initial counters, and its
counters tally with them. -/
def CountInv (s : Store) (b : List (String × List Int)) : Prop :=
  ∀ id poll, mapGet s.polls id = some poll →
    ∃ voters base, mapGet s.votes id = some voters ∧ mapGet b id = some base ∧
      Tally poll voters base

/-- Poll `p` exists with its vote record, `TotalVotes` minus the number of
record entries is `c`, and voter `v` has exactly one entry in the record. -/
def CountedOnce (s : Store) (p v : String) (c : Int) : Prop :=
  ∃ poll voters, mapGet s.polls p = some poll ∧ mapGet s.votes p = some voters ∧
    poll.TotalVotes - (voters.length : Int) = c ∧ (mapKeys voters).count v = 1

/-! ## Sample stores -/

/-- A store holding one open two-option poll `"p1"`. -/
def sampleStore : Store :=
  (CreatePoll NewStore "p1" "2024-01-01T00:00:00Z" "Pick one" ["X", "Y"]).1

/-- The poll of `sampleStore`. -/
def samplePoll : Poll :=
  (CreatePoll NewStore "p1" "2024-01-01T00:00:00Z" "Pick one" ["X", "Y"]).2

/-- The store `sampleStore` after voter `"v1"` chose option `0`. -/
def votedStore : Store :=
  (Vote sampleStore "p1" "v1" 0).1

/-- The store `votedStore` after the poll was closed. -/
def closedStore : Store :=
  (ClosePoll votedStore "p1").1

/-- A seeded store on which one vote was cast and which was then read. -/
def sampleOps : List Op :=
  [.seedDefault "d0" "2024-01-01T00:00:00Z", .vote "d0" "v1" 2, .getAllPolls,
   .createPoll "p1" "2024-01-02T00:00:00Z" "Pick one" ["X", "Y"], .vote "p1" "v1" 0,
   .hasVoted "p1" "v1", .getPoll "p1", .closePoll "d0"]

/-- Further calls on a store that already holds `"p1"`: votes on `"p1"` by old
and new voters, another poll, a seeded poll, a second close. -/
def laterOps : List Op :=
  [.createPoll "p2" "2024-01-03T00:00:00Z" "Again" ["A", "B", "C"], .vote "p1" "v2" 1,
   .vote "p1" "v1" 1, .closePoll "p1", .vote "p2" "v1" 0,
   .seedDefault "d1" "2024-01-04T00:00:00Z", .getAllPolls, .vote "p1" "v3" 0]

/-- An interleaving of three goroutines in which goroutine 1 gets the lock
first while 0 and 2 block, then 2, then 0. -/
def sampleSched : List Nat :=
  [1, 0, 2, 1, 0, 1, 2, 0, 2, 0, 0]

/-- The default poll `"d0"` at the end of `sampleOps`: one more vote for
option 2, closed. -/
def sampleDefaultPoll : Poll :=
  { ID := "d0"
    Question := "What's your favorite programming language?"
    Options :=
      [ { ID := 0, Text := "JavaScript", Votes := 12 },
        { ID := 1, Text := "Python", Votes := 18 },
        { ID := 2, Text := "Go", Votes := 26 },
        { ID := 3, Text := "Rust", Votes := 8 },
        { ID := 4, Text := "TypeScript", Votes := 15 },
        { ID := 5, Text := "Java", Votes := 10 } ]
    TotalVotes := 89
    Closed := true
    CreatedAt := "2024-01-01T00:00:00Z" }

/-! ## Lemmas on maps -/

theorem mapGet_mapSet_self {β : Type} (m : List (String × β)) (k : String) (v : β) :
    mapGet (mapSet m k v) k = some v := by
  induction m with
  | nil => simp [mapSet, mapGet]
  | cons kv rest ih =>
    obtain ⟨k', v'⟩ := kv
    by_cases h : k' = k
    · simp [mapSet, mapGet, h]
    · simp [mapSet, mapGet, h, ih]

theorem mapGet_mapSet_ne {β : Type} (m : List (String × β)) (k k₂ : String) (v : β)
    (h : k₂ ≠ k) : mapGet (mapSet m k v) k₂ = mapGet m k₂ := by
  induction m with
  | nil =>
    have h' : ¬ k = k₂ := fun e => h e.symm
    simp [mapSet, mapGet, h']
  | cons kv rest ih =>
    obtain ⟨k', v'⟩ := kv
    by_cases hk : k' = k
    · subst hk
      have h' : ¬ k' = k₂ := fun e => h e.symm
      simp [mapSet, mapGet, h']
    · by_cases hk2 : k' = k₂
      · subst hk2
        simp [mapSet, mapGet, hk]
      · simp [mapSet, mapGet, hk, hk2, ih]

theorem mapGet_mapSet {β : Type} (m : List (String × β)) (k k₂ : String) (v : β) :
    mapGet (mapSet m k v) k₂ = if k₂ = k then some v else mapGet m k₂ := by
  by_cases h : k₂ = k
  · subst h; simp [mapGet_mapSet_self]
  · simp [h, mapGet_mapSet_ne m k k₂ v h]

theorem mem_mapSet {β : Type} (m : List (String × β)) (k : String) (v : β)
    (kv : String × β) (h : kv ∈ mapSet m k v) : kv = (k, v) ∨ kv ∈ m := by
  induction m with
  | nil => simp [mapSet] at h; exact Or.inl h
  | cons hd rest ih =>
    obtain ⟨k', v'⟩ := hd
    by_cases hk : k' = k
    · simp [mapSet, hk] at h
      rcases h with h | h
      · exact Or.inl h
      · exact Or.inr (List.mem_cons_of_mem _ h)
    · simp [mapSet, hk] at h
      rcases h with h | h
      · exact Or.inr (by rw [h]; exact List.mem_cons_self _ _)
      · rcases ih h with h' | h'
        · exact Or.inl h'
        · exact Or.inr (List.mem_cons_of_mem _ h')

theorem mapGet_of_mem_keys {β : Type} (m : List (String × β)) (k : String)
    (h : k ∈ mapKeys m) : ∃ v, mapGet m k = some v := by
  induction m with
  | nil => simp [mapKeys] at h
  | cons hd rest ih =>
    obtain ⟨k', v'⟩ := hd
    by_cases hk : k' = k
    · exact ⟨v', by simp [mapGet, hk]⟩
    · have : k ∈ mapKeys rest := by
        simp [mapKeys] at h
        rcases h with h | h
        · exact absurd h.symm hk
        · simpa [mapKeys] using h
      obtain ⟨v, hv⟩ := ih this
      exact ⟨v, by simp [mapGet, hk, hv]⟩

theorem mapGet_mem {β : Type} (m : List (String × β)) (k : String) (v : β)
    (h : mapGet m k = some v) : (k, v) ∈ m := by
  induction m with
  | nil => simp [mapGet] at h
  | cons hd rest ih =>
    obtain ⟨k', v'⟩ := hd
    by_cases hk : k' = k
    · simp [mapGet, hk] at h
      subst hk; subst h
      exact List.mem_cons_self _ _
    · simp [mapGet, hk] at h
      exact List.mem_cons_of_mem _ (ih h)

theorem mapKeys_mapSet_of_get {β : Type} (m : List (String × β)) (k : String) (v w : β)
    (h : mapGet m k = some w) : mapKeys (mapSet m k v) = mapKeys m := by
  induction m with
  | nil => simp [mapGet] at h
  | cons hd rest ih =>
    obtain ⟨k', v'⟩ := hd
    by_cases hk : k' = k
    · simp [mapSet, mapKeys, hk]
    · simp [mapGet, hk] at h
      have := ih h
      simp [mapKeys] at this
      simp [mapSet, mapKeys, hk, this]

theorem mapKeys_mapSet_of_none {β : Type} (m : List (String × β)) (k : String) (v : β)
    (h : mapGet m k = none) : mapKeys (mapSet m k v) = mapKeys m ++ [k] := by
  induction m with
  | nil => simp [mapSet, mapKeys]
  | cons hd rest ih =>
    obtain ⟨k', v'⟩ := hd
    by_cases hk : k' = k
    · simp [mapGet, hk] at h
    · simp [mapGet, hk] at h
      have := ih h
      simp [mapKeys] at this
      simp [mapSet, mapKeys, hk, this]

theorem mapGet_none_not_mem_keys {β : Type} (m : List (String × β)) (k : String)
    (h : mapGet m k = none) : k ∉ mapKeys m := by
  intro hm
  obtain ⟨v, hv⟩ := mapGet_of_mem_keys m k hm
  rw [h] at hv
  exact Option.noConfusion hv

/-! ## Lemmas on the counters -/

theorem length_incVotesAt (opts : List PollOption) (n : Nat) :
    (incVotesAt opts n).length = opts.length := by
  induction opts generalizing n with
  | nil => simp [incVotesAt]
  | cons o os ih =>
    cases n with
    | zero => simp [incVotesAt]
    | succ n => simp [incVotesAt, ih]

theorem getElem?_incVotesAt_self (opts : List PollOption) (n : Nat) :
    (incVotesAt opts n)[n]? = (opts[n]?).map (fun o => { o with Votes := o.Votes + 1 }) := by
  induction opts generalizing n with
  | nil => simp [incVotesAt]
  | cons o os ih =>
    cases n with
    | zero => simp [incVotesAt]
    | succ n => simp [incVotesAt, ih]

theorem getElem?_incVotesAt_ne (opts : List PollOption) (n i : Nat) (h : i ≠ n) :
    (incVotesAt opts n)[i]? = opts[i]? := by
  induction opts generalizing n i with
  | nil => simp [incVotesAt]
  | cons o os ih =>
    cases n with
    | zero =>
      cases i with
      | zero => exact absurd rfl h
      | succ i => simp [incVotesAt]
    | succ n =>
      cases i with
      | zero => simp [incVotesAt]
      | succ i =>
        have : i ≠ n := fun e => h (by rw [e])
        simp [incVotesAt, ih n i this]

theorem sumVotes_incVotesAt (opts : List PollOption) (n : Nat) (h : n < opts.length) :
    sumVotes (incVotesAt opts n) = sumVotes opts + 1 := by
  induction opts generalizing n with
  | nil => simp at h
  | cons o os ih =>
    cases n with
    | zero => simp [incVotesAt, sumVotes]; ring
    | succ n =>
      have hn : n < os.length := by simpa using h
      have := ih n hn
      simp [sumVotes] at this
      simp [incVotesAt, sumVotes, this]; ring

/-- Unfolding of a successful `Vote`: all four checks passed. -/
theorem Vote_ok_inv (s s' : Store) (pollID voterKey : String) (optionID : Int) (poll' : Poll)
    (h : Vote s pollID voterKey optionID = (s', .ok poll')) :
    ∃ poll voters, mapGet s.polls pollID = some poll ∧ poll.Closed = false ∧
      0 ≤ optionID ∧ optionID < (poll.Options.length : Int) ∧
      mapGet s.votes pollID = some voters ∧ mapGet voters voterKey = none ∧
      poll' = countVote poll optionID ∧
      s' = { polls := mapSet s.polls pollID (countVote poll optionID)
             votes := mapSet s.votes pollID (mapSet voters voterKey optionID) } := by
  unfold Vote at h
  split at h
  · simp at h
  · rename_i poll hp
    split at h
    · simp at h
    · rename_i hc
      split at h
      · simp at h
      · rename_i hr
        split at h
        · rename_i voters hv
          split at h
          · simp at h
          · rename_i hvk
            simp only [Prod.mk.injEq, Outcome.ok.injEq] at h
            refine ⟨poll, voters, hp, by simpa using hc, ?_, ?_, hv, hvk, h.2.symm, h.1.symm⟩
            · omega
            · omega
        · simp at h

/-- Unfolding of a failed `Vote`: the store is the one it was called on. -/
theorem Vote_err_store (s s' : Store) (pollID voterKey : String) (optionID : Int)
    (msg : String) (h : Vote s pollID voterKey optionID = (s', .err msg)) : s' = s := by
  unfold Vote at h
  split at h
  · simp at h; exact h.1.symm
  · split at h
    · simp at h; exact h.1.symm
    · split at h
      · simp at h; exact h.1.symm
      · split at h
        · split at h
          · simp at h; exact h.1.symm
          · simp at h
        · simp at h

/-! ## Vote -/

/-- C1: when `Vote` succeeds, the option at the given index has its counter
increased by one and every other option is unchanged, `TotalVotes` is increased
by one, the poll's vote record maps the voter key to the option index, and the
returned poll is the updated poll now stored under the poll id. -/
theorem Vote_success_effects (s s' : Store) (pollID voterKey : String) (optionID : Int)
    (poll' : Poll) (h : Vote s pollID voterKey optionID = (s', .ok poll')) :
    ∃ poll o, GetPoll s pollID = some poll ∧ 0 ≤ optionID ∧
      poll.Options[optionID.toNat]? = some o ∧
      poll'.Options[optionID.toNat]? = some { o with Votes := o.Votes + 1 } ∧
      (∀ i, i ≠ optionID.toNat → poll'.Options[i]? = poll.Options[i]?) ∧
      poll'.Options.length = poll.Options.length ∧
      poll'.TotalVotes = poll.TotalVotes + 1 ∧
      poll'.ID = poll.ID ∧ poll'.Question = poll.Question ∧
      poll'.Closed = poll.Closed ∧ poll'.CreatedAt = poll.CreatedAt ∧
      (∃ voters', mapGet s'.votes pollID = some voters' ∧
        mapGet voters' voterKey = some optionID) ∧
      HasVoted s' pollID voterKey = (true, optionID) ∧
      GetPoll s' pollID = some poll' := by
  obtain ⟨poll, voters, hp, _, h0, hlt, hv, _, hpoll', hs'⟩ :=
    Vote_ok_inv s s' pollID voterKey optionID poll' h
  have hn : optionID.toNat < poll.Options.length := by omega
  have hvotes : mapGet s'.votes pollID = some (mapSet voters voterKey optionID) := by
    rw [hs']; exact mapGet_mapSet_self _ _ _
  refine ⟨poll, poll.Options[optionID.toNat], hp, h0, ?_, ?_, ?_, ?_, ?_, ?_, ?_, ?_, ?_,
    ⟨_, hvotes, mapGet_mapSet_self _ _ _⟩, ?_, ?_⟩
  · exact List.getElem?_eq_getElem hn
  · rw [hpoll']
    simp only [countVote]
    rw [getElem?_incVotesAt_self, List.getElem?_eq_getElem hn]
    rfl
  · intro i hi
    rw [hpoll']
    exact getElem?_incVotesAt_ne _ _ _ hi
  · rw [hpoll']; exact length_incVotesAt _ _
  · rw [hpoll']; rfl
  · rw [hpoll']; rfl
  · rw [hpoll']; rfl
  · rw [hpoll']; rfl
  · rw [hpoll']; rfl
  · simp only [HasVoted, hvotes, mapGet_mapSet_self]
  · rw [hs', hpoll']; exact mapGet_mapSet_self _ _ _

theorem Vote_success_effects_witness :
    Vote sampleStore "p1" "v1" 0 = (votedStore, .ok (countVote samplePoll 0)) ∧
    ∃ poll o, GetPoll sampleStore "p1" = some poll ∧ (0 : Int) ≤ 0 ∧
      poll.Options[(0 : Int).toNat]? = some o ∧
      (countVote samplePoll 0).Options[(0 : Int).toNat]? =
        some { o with Votes := o.Votes + 1 } ∧
      (∀ i, i ≠ (0 : Int).toNat → (countVote samplePoll 0).Options[i]? = poll.Options[i]?) ∧
      (countVote samplePoll 0).Options.length = poll.Options.length ∧
      (countVote samplePoll 0).TotalVotes = poll.TotalVotes + 1 ∧
      (countVote samplePoll 0).ID = poll.ID ∧
      (countVote samplePoll 0).Question = poll.Question ∧
      (countVote samplePoll 0).Closed = poll.Closed ∧
      (countVote samplePoll 0).CreatedAt = poll.CreatedAt ∧
      (∃ voters', mapGet votedStore.votes "p1" = some voters' ∧
        mapGet voters' "v1" = some 0) ∧
      HasVoted votedStore "p1" "v1" = (true, 0) ∧
      GetPoll votedStore "p1" = some (countVote samplePoll 0) :=
  ⟨by decide,
   Vote_success_effects sampleStore votedStore "p1" "v1" 0 (countVote samplePoll 0)
     (by decide)⟩

/-- C2: when `Vote` returns an error, the error is one of the four
precondition failures and the store after the call is the store before it. -/
theorem Vote_error_atomic (s s' : Store) (pollID voterKey : String) (optionID : Int)
    (msg : String) (h : Vote s pollID voterKey optionID = (s', .err msg)) :
    s' = s ∧ s'.polls = s.polls ∧ s'.votes = s.votes ∧
      (msg = "Poll not found" ∨ msg = "This poll is closed" ∨ msg = "Invalid option" ∨
        msg = "You have already voted on this poll") := by
  have hs := Vote_err_store s s' pollID voterKey optionID msg h
  refine ⟨hs, by rw [hs], by rw [hs], ?_⟩
  unfold Vote at h
  split at h
  · simp at h; exact Or.inl h.2.symm
  · split at h
    · simp at h; exact Or.inr (Or.inl h.2.symm)
    · split at h
      · simp at h; exact Or.inr (Or.inr (Or.inl h.2.symm))
      · split at h
        · split at h
          · simp at h; exact Or.inr (Or.inr (Or.inr h.2.symm))
          · simp at h
        · simp at h

theorem Vote_error_atomic_witness :
    Vote votedStore "p1" "v1" 1 =
      (votedStore, .err "You have already voted on this poll") ∧
    (votedStore = votedStore ∧ votedStore.polls = votedStore.polls ∧
      votedStore.votes = votedStore.votes ∧
      ("You have already voted on this poll" = "Poll not found" ∨
        "You have already voted on this poll" = "This poll is closed" ∨
        "You have already voted on this poll" = "Invalid option" ∨
        "You have already voted on this poll" = "You have already voted on this poll")) :=
  ⟨by decide,
   Vote_error_atomic votedStore votedStore "p1" "v1" 1
     "You have already voted on this poll" (by decide)⟩

theorem Vote_eq_checks_writes (s : Store) (pollID voterKey : String) (optionID : Int) :
    Vote s pollID voterKey optionID =
      match voteChecks s pollID voterKey optionID with
      | some msg => (s, .err msg)
      | none => voteWrites s pollID voterKey optionID := by
  unfold Vote voteChecks voteWrites
  cases hp : mapGet s.polls pollID with
  | none => rfl
  | some poll =>
    by_cases hc : poll.Closed = true
    · simp [hc]
    · by_cases hr : optionID < 0 ∨ optionID ≥ (poll.Options.length : Int)
      · simp [hc, hr]
      · cases hv : mapGet s.votes pollID with
        | none => simp [hc, hr]
        | some voters =>
          cases hvk : mapGet voters voterKey with
          | none => simp [hc, hr, hvk]
          | some o => simp [hc, hr, hvk]

/-! ## The counter invariant -/

theorem SumInv_mapSet (s : Store) (votes' : List (String × List (String × Int)))
    (k : String) (p : Poll) (hs : SumInv s) (hp : p.TotalVotes = sumVotes p.Options) :
    SumInv { polls := mapSet s.polls k p, votes := votes' } := by
  intro kp hkp
  rcases mem_mapSet s.polls k p kp hkp with h | h
  · rw [h]; exact hp
  · exact hs kp h

theorem sumVotes_mkOptions (i : Nat) (options : List String) :
    sumVotes (mkOptions i options) = 0 := by
  induction options generalizing i with
  | nil => simp [mkOptions, sumVotes]
  | cons t rest ih =>
    have := ih (i + 1)
    simp [sumVotes] at this
    simp [mkOptions, sumVotes, this]

theorem SumInv_Vote (s : Store) (pollID voterKey : String) (optionID : Int)
    (hs : SumInv s) : SumInv (Vote s pollID voterKey optionID).1 := by
  unfold Vote
  split
  · exact hs
  · rename_i poll hp
    have hpoll : poll.TotalVotes = sumVotes poll.Options :=
      hs (pollID, poll) (mapGet_mem _ _ _ hp)
    split
    · exact hs
    · split
      · exact hs
      · rename_i hr
        have hn : optionID.toNat < poll.Options.length := by omega
        have hcv : (countVote poll optionID).TotalVotes =
            sumVotes (countVote poll optionID).Options := by
          simp only [countVote]
          rw [sumVotes_incVotesAt _ _ hn, hpoll]
        split
        · split
          · exact hs
          · exact SumInv_mapSet s _ pollID _ hs hcv
        · exact SumInv_mapSet s _ pollID _ hs hcv

theorem SumInv_step (s : Store) (op : Op) (hs : SumInv s) : SumInv (step s op) := by
  cases op with
  | seedDefault id createdAt =>
    exact SumInv_mapSet s _ id _ hs (by simp [defaultPoll, sumVotes])
  | createPoll id createdAt question options =>
    exact SumInv_mapSet s _ id _ hs (by simp [sumVotes_mkOptions])
  | vote pollID voterKey optionID => exact SumInv_Vote s pollID voterKey optionID hs
  | closePoll id =>
    simp only [step, ClosePoll]
    split
    · exact hs
    · rename_i poll hp
      exact SumInv_mapSet s _ id _ hs (hs (id, poll) (mapGet_mem _ _ _ hp))
  | getPoll id => exact hs
  | getAllPolls => exact hs
  | hasVoted pollID voterKey => exact hs

theorem SumInv_run (s : Store) (ops : List Op) (hs : SumInv s) : SumInv (run s ops) := by
  induction ops generalizing s with
  | nil => exact hs
  | cons op ops ih => exact ih (step s op) (SumInv_step s op hs)

/-- C3: in every store reached from `NewStore` by any finite sequence of
`SeedDefault`, `CreatePoll`, `Vote`, `ClosePoll`, `GetPoll`, `GetAllPolls` and
`HasVoted` calls, every poll has `TotalVotes` equal to the sum of its option
counters; the seeded default poll starts with counters 12, 18, 25, 8, 15, 10
and total 88. -/
theorem TotalVotes_eq_sum_reachable (ops : List Op) :
    (∀ p ∈ GetAllPolls (run NewStore ops), p.TotalVotes = sumVotes p.Options) ∧
    (∀ id p, GetPoll (run NewStore ops) id = some p → p.TotalVotes = sumVotes p.Options) ∧
    (∀ id createdAt,
      (defaultPoll id createdAt).Options.map PollOption.Votes = [12, 18, 25, 8, 15, 10] ∧
      (defaultPoll id createdAt).TotalVotes = 88 ∧
      sumVotes (defaultPoll id createdAt).Options = 88) := by
  have hinv : SumInv (run NewStore ops) :=
    SumInv_run NewStore ops (fun kp hkp => by simp [NewStore] at hkp)
  refine ⟨?_, ?_, fun id createdAt => ⟨rfl, rfl, by simp [defaultPoll, sumVotes]⟩⟩
  · intro p hp
    simp only [GetAllPolls, List.mem_map] at hp
    obtain ⟨kp, hkp, rfl⟩ := hp
    exact hinv kp hkp
  · intro id p hp
    exact hinv (id, p) (mapGet_mem _ _ _ hp)

theorem TotalVotes_eq_sum_reachable_witness :
    GetPoll (run NewStore sampleOps) "d0" = some sampleDefaultPoll ∧
    sampleDefaultPoll.TotalVotes = sumVotes sampleDefaultPoll.Options :=
  ⟨by decide,
   (TotalVotes_eq_sum_reachable sampleOps).2.1 "d0" sampleDefaultPoll (by decide)⟩

/-! ## Closed polls -/

theorem Vote_closed (s : Store) (pollID voterKey : String) (optionID : Int) (poll : Poll)
    (hp : mapGet s.polls pollID = some poll) (hc : poll.Closed = true) :
    Vote s pollID voterKey optionID = (s, .err "This poll is closed") := by
  simp [Vote, hp, hc]

theorem Vote_polls_other (s : Store) (pollID voterKey : String) (optionID : Int)
    (k : String) (hk : k ≠ pollID) :
    mapGet (Vote s pollID voterKey optionID).1.polls k = mapGet s.polls k := by
  unfold Vote
  split
  · rfl
  · split
    · rfl
    · split
      · rfl
      · split
        · split
          · rfl
          · exact mapGet_mapSet_ne _ _ _ _ hk
        · exact mapGet_mapSet_ne _ _ _ _ hk

theorem ClosePoll_polls (s : Store) (id k : String) :
    mapGet (ClosePoll s id).1.polls k =
      (mapGet s.polls k).map (fun p => if k = id then { p with Closed := true } else p) := by
  unfold ClosePoll
  split
  · rename_i hp
    by_cases hk : k = id
    · subst hk; simp [hp]
    · simp [hk]
  · rename_i poll hp
    by_cases hk : k = id
    · subst hk; simp [hp, mapGet_mapSet_self]
    · simp [hk, mapGet_mapSet_ne _ _ _ _ hk]

theorem freshId_ne (s : Store) (id k : String) (p : Poll) (hf : freshId s id = true)
    (hk : mapGet s.polls k = some p) : k ≠ id := by
  intro e
  subst e
  simp [freshId, hk] at hf

theorem closed_poll_step (s : Store) (op : Op) (id : String) (poll : Poll)
    (hp : mapGet s.polls id = some poll) (hc : poll.Closed = true)
    (hf : freshOp s op = true) : mapGet (step s op).polls id = some poll := by
  cases op with
  | seedDefault id' createdAt =>
    have hne := freshId_ne s id' id poll hf hp
    simp only [step, SeedDefault]
    rw [mapGet_mapSet_ne _ _ _ _ hne, hp]
  | createPoll id' createdAt question options =>
    have hne := freshId_ne s id' id poll hf hp
    simp only [step, CreatePoll]
    rw [mapGet_mapSet_ne _ _ _ _ hne, hp]
  | vote pollID voterKey optionID =>
    by_cases hk : id = pollID
    · subst hk
      simp only [step]
      rw [Vote_closed s id voterKey optionID poll hp hc]
      exact hp
    · simp only [step]
      rw [Vote_polls_other _ _ _ _ _ hk, hp]
  | closePoll id' =>
    simp only [step]
    rw [ClosePoll_polls, hp]
    by_cases hk : id = id'
    · cases poll
      simp only [] at hc
      simp [hk, hc]
    · simp [hk]
  | getPoll id' => exact hp
  | getAllPolls => exact hp
  | hasVoted pollID voterKey => exact hp

theorem closed_poll_run (s : Store) (ops : List Op) (id : String) (poll : Poll)
    (hp : mapGet s.polls id = some poll) (hc : poll.Closed = true)
    (hf : freshRun s ops = true) : mapGet (run s ops).polls id = some poll := by
  induction ops generalizing s with
  | nil => exact hp
  | cons op ops ih =>
    simp only [freshRun, Bool.and_eq_true] at hf
    exact ih (step s op) (closed_poll_step s op id poll hp hc hf.1) hf.2

/-- C4: once `ClosePoll(id)` has succeeded, then after any further finite
sequence of store operations (ids generated by `CreatePoll` / `SeedDefault`
being fresh) the poll is still closed and still has the option counters and
`TotalVotes` it had when it was closed, and every `Vote` on that id fails with
"This poll is closed" and leaves the store, hence all counters, unchanged. -/
theorem closed_poll_rejects_votes (s s₁ : Store) (id : String) (poll : Poll)
    (ops : List Op) (hclose : ClosePoll s id = (s₁, .ok poll))
    (hf : freshRun s₁ ops = true) :
    GetPoll (run s₁ ops) id = some poll ∧ poll.Closed = true ∧
    ∀ voterKey optionID,
      Vote (run s₁ ops) id voterKey optionID = (run s₁ ops, .err "This poll is closed") := by
  have hc : poll.Closed = true := by
    unfold ClosePoll at hclose
    split at hclose
    · simp at hclose
    · simp only [Prod.mk.injEq, Outcome.ok.injEq] at hclose
      rw [← hclose.2]
  have hp : mapGet s₁.polls id = some poll := by
    unfold ClosePoll at hclose
    split at hclose
    · simp at hclose
    · simp only [Prod.mk.injEq, Outcome.ok.injEq] at hclose
      rw [← hclose.1, ← hclose.2]
      exact mapGet_mapSet_self _ _ _
  have hrun := closed_poll_run s₁ ops id poll hp hc hf
  exact ⟨hrun, hc, fun voterKey optionID =>
    Vote_closed (run s₁ ops) id voterKey optionID poll hrun hc⟩

theorem closed_poll_rejects_votes_witness :
    ClosePoll votedStore "p1" = (closedStore, .ok { countVote samplePoll 0 with Closed := true }) ∧
    freshRun closedStore laterOps = true ∧
    (GetPoll (run closedStore laterOps) "p1" =
        some { countVote samplePoll 0 with Closed := true } ∧
      ({ countVote samplePoll 0 with Closed := true } : Poll).Closed = true ∧
      ∀ voterKey optionID,
        Vote (run closedStore laterOps) "p1" voterKey optionID =
          (run closedStore laterOps, .err "This poll is closed")) :=
  ⟨by decide, by decide,
   closed_poll_rejects_votes votedStore closedStore "p1" _ laterOps (by decide) (by decide)⟩

/-! ## One vote per voter -/

theorem run_append (s : Store) (a b : List Op) : run s (a ++ b) = run (run s a) b := by
  induction a generalizing s with
  | nil => rfl
  | cons op a ih => exact ih (step s op)

theorem freshRun_append (s : Store) (a b : List Op) :
    freshRun s (a ++ b) = (freshRun s a && freshRun (run s a) b) := by
  induction a generalizing s with
  | nil => simp [freshRun, run]
  | cons op a ih => simp [freshRun, run, ih, Bool.and_assoc]

theorem VotesNodup_mapSet (s : Store) (polls' : List (String × Poll)) (k : String)
    (voters : List (String × Int)) (hs : VotesNodup s) (hv : (mapKeys voters).Nodup) :
    VotesNodup { polls := polls', votes := mapSet s.votes k voters } := by
  intro kv hkv
  rcases mem_mapSet s.votes k voters kv hkv with h | h
  · rw [h]; exact hv
  · exact hs kv h

theorem VotesNodup_step (s : Store) (op : Op) (hs : VotesNodup s) :
    VotesNodup (step s op) := by
  cases op with
  | seedDefault id createdAt => exact VotesNodup_mapSet s _ id [] hs (by simp [mapKeys])
  | createPoll id createdAt question options =>
    exact VotesNodup_mapSet s _ id [] hs (by simp [mapKeys])
  | vote pollID voterKey optionID =>
    simp only [step]
    unfold Vote
    split
    · exact hs
    · split
      · exact hs
      · split
        · exact hs
        · split
          · rename_i voters hv
            split
            · exact hs
            · rename_i hvk
              refine VotesNodup_mapSet s _ pollID _ hs ?_
              rw [mapKeys_mapSet_of_none _ _ _ hvk]
              have hnd : (mapKeys voters).Nodup := hs (pollID, voters) (mapGet_mem _ _ _ hv)
              have hni := mapGet_none_not_mem_keys _ _ hvk
              exact List.Nodup.append hnd (List.nodup_singleton _)
                (by
                  intro a ha hb
                  rw [List.mem_singleton] at hb
                  exact hni (hb ▸ ha))
          · exact hs
  | closePoll id =>
    simp only [step]
    unfold ClosePoll
    split
    · exact hs
    · exact hs
  | getPoll id => exact hs
  | getAllPolls => exact hs
  | hasVoted pollID voterKey => exact hs

theorem VotesNodup_run (s : Store) (ops : List Op) (hs : VotesNodup s) :
    VotesNodup (run s ops) := by
  induction ops generalizing s with
  | nil => exact hs
  | cons op ops ih => exact ih (step s op) (VotesNodup_step s op hs)

theorem Vote_votes_other (s : Store) (pollID voterKey : String) (optionID : Int)
    (k : String) (hk : k ≠ pollID) :
    mapGet (Vote s pollID voterKey optionID).1.votes k = mapGet s.votes k := by
  unfold Vote
  split
  · rfl
  · split
    · rfl
    · split
      · rfl
      · split
        · split
          · rfl
          · exact mapGet_mapSet_ne _ _ _ _ hk
        · rfl

theorem Vote_polls_isSome (s : Store) (pollID voterKey : String) (optionID : Int)
    (k : String) (poll : Poll) (hk : mapGet s.polls k = some poll) :
    ∃ poll', mapGet (Vote s pollID voterKey optionID).1.polls k = some poll' := by
  by_cases hne : k = pollID
  · subst hne
    unfold Vote
    split
    · exact ⟨poll, hk⟩
    · split
      · exact ⟨poll, hk⟩
      · split
        · exact ⟨poll, hk⟩
        · split
          · split
            · exact ⟨poll, hk⟩
            · exact ⟨_, mapGet_mapSet_self _ _ _⟩
          · exact ⟨_, mapGet_mapSet_self _ _ _⟩
  · exact ⟨poll, by rw [Vote_polls_other _ _ _ _ _ hne, hk]⟩

theorem Recorded_Vote (s : Store) (pollID voterKey : String) (optionID : Int)
    (p v : String) (o : Int) (h : Recorded s p v o) :
    Recorded (Vote s pollID voterKey optionID).1 p v o := by
  obtain ⟨⟨poll, hp⟩, voters, hv, hvo⟩ := h
  refine ⟨Vote_polls_isSome s pollID voterKey optionID p poll hp, ?_⟩
  by_cases hne : p = pollID
  · subst hne
    unfold Vote
    split
    · exact ⟨voters, hv, hvo⟩
    · split
      · exact ⟨voters, hv, hvo⟩
      · split
        · exact ⟨voters, hv, hvo⟩
        · split
          · rename_i voters' hv'
            have hvv : voters' = voters := by
              rw [hv] at hv'; exact (Option.some.inj hv').symm
            subst hvv
            split
            · exact ⟨voters', hv, hvo⟩
            · rename_i hvk
              have hvne : v ≠ voterKey := by
                intro e
                subst e
                rw [hvo] at hvk
                exact Option.noConfusion hvk
              exact ⟨_, mapGet_mapSet_self _ _ _, by
                rw [mapGet_mapSet_ne _ _ _ _ hvne]; exact hvo⟩
          · exact ⟨voters, hv, hvo⟩
  · exact ⟨voters, by rw [Vote_votes_other _ _ _ _ _ hne, hv], hvo⟩

theorem Recorded_step (s : Store) (op : Op) (p v : String) (o : Int)
    (h : Recorded s p v o) (hf : freshOp s op = true) : Recorded (step s op) p v o := by
  cases op with
  | seedDefault id createdAt =>
    obtain ⟨⟨poll, hp⟩, voters, hv, hvo⟩ := h
    have hne := freshId_ne s id p poll hf hp
    exact ⟨⟨poll, by simp only [step, SeedDefault]; rw [mapGet_mapSet_ne _ _ _ _ hne, hp]⟩,
      voters, by simp only [step, SeedDefault]; rw [mapGet_mapSet_ne _ _ _ _ hne, hv], hvo⟩
  | createPoll id createdAt question options =>
    obtain ⟨⟨poll, hp⟩, voters, hv, hvo⟩ := h
    have hne := freshId_ne s id p poll hf hp
    exact ⟨⟨poll, by simp only [step, CreatePoll]; rw [mapGet_mapSet_ne _ _ _ _ hne, hp]⟩,
      voters, by simp only [step, CreatePoll]; rw [mapGet_mapSet_ne _ _ _ _ hne, hv], hvo⟩
  | vote pollID voterKey optionID => exact Recorded_Vote s pollID voterKey optionID p v o h
  | closePoll id =>
    obtain ⟨⟨poll, hp⟩, voters, hv, hvo⟩ := h
    refine ⟨⟨_, by simp only [step]; rw [ClosePoll_polls, hp]; rfl⟩, voters, ?_, hvo⟩
    simp only [step]
    unfold ClosePoll
    split
    · exact hv
    · exact hv
  | getPoll id => exact h
  | getAllPolls => exact h
  | hasVoted pollID voterKey => exact h

theorem Recorded_run (s : Store) (ops : List Op) (p v : String) (o : Int)
    (h : Recorded s p v o) (hf : freshRun s ops = true) : Recorded (run s ops) p v o := by
  induction ops generalizing s with
  | nil => exact h
  | cons op ops ih =>
    simp only [freshRun, Bool.and_eq_true] at hf
    exact ih (step s op) (Recorded_step s op p v o h hf.1) hf.2

/-- A voter with a recorded vote cannot vote again: the call fails, with the
already-voted error unless the poll is closed or the index is out of range. -/
theorem Vote_of_Recorded (s : Store) (p v : String) (o o' : Int) (h : Recorded s p v o) :
    (∃ msg, Vote s p v o' = (s, .err msg) ∧ msg ≠ "Poll not found") ∧
    (∀ q, mapGet s.polls p = some q → q.Closed = false → 0 ≤ o' →
      o' < (q.Options.length : Int) →
      Vote s p v o' = (s, .err "You have already voted on this poll")) := by
  obtain ⟨⟨poll, hp⟩, voters, hv, hvo⟩ := h
  constructor
  · unfold Vote
    simp only [hp, hv, hvo]
    split
    · exact ⟨_, rfl, by decide⟩
    · split
      · exact ⟨_, rfl, by decide⟩
      · exact ⟨_, rfl, by decide⟩
  · intro q hq hc h0 hlt
    have hqp : q = poll := by rw [hp] at hq; exact (Option.some.inj hq).symm
    subst hqp
    unfold Vote
    simp only [hp, hv, hvo, hc]
    have : ¬ (o' < 0 ∨ o' ≥ (q.Options.length : Int)) := by omega
    simp [this]

theorem nodup_mapKeys_mapSet {β : Type} (m : List (String × β)) (k : String) (v : β)
    (h : (mapKeys m).Nodup) : (mapKeys (mapSet m k v)).Nodup := by
  cases hg : mapGet m k with
  | none =>
    rw [mapKeys_mapSet_of_none _ _ _ hg]
    have hni := mapGet_none_not_mem_keys _ _ hg
    refine List.Nodup.append h (List.nodup_singleton _) ?_
    intro a ha hb
    rw [List.mem_singleton] at hb
    exact hni (hb ▸ ha)
  | some w => rw [mapKeys_mapSet_of_get _ _ _ _ hg]; exact h

theorem votesKeys_nodup_step (s : Store) (op : Op) (hs : (mapKeys s.votes).Nodup) :
    (mapKeys (step s op).votes).Nodup := by
  cases op with
  | seedDefault id createdAt => exact nodup_mapKeys_mapSet _ _ _ hs
  | createPoll id createdAt question options => exact nodup_mapKeys_mapSet _ _ _ hs
  | vote pollID voterKey optionID =>
    simp only [step]
    unfold Vote
    split
    · exact hs
    · split
      · exact hs
      · split
        · exact hs
        · split
          · split
            · exact hs
            · exact nodup_mapKeys_mapSet _ _ _ hs
          · exact hs
  | closePoll id =>
    simp only [step]
    unfold ClosePoll
    split
    · exact hs
    · exact hs
  | getPoll id => exact hs
  | getAllPolls => exact hs
  | hasVoted pollID voterKey => exact hs

theorem votesKeys_nodup_run (s : Store) (ops : List Op) (hs : (mapKeys s.votes).Nodup) :
    (mapKeys (run s ops).votes).Nodup := by
  induction ops generalizing s with
  | nil => exact hs
  | cons op ops ih => exact ih (step s op) (votesKeys_nodup_step s op hs)

theorem mapSet_append_of_none {β : Type} (m : List (String × β)) (k : String) (v : β)
    (h : mapGet m k = none) : mapSet m k v = m ++ [(k, v)] := by
  induction m with
  | nil => rfl
  | cons hd rest ih =>
    obtain ⟨k', v'⟩ := hd
    by_cases hk : k' = k
    · simp [mapGet, hk] at h
    · simp [mapGet, hk] at h
      simp [mapSet, hk, ih h]

theorem CountedOnce_Vote (s : Store) (pollID voterKey : String) (optionID : Int)
    (p v : String) (c : Int) (h : CountedOnce s p v c) :
    CountedOnce (Vote s pollID voterKey optionID).1 p v c := by
  obtain ⟨poll, voters, hp, hv, hc, hcount⟩ := h
  by_cases hne : p = pollID
  · subst hne
    unfold Vote
    simp only [hp, hv]
    split
    · exact ⟨poll, voters, hp, hv, hc, hcount⟩
    · split
      · exact ⟨poll, voters, hp, hv, hc, hcount⟩
      · split
        · exact ⟨poll, voters, hp, hv, hc, hcount⟩
        · rename_i hvk
          have hvne : voterKey ≠ v := by
            intro e
            subst e
            have hmem : voterKey ∈ mapKeys voters := by
              apply List.count_pos_iff.mp
              rw [hcount]
              exact Nat.one_pos
            obtain ⟨w, hw⟩ := mapGet_of_mem_keys voters voterKey hmem
            rw [hvk] at hw
            exact Option.noConfusion hw
          refine ⟨countVote poll optionID, voters ++ [(voterKey, optionID)],
            mapGet_mapSet_self _ _ _, ?_, ?_, ?_⟩
          · rw [mapSet_append_of_none _ _ _ hvk]
            exact mapGet_mapSet_self _ _ _
          · simp only [countVote, List.length_append, List.length_singleton]
            push_cast
            omega
          · simp only [mapKeys, List.map_append, List.map_cons, List.map_nil,
              List.count_append]
            simp only [mapKeys] at hcount
            rw [hcount]
            simp [List.count_cons, hvne]
  · exact ⟨poll, voters, by rw [Vote_polls_other _ _ _ _ _ hne, hp],
      by rw [Vote_votes_other _ _ _ _ _ hne, hv], hc, hcount⟩

theorem CountedOnce_step (s : Store) (op : Op) (p v : String) (c : Int)
    (h : CountedOnce s p v c) (hf : freshOp s op = true) :
    CountedOnce (step s op) p v c := by
  cases op with
  | seedDefault id createdAt =>
    obtain ⟨poll, voters, hp, hv, hc, hcount⟩ := h
    have hne := freshId_ne s id p poll hf hp
    exact ⟨poll, voters, by simp only [step, SeedDefault]; rw [mapGet_mapSet_ne _ _ _ _ hne, hp],
      by simp only [step, SeedDefault]; rw [mapGet_mapSet_ne _ _ _ _ hne, hv], hc, hcount⟩
  | createPoll id createdAt question options =>
    obtain ⟨poll, voters, hp, hv, hc, hcount⟩ := h
    have hne := freshId_ne s id p poll hf hp
    exact ⟨poll, voters, by simp only [step, CreatePoll]; rw [mapGet_mapSet_ne _ _ _ _ hne, hp],
      by simp only [step, CreatePoll]; rw [mapGet_mapSet_ne _ _ _ _ hne, hv], hc, hcount⟩
  | vote pollID voterKey optionID => exact CountedOnce_Vote s pollID voterKey optionID p v c h
  | closePoll id =>
    obtain ⟨poll, voters, hp, hv, hc, hcount⟩ := h
    refine ⟨if p = id then { poll with Closed := true } else poll, voters,
      by simp only [step]; rw [ClosePoll_polls, hp]; rfl, ?_, ?_, hcount⟩
    · simp only [step]
      unfold ClosePoll
      split
      · exact hv
      · exact hv
    · split
      · exact hc
      · exact hc
  | getPoll id => exact h
  | getAllPolls => exact h
  | hasVoted pollID voterKey => exact h

theorem CountedOnce_run (s : Store) (ops : List Op) (p v : String) (c : Int)
    (h : CountedOnce s p v c) (hf : freshRun s ops = true) :
    CountedOnce (run s ops) p v c := by
  induction ops generalizing s with
  | nil => exact h
  | cons op ops ih =>
    simp only [freshRun, Bool.and_eq_true] at hf
    exact ih (step s op) (CountedOnce_step s op p v c h hf.1) hf.2

/-- C5: one vote per voter. In every store reached from `NewStore` there is one
vote record per poll id and each record has at most one entry per voter key.
A successful `Vote(p, v, o)` adds the entry `(v, o)` to the poll's record and
exactly one to its `TotalVotes`. After every further finite sequence of store
operations (generated ids being fresh) the record for `(p, v)` is still `o`,
every `Vote(p, v, o')` fails and leaves the store unchanged (with the
already-voted error whenever the poll is open and `o'` is in range), and every
later vote call by `v` on `p` inside the sequence is a no-op. Throughout,
`TotalVotes` minus the number of record entries keeps the value it had before
the vote and `v` has exactly one entry, so `v` contributes exactly one to the
poll's `TotalVotes`. -/
theorem one_vote_per_voter (ops : List Op) :
    (mapKeys (run NewStore ops).votes).Nodup ∧
    (∀ q voters, mapGet (run NewStore ops).votes q = some voters →
      (mapKeys voters).Nodup) ∧
    ∀ (s s₁ : Store) (p v : String) (o : Int) (poll' : Poll) (later : List Op),
      Vote s p v o = (s₁, .ok poll') → freshRun s₁ later = true →
        HasVoted (run s₁ later) p v = (true, o) ∧
        (∃ voters, mapGet (run s₁ later).votes p = some voters ∧
          mapGet voters v = some o) ∧
        (∀ o', ∃ msg, Vote (run s₁ later) p v o' = (run s₁ later, .err msg) ∧
          msg ≠ "Poll not found") ∧
        (∀ o' q, GetPoll (run s₁ later) p = some q → q.Closed = false → 0 ≤ o' →
          o' < (q.Options.length : Int) →
          Vote (run s₁ later) p v o' =
            (run s₁ later, .err "You have already voted on this poll")) ∧
        (∀ pre post o', later = pre ++ Op.vote p v o' :: post →
          step (run s₁ pre) (Op.vote p v o') = run s₁ pre) ∧
        (∃ (poll : Poll) (voters : List (String × Int)) (pollL : Poll)
            (votersL : List (String × Int)),
          GetPoll s p = some poll ∧ mapGet s.votes p = some voters ∧
          mapGet voters v = none ∧
          GetPoll s₁ p = some poll' ∧ mapGet s₁.votes p = some (voters ++ [(v, o)]) ∧
          poll'.TotalVotes = poll.TotalVotes + 1 ∧
          sumVotes poll'.Options = sumVotes poll.Options + 1 ∧
          GetPoll (run s₁ later) p = some pollL ∧
          mapGet (run s₁ later).votes p = some votersL ∧
          pollL.TotalVotes - (votersL.length : Int) =
            poll.TotalVotes - (voters.length : Int) ∧
          (mapKeys votersL).count v = 1) := by
  refine ⟨votesKeys_nodup_run NewStore ops (by simp [NewStore, mapKeys]), ?_, ?_⟩
  · intro q voters hq
    have hinv : VotesNodup (run NewStore ops) :=
      VotesNodup_run NewStore ops (fun kv hkv => by simp [NewStore] at hkv)
    exact hinv (q, voters) (mapGet_mem _ _ _ hq)
  · intro s s₁ p v o poll' later hvote hf
    obtain ⟨poll, voters, hp, _, h0, hlt, hv, hvk, hpoll', hs₁⟩ :=
      Vote_ok_inv s s₁ p v o poll' hvote
    have hrec₁ : Recorded s₁ p v o := by
      rw [hs₁]
      exact ⟨⟨_, mapGet_mapSet_self _ _ _⟩, _, mapGet_mapSet_self _ _ _,
        mapGet_mapSet_self _ _ _⟩
    have hrec := Recorded_run s₁ later p v o hrec₁ hf
    refine ⟨?_, hrec.2, fun o' => (Vote_of_Recorded _ p v o o' hrec).1,
      fun o' q => (Vote_of_Recorded _ p v o o' hrec).2 q, ?_, ?_⟩
    · obtain ⟨_, voters', hv', hvo'⟩ := hrec
      simp only [HasVoted, hv', hvo']
    · intro pre post o' hsplit
      have hfpre : freshRun s₁ pre = true := by
        rw [hsplit, freshRun_append, Bool.and_eq_true] at hf
        exact hf.1
      have hrecpre := Recorded_run s₁ pre p v o hrec₁ hfpre
      obtain ⟨msg, hmsg, _⟩ := (Vote_of_Recorded _ p v o o' hrecpre).1
      simp only [step, hmsg]
    · have hp₁ : mapGet s₁.polls p = some poll' := by
        rw [hs₁, hpoll']; exact mapGet_mapSet_self _ _ _
      have hv₁ : mapGet s₁.votes p = some (voters ++ [(v, o)]) := by
        rw [hs₁, mapSet_append_of_none _ _ _ hvk]; exact mapGet_mapSet_self _ _ _
      have htot : poll'.TotalVotes = poll.TotalVotes + 1 := by rw [hpoll']; rfl
      have hsum : sumVotes poll'.Options = sumVotes poll.Options + 1 := by
        rw [hpoll']
        exact sumVotes_incVotesAt _ _ (by omega)
      have hcount₁ : (mapKeys (voters ++ [(v, o)])).count v = 1 := by
        have h0' : (mapKeys voters).count v = 0 :=
          List.count_eq_zero_of_not_mem (mapGet_none_not_mem_keys _ _ hvk)
        simp only [mapKeys] at h0'
        simp [mapKeys, List.count_append, h0']
      have hone₁ : CountedOnce s₁ p v (poll.TotalVotes - (voters.length : Int)) := by
        refine ⟨poll', voters ++ [(v, o)], hp₁, hv₁, ?_, hcount₁⟩
        rw [htot]
        simp only [List.length_append, List.length_singleton]
        push_cast
        omega
      obtain ⟨pollL, votersL, hpL, hvL, hcL, hcountL⟩ := CountedOnce_run s₁ later p v _ hone₁ hf
      exact ⟨poll, voters, pollL, votersL, hp, hv, hvk, hp₁, hv₁, htot, hsum, hpL, hvL, hcL,
        hcountL⟩

theorem one_vote_per_voter_witness :
    mapGet (run NewStore sampleOps).votes "p1" = some [("v1", 0)] ∧
    (mapKeys [("v1", (0 : Int))]).Nodup ∧
    Vote sampleStore "p1" "v1" 0 = (votedStore, .ok (countVote samplePoll 0)) ∧
    freshRun votedStore laterOps = true ∧
    HasVoted (run votedStore laterOps) "p1" "v1" = (true, 0) ∧
    (∀ o', ∃ msg, Vote (run votedStore laterOps) "p1" "v1" o' =
        (run votedStore laterOps, .err msg) ∧ msg ≠ "Poll not found") ∧
    step (run votedStore (laterOps.take 2)) (Op.vote "p1" "v1" 1) =
      run votedStore (laterOps.take 2) ∧
    (∃ (poll : Poll) (voters : List (String × Int)) (pollL : Poll)
        (votersL : List (String × Int)),
      GetPoll sampleStore "p1" = some poll ∧ mapGet sampleStore.votes "p1" = some voters ∧
      mapGet voters "v1" = none ∧
      GetPoll votedStore "p1" = some (countVote samplePoll 0) ∧
      mapGet votedStore.votes "p1" = some (voters ++ [("v1", 0)]) ∧
      (countVote samplePoll 0).TotalVotes = poll.TotalVotes + 1 ∧
      sumVotes (countVote samplePoll 0).Options = sumVotes poll.Options + 1 ∧
      GetPoll (run votedStore laterOps) "p1" = some pollL ∧
      mapGet (run votedStore laterOps).votes "p1" = some votersL ∧
      pollL.TotalVotes - (votersL.length : Int) =
        poll.TotalVotes - (voters.length : Int) ∧
      (mapKeys votersL).count "v1" = 1) ∧
    (GetPoll sampleStore "p1").map Poll.TotalVotes = some 0 ∧
    (GetPoll votedStore "p1").map Poll.TotalVotes = some 1 ∧
    (GetPoll (run votedStore laterOps) "p1").map Poll.TotalVotes = some 2 ∧
    mapGet (run votedStore laterOps).votes "p1" = some [("v1", 0), ("v2", 1)] :=
  ⟨by decide,
   (one_vote_per_voter sampleOps).2.1 "p1" [("v1", 0)] (by decide),
   by decide, by decide,
   ((one_vote_per_voter []).2.2 sampleStore votedStore "p1" "v1" 0
      (countVote samplePoll 0) laterOps
      (by decide) (by decide)).1,
   ((one_vote_per_voter []).2.2 sampleStore votedStore "p1" "v1" 0
      (countVote samplePoll 0) laterOps
      (by decide) (by decide)).2.2.1,
   ((one_vote_per_voter []).2.2 sampleStore votedStore "p1" "v1" 0
      (countVote samplePoll 0) laterOps
      (by decide) (by decide)).2.2.2.2.1 (laterOps.take 2) (laterOps.drop 3) 1 (by decide),
   ((one_vote_per_voter []).2.2 sampleStore votedStore "p1" "v1" 0
      (countVote samplePoll 0) laterOps
      (by decide) (by decide)).2.2.2.2.2,
   by decide, by decide, by decide, by decide⟩

/-! ## Option range check -/

-- C7 as stated fails on a closed poll: the closed check comes first, so an
-- out-of-range index is answered with the poll-closed error.
theorem Vote_invalid_option_counterexample :
    GetPoll closedStore "p1" = some { countVote samplePoll 0 with Closed := true } ∧
    (5 : Int) ≥ (({ countVote samplePoll 0 with Closed := true } : Poll).Options.length : Int) ∧
    Vote closedStore "p1" "v2" 5 = (closedStore, .err "This poll is closed") ∧
    ¬ (∀ (s : Store) (pollID voterKey : String) (optionID : Int) (poll : Poll),
        GetPoll s pollID = some poll →
        (optionID < 0 ∨ optionID ≥ (poll.Options.length : Int)) →
        Vote s pollID voterKey optionID = (s, .err "Invalid option")) := by
  refine ⟨by decide, by decide, by decide, fun h => ?_⟩
  have h1 := h closedStore "p1" "v2" 5 { countVote samplePoll 0 with Closed := true }
    (by decide) (by decide)
  revert h1
  decide

/-- C7 (amended): for every store, every poll present in it, every voter key
and every option index outside `[0, number of options)`, `Vote` fails and
leaves the store unchanged; the error is "Invalid option" when the poll is
open and "This poll is closed" when it is closed. -/
theorem Vote_invalid_option (s : Store) (pollID voterKey : String) (optionID : Int)
    (poll : Poll) (hp : GetPoll s pollID = some poll)
    (hr : optionID < 0 ∨ optionID ≥ (poll.Options.length : Int)) :
    Vote s pollID voterKey optionID =
      (s, .err (if poll.Closed then "This poll is closed" else "Invalid option")) := by
  simp only [GetPoll] at hp
  unfold Vote
  simp only [hp]
  by_cases hc : poll.Closed = true
  · simp [hc]
  · simp [hc, hr]

theorem Vote_invalid_option_witness :
    GetPoll votedStore "p1" = some (countVote samplePoll 0) ∧
    ((2 : Int) < 0 ∨ (2 : Int) ≥ ((countVote samplePoll 0).Options.length : Int)) ∧
    Vote votedStore "p1" "v2" 2 =
      (votedStore,
       .err (if (countVote samplePoll 0).Closed then "This poll is closed"
             else "Invalid option")) :=
  ⟨by decide, by decide,
   Vote_invalid_option votedStore "p1" "v2" 2 (countVote samplePoll 0) (by decide)
     (by decide)⟩

/-! ## ClosePoll -/

theorem mapSet_mapSet_same {β : Type} (m : List (String × β)) (k : String) (v w : β) :
    mapSet (mapSet m k v) k w = mapSet m k w := by
  induction m with
  | nil => simp [mapSet]
  | cons hd rest ih =>
    obtain ⟨k', v'⟩ := hd
    by_cases hk : k' = k
    · simp [mapSet, hk]
    · simp [mapSet, hk, ih]

theorem mapSet_of_get {β : Type} (m : List (String × β)) (k : String) (v : β)
    (h : mapGet m k = some v) : mapSet m k v = m := by
  induction m with
  | nil => simp [mapGet] at h
  | cons hd rest ih =>
    obtain ⟨k', v'⟩ := hd
    by_cases hk : k' = k
    · simp [mapGet, hk] at h
      simp [mapSet, hk, h]
    · simp [mapGet, hk] at h
      simp [mapSet, hk, ih h]

/-- C8: `ClosePoll` is idempotent: a second `ClosePoll(id)` returns the same
result as the first and leaves the store as the first left it; closing a poll
that is already closed succeeds, returns it, and changes nothing. -/
theorem ClosePoll_idempotent (s : Store) (id : String) :
    ClosePoll (ClosePoll s id).1 id = ClosePoll s id ∧
    (ClosePoll (ClosePoll s id).1 id).1 = (ClosePoll s id).1 ∧
    (ClosePoll (ClosePoll s id).1 id).2 = (ClosePoll s id).2 ∧
    (∀ poll, GetPoll s id = some poll → poll.Closed = true →
      ClosePoll s id = (s, .ok poll)) := by
  have h1 : ClosePoll (ClosePoll s id).1 id = ClosePoll s id := by
    cases hp : mapGet s.polls id with
    | none => simp [ClosePoll, hp]
    | some poll => simp [ClosePoll, hp, mapGet_mapSet_self, mapSet_mapSet_same]
  refine ⟨h1, by rw [h1], by rw [h1], ?_⟩
  intro poll hp hc
  simp only [GetPoll] at hp
  have hpoll : ({ poll with Closed := true } : Poll) = poll := by
    cases poll
    simp only [] at hc
    simp [hc]
  simp only [ClosePoll, hp, hpoll, mapSet_of_get _ _ _ hp]

theorem ClosePoll_idempotent_witness :
    GetPoll closedStore "p1" = some { countVote samplePoll 0 with Closed := true } ∧
    ({ countVote samplePoll 0 with Closed := true } : Poll).Closed = true ∧
    ClosePoll closedStore "p1" =
      (closedStore, .ok { countVote samplePoll 0 with Closed := true }) :=
  ⟨by decide, by decide,
   (ClosePoll_idempotent closedStore "p1").2.2.2
     { countVote samplePoll 0 with Closed := true } (by decide) (by decide)⟩

/-- C9: if a poll with the id exists, `ClosePoll` succeeds and returns the
stored poll with `Closed = true` and every other field as before; all vote
records, the set of poll ids and every other poll are unchanged. If no poll
with the id exists, it fails with "Poll not found" and the store is
unchanged. -/
theorem ClosePoll_frame (s : Store) (id : String) :
    (∀ poll, GetPoll s id = some poll →
      ∃ poll', ClosePoll s id = ((ClosePoll s id).1, .ok poll') ∧
        GetPoll (ClosePoll s id).1 id = some poll' ∧
        poll'.Closed = true ∧ poll'.ID = poll.ID ∧ poll'.Question = poll.Question ∧
        poll'.Options = poll.Options ∧ poll'.TotalVotes = poll.TotalVotes ∧
        poll'.CreatedAt = poll.CreatedAt ∧
        (ClosePoll s id).1.votes = s.votes ∧
        mapKeys (ClosePoll s id).1.polls = mapKeys s.polls ∧
        (∀ k, k ≠ id → GetPoll (ClosePoll s id).1 k = GetPoll s k)) ∧
    (GetPoll s id = none → ClosePoll s id = (s, .err "Poll not found")) := by
  constructor
  · intro poll hp
    simp only [GetPoll] at hp
    refine ⟨{ poll with Closed := true }, ?_, ?_, rfl, rfl, rfl, rfl, rfl, rfl, ?_, ?_, ?_⟩
    · simp [ClosePoll, hp]
    · simp [ClosePoll, hp, GetPoll, mapGet_mapSet_self]
    · simp [ClosePoll, hp]
    · simp only [ClosePoll, hp]
      exact mapKeys_mapSet_of_get _ _ _ _ hp
    · intro k hk
      simp only [ClosePoll, hp, GetPoll]
      exact mapGet_mapSet_ne _ _ _ _ hk
  · intro hp
    simp only [GetPoll] at hp
    simp [ClosePoll, hp]

theorem ClosePoll_frame_witness :
    GetPoll votedStore "p1" = some (countVote samplePoll 0) ∧
    GetPoll votedStore "nope" = none ∧
    (∃ poll', ClosePoll votedStore "p1" = ((ClosePoll votedStore "p1").1, .ok poll') ∧
        GetPoll (ClosePoll votedStore "p1").1 "p1" = some poll' ∧
        poll'.Closed = true ∧ poll'.ID = (countVote samplePoll 0).ID ∧
        poll'.Question = (countVote samplePoll 0).Question ∧
        poll'.Options = (countVote samplePoll 0).Options ∧
        poll'.TotalVotes = (countVote samplePoll 0).TotalVotes ∧
        poll'.CreatedAt = (countVote samplePoll 0).CreatedAt ∧
        (ClosePoll votedStore "p1").1.votes = votedStore.votes ∧
        mapKeys (ClosePoll votedStore "p1").1.polls = mapKeys votedStore.polls ∧
        (∀ k, k ≠ "p1" → GetPoll (ClosePoll votedStore "p1").1 k = GetPoll votedStore k)) ∧
    ClosePoll votedStore "nope" = (votedStore, .err "Poll not found") :=
  ⟨by decide, by decide,
   (ClosePoll_frame votedStore "p1").1 (countVote samplePoll 0) (by decide),
   (ClosePoll_frame votedStore "nope").2 (by decide)⟩

/-! ## CreatePoll -/

theorem mkOptions_ids (i : Nat) (options : List String) :
    (mkOptions i options).map PollOption.ID =
      (List.range' i options.length).map (fun n => (n : Int)) := by
  induction options generalizing i with
  | nil => simp [mkOptions]
  | cons t rest ih => simp [mkOptions, ih, List.range'_succ]

theorem mkOptions_texts (i : Nat) (options : List String) :
    (mkOptions i options).map PollOption.Text = options.map TrimSpace := by
  induction options generalizing i with
  | nil => simp [mkOptions]
  | cons t rest ih => simp [mkOptions, ih]

theorem mkOptions_votes (i : Nat) (options : List String) :
    (mkOptions i options).map PollOption.Votes = List.replicate options.length 0 := by
  induction options generalizing i with
  | nil => simp [mkOptions]
  | cons t rest ih => simp [mkOptions, ih, List.replicate_succ]

theorem mkOptions_getElem? (i n : Nat) (options : List String) :
    (mkOptions i options)[n]? =
      (options[n]?).map
        (fun t => ({ ID := ((i + n : Nat) : Int), Text := TrimSpace t, Votes := 0 } :
          PollOption)) := by
  induction options generalizing i n with
  | nil => simp [mkOptions]
  | cons t rest ih =>
    cases n with
    | zero => simp [mkOptions]
    | succ n =>
      simp only [mkOptions, List.getElem?_cons_succ, ih]
      have : i + 1 + n = i + (n + 1) := by omega
      rw [this]

/-- C10: for every question and option list of length `n`, `CreatePoll` with a
fresh generated id returns a poll with exactly `n` options whose ids are
`0..n-1` in the given order, whose texts are the trimmed inputs and whose
counters are `0`, with `TotalVotes = 0` and `Closed = false`; afterwards
`GetPoll(id)` returns that poll, `HasVoted(id, v)` is false for every voter, and
every poll and vote record that existed before is unchanged. -/
theorem CreatePoll_spec (s : Store) (id createdAt question : String)
    (options : List String) (hf : freshId s id = true) :
    (CreatePoll s id createdAt question options).2.Options.length = options.length ∧
    (CreatePoll s id createdAt question options).2.Options.map PollOption.ID =
      (List.range options.length).map (fun n => (n : Int)) ∧
    (CreatePoll s id createdAt question options).2.Options.map PollOption.Text =
      options.map TrimSpace ∧
    (CreatePoll s id createdAt question options).2.Options.map PollOption.Votes =
      List.replicate options.length 0 ∧
    (∀ i : Nat, (CreatePoll s id createdAt question options).2.Options[i]? =
      (options[i]?).map
        (fun t => ({ ID := (i : Int), Text := TrimSpace t, Votes := 0 } : PollOption))) ∧
    (CreatePoll s id createdAt question options).2.TotalVotes = 0 ∧
    (CreatePoll s id createdAt question options).2.Closed = false ∧
    (CreatePoll s id createdAt question options).2.ID = id ∧
    (CreatePoll s id createdAt question options).2.Question = TrimSpace question ∧
    (CreatePoll s id createdAt question options).2.CreatedAt = createdAt ∧
    GetPoll (CreatePoll s id createdAt question options).1 id =
      some (CreatePoll s id createdAt question options).2 ∧
    (∀ v, HasVoted (CreatePoll s id createdAt question options).1 id v = (false, -1)) ∧
    (∀ k p, GetPoll s k = some p →
      GetPoll (CreatePoll s id createdAt question options).1 k = some p) ∧
    (∀ k voters, mapGet s.votes k = some voters →
      mapGet (CreatePoll s id createdAt question options).1.votes k = some voters) ∧
    (∀ k, k ≠ id →
      GetPoll (CreatePoll s id createdAt question options).1 k = GetPoll s k ∧
      mapGet (CreatePoll s id createdAt question options).1.votes k = mapGet s.votes k ∧
      ∀ v, HasVoted (CreatePoll s id createdAt question options).1 k v = HasVoted s k v) := by
  simp only [freshId, Bool.and_eq_true, Option.isNone_iff_eq_none] at hf
  have hother : ∀ k, k ≠ id →
      GetPoll (CreatePoll s id createdAt question options).1 k = GetPoll s k ∧
      mapGet (CreatePoll s id createdAt question options).1.votes k = mapGet s.votes k ∧
      ∀ v, HasVoted (CreatePoll s id createdAt question options).1 k v = HasVoted s k v := by
    intro k hk
    have h2 : mapGet (CreatePoll s id createdAt question options).1.votes k =
        mapGet s.votes k := mapGet_mapSet_ne _ _ _ _ hk
    exact ⟨mapGet_mapSet_ne _ _ _ _ hk, h2, fun v => by simp only [HasVoted, h2]⟩
  refine ⟨?_, ?_, mkOptions_texts 0 options, mkOptions_votes 0 options, ?_, rfl, rfl, rfl,
    rfl, rfl, mapGet_mapSet_self _ _ _, ?_, ?_, ?_, hother⟩
  · have := congrArg List.length (mkOptions_texts 0 options)
    simpa [CreatePoll] using this
  · simp only [CreatePoll, mkOptions_ids, List.range_eq_range']
  · intro i
    simp only [CreatePoll, mkOptions_getElem?, Nat.zero_add]
  · intro v
    have : mapGet (CreatePoll s id createdAt question options).1.votes id = some [] :=
      mapGet_mapSet_self _ _ _
    simp [HasVoted, this, mapGet]
  · intro k p hk
    have hne : k ≠ id := by
      intro e; subst e
      simp only [GetPoll] at hk
      rw [hf.1] at hk
      exact Option.noConfusion hk
    rw [(hother k hne).1, hk]
  · intro k voters hk
    have hne : k ≠ id := by
      intro e; subst e
      rw [hf.2] at hk
      exact Option.noConfusion hk
    rw [(hother k hne).2.1, hk]

theorem CreatePoll_spec_witness :
    freshId votedStore "p2" = true ∧
    (CreatePoll votedStore "p2" "2024-01-03T00:00:00Z" " Again " [" A", "B ", "C"]).2 =
      { ID := "p2", Question := "Again",
        Options := [⟨0, "A", 0⟩, ⟨1, "B", 0⟩, ⟨2, "C", 0⟩],
        TotalVotes := 0, Closed := false, CreatedAt := "2024-01-03T00:00:00Z" } ∧
    (CreatePoll votedStore "p2" "2024-01-03T00:00:00Z" " Again "
        [" A", "B ", "C"]).2.Options.map PollOption.ID =
      (List.range [" A", "B ", "C"].length).map (fun n => (n : Int)) ∧
    (∀ v, HasVoted (CreatePoll votedStore "p2" "2024-01-03T00:00:00Z" " Again "
        [" A", "B ", "C"]).1 "p2" v = (false, -1)) ∧
    GetPoll (CreatePoll votedStore "p2" "2024-01-03T00:00:00Z" " Again "
        [" A", "B ", "C"]).1 "p1" = some (countVote samplePoll 0) :=
  ⟨by decide, by decide,
   (CreatePoll_spec votedStore "p2" "2024-01-03T00:00:00Z" " Again " [" A", "B ", "C"]
      (by decide)).2.1,
   (CreatePoll_spec votedStore "p2" "2024-01-03T00:00:00Z" " Again " [" A", "B ", "C"]
      (by decide)).2.2.2.2.2.2.2.2.2.2.2.1,
   (CreatePoll_spec votedStore "p2" "2024-01-03T00:00:00Z" " Again " [" A", "B ", "C"]
      (by decide)).2.2.2.2.2.2.2.2.2.2.2.2.1 "p1" (countVote samplePoll 0) (by decide)⟩

/-! ## Options are immutable -/

theorem OptionsKept_refl (q : Poll) : OptionsKept q q :=
  ⟨rfl, fun _ o ho => ⟨o, ho, rfl, rfl, Int.le_refl _⟩⟩

theorem OptionsKept_trans (q₁ q₂ q₃ : Poll) (h₁ : OptionsKept q₁ q₂)
    (h₂ : OptionsKept q₂ q₃) : OptionsKept q₁ q₃ := by
  refine ⟨h₂.1.trans h₁.1, fun i o ho => ?_⟩
  obtain ⟨o₂, ho₂, hid₂, htx₂, hv₂⟩ := h₁.2 i o ho
  obtain ⟨o₃, ho₃, hid₃, htx₃, hv₃⟩ := h₂.2 i o₂ ho₂
  exact ⟨o₃, ho₃, hid₃.trans hid₂, htx₃.trans htx₂, Int.le_trans hv₂ hv₃⟩

theorem OptionsKept_countVote (q : Poll) (optionID : Int) :
    OptionsKept q (countVote q optionID) := by
  refine ⟨length_incVotesAt _ _, fun i o ho => ?_⟩
  by_cases hi : i = optionID.toNat
  · subst hi
    refine ⟨{ o with Votes := o.Votes + 1 }, ?_, rfl, rfl, by simp⟩
    simp only [countVote, getElem?_incVotesAt_self, ho, Option.map_some']
  · exact ⟨o, by simp only [countVote, getElem?_incVotesAt_ne _ _ _ hi, ho], rfl, rfl,
      Int.le_refl _⟩

theorem Vote_polls_get (s : Store) (pollID voterKey : String) (optionID : Int) (k : String) :
    ∃ f : Poll → Poll, (∀ q, f q = q ∨ f q = countVote q optionID) ∧
      mapGet (Vote s pollID voterKey optionID).1.polls k = (mapGet s.polls k).map f := by
  by_cases hk : k = pollID
  · subst hk
    unfold Vote
    split
    · rename_i hp
      exact ⟨id, fun q => Or.inl rfl, by simp [hp]⟩
    · rename_i poll hp
      split
      · exact ⟨id, fun q => Or.inl rfl, by simp⟩
      · split
        · exact ⟨id, fun q => Or.inl rfl, by simp⟩
        · split
          · split
            · exact ⟨id, fun q => Or.inl rfl, by simp⟩
            · exact ⟨fun q => countVote q optionID, fun q => Or.inr rfl, by
                simp [hp, mapGet_mapSet_self]⟩
          · exact ⟨fun q => countVote q optionID, fun q => Or.inr rfl, by
              simp [hp, mapGet_mapSet_self]⟩
  · exact ⟨id, fun q => Or.inl rfl, by rw [Vote_polls_other _ _ _ _ _ hk]; simp⟩

theorem OptionsKept_step (s : Store) (op : Op) (id : String) (poll : Poll)
    (hf : freshOp s op = true) (hp : mapGet s.polls id = some poll) :
    ∃ poll', mapGet (step s op).polls id = some poll' ∧ OptionsKept poll poll' := by
  cases op with
  | seedDefault id' createdAt =>
    have hne := freshId_ne s id' id poll hf hp
    exact ⟨poll, by simp only [step, SeedDefault]; rw [mapGet_mapSet_ne _ _ _ _ hne, hp],
      OptionsKept_refl poll⟩
  | createPoll id' createdAt question options =>
    have hne := freshId_ne s id' id poll hf hp
    exact ⟨poll, by simp only [step, CreatePoll]; rw [mapGet_mapSet_ne _ _ _ _ hne, hp],
      OptionsKept_refl poll⟩
  | vote pollID voterKey optionID =>
    obtain ⟨f, hf', hget⟩ := Vote_polls_get s pollID voterKey optionID id
    refine ⟨f poll, by simp only [step]; rw [hget, hp]; rfl, ?_⟩
    rcases hf' poll with h | h
    · rw [h]; exact OptionsKept_refl poll
    · rw [h]; exact OptionsKept_countVote poll optionID
  | closePoll id' =>
    refine ⟨_, by simp only [step]; rw [ClosePoll_polls, hp]; rfl, ?_⟩
    by_cases hk : id = id'
    · simp only [hk, if_true]
      exact ⟨rfl, fun _ o ho => ⟨o, ho, rfl, rfl, Int.le_refl _⟩⟩
    · simp only [hk, if_false]
      exact OptionsKept_refl poll
  | getPoll id' => exact ⟨poll, hp, OptionsKept_refl poll⟩
  | getAllPolls => exact ⟨poll, hp, OptionsKept_refl poll⟩
  | hasVoted pollID voterKey => exact ⟨poll, hp, OptionsKept_refl poll⟩

theorem OptionsKept_run (s : Store) (ops : List Op) (id : String) (poll : Poll)
    (hf : freshRun s ops = true) (hp : mapGet s.polls id = some poll) :
    ∃ poll', mapGet (run s ops).polls id = some poll' ∧ OptionsKept poll poll' := by
  induction ops generalizing s poll with
  | nil => exact ⟨poll, hp, OptionsKept_refl poll⟩
  | cons op ops ih =>
    simp only [freshRun, Bool.and_eq_true] at hf
    obtain ⟨q, hq, hk⟩ := OptionsKept_step s op id poll hf.1 hp
    obtain ⟨q', hq', hk'⟩ := ih (step s op) q hf.2 hq
    exact ⟨q', hq', OptionsKept_trans poll q q' hk hk'⟩

theorem WellIndexed_mkOptions (id createdAt question : String) (options : List String) :
    WellIndexed (CreatePoll NewStore id createdAt question options).2 := by
  intro i o ho
  simp only [CreatePoll, mkOptions_getElem?, Nat.zero_add] at ho
  cases hopt : options[i]? with
  | none => rw [hopt] at ho; simp at ho
  | some t =>
    rw [hopt] at ho
    simp only [Option.map_some', Option.some.injEq] at ho
    rw [← ho]
    exact ⟨rfl, Int.le_refl _⟩

theorem WellIndexed_defaultPoll (id createdAt : String) :
    WellIndexed (defaultPoll id createdAt) := by
  intro i o ho
  simp only [defaultPoll] at ho
  match i, ho with
  | 0, ho => simp at ho; rw [← ho]; exact ⟨rfl, by decide⟩
  | 1, ho => simp at ho; rw [← ho]; exact ⟨rfl, by decide⟩
  | 2, ho => simp at ho; rw [← ho]; exact ⟨rfl, by decide⟩
  | 3, ho => simp at ho; rw [← ho]; exact ⟨rfl, by decide⟩
  | 4, ho => simp at ho; rw [← ho]; exact ⟨rfl, by decide⟩
  | 5, ho => simp at ho; rw [← ho]; exact ⟨rfl, by decide⟩
  | n + 6, ho => simp at ho

theorem WellIndexed_of_kept (q q' : Poll) (hk : OptionsKept q q') (hw : WellIndexed q) :
    WellIndexed q' := by
  intro i o' ho'
  have hlt : i < q.Options.length := by
    by_contra hge
    rw [List.getElem?_eq_none (by rw [hk.1]; omega)] at ho'
    exact Option.noConfusion ho'
  obtain ⟨o₂, ho₂, hid, _, hv⟩ := hk.2 i _ (List.getElem?_eq_getElem hlt)
  rw [ho'] at ho₂
  have : o' = o₂ := Option.some.inj ho₂
  subst this
  have := hw i _ (List.getElem?_eq_getElem hlt)
  exact ⟨hid.trans this.1, Int.le_trans this.2 hv⟩

theorem WellIndexed_step (s : Store) (op : Op)
    (hs : ∀ k q, mapGet s.polls k = some q → WellIndexed q) :
    ∀ k q, mapGet (step s op).polls k = some q → WellIndexed q := by
  intro k q hq
  cases op with
  | seedDefault id createdAt =>
    simp only [step, SeedDefault, mapGet_mapSet] at hq
    split at hq
    · rw [← Option.some.inj hq]; exact WellIndexed_defaultPoll id createdAt
    · exact hs k q hq
  | createPoll id createdAt question options =>
    simp only [step, CreatePoll, mapGet_mapSet] at hq
    split at hq
    · rw [← Option.some.inj hq]
      exact WellIndexed_mkOptions id createdAt question options
    · exact hs k q hq
  | vote pollID voterKey optionID =>
    obtain ⟨f, hf', hget⟩ := Vote_polls_get s pollID voterKey optionID k
    simp only [step] at hq
    rw [hget] at hq
    cases hold : mapGet s.polls k with
    | none => rw [hold] at hq; simp at hq
    | some q₀ =>
      rw [hold] at hq
      simp only [Option.map_some', Option.some.injEq] at hq
      rw [← hq]
      rcases hf' q₀ with h | h
      · rw [h]; exact hs k q₀ hold
      · rw [h]
        exact WellIndexed_of_kept q₀ _ (OptionsKept_countVote q₀ optionID) (hs k q₀ hold)
  | closePoll id =>
    simp only [step] at hq
    rw [ClosePoll_polls] at hq
    cases hold : mapGet s.polls k with
    | none => rw [hold] at hq; simp at hq
    | some q₀ =>
      rw [hold] at hq
      simp only [Option.map_some', Option.some.injEq] at hq
      rw [← hq]
      have := hs k q₀ hold
      split
      · exact this
      · exact this
  | getPoll id => exact hs k q hq
  | getAllPolls => exact hs k q hq
  | hasVoted pollID voterKey => exact hs k q hq

theorem WellIndexed_run (s : Store) (ops : List Op)
    (hs : ∀ k q, mapGet s.polls k = some q → WellIndexed q) :
    ∀ k q, mapGet (run s ops).polls k = some q → WellIndexed q := by
  induction ops generalizing s with
  | nil => exact hs
  | cons op ops ih => exact ih (step s op) (WellIndexed_step s op hs)

/-- C11: options are immutable once created. For every store, every poll
present in it and every further sequence of store operations (generated ids
being fresh), the poll is still present with the same number of options, every
option keeps its id and text, and no counter is lower than before. In every
store reached from `NewStore`, every option's id is its zero-based position and
no counter is negative. -/
theorem options_immutable :
    (∀ (s : Store) (ops : List Op) (id : String) (poll : Poll),
      freshRun s ops = true → GetPoll s id = some poll →
      ∃ poll', GetPoll (run s ops) id = some poll' ∧
        poll'.Options.length = poll.Options.length ∧
        ∀ (i : Nat) (o : PollOption), poll.Options[i]? = some o →
          ∃ o', poll'.Options[i]? = some o' ∧ o'.ID = o.ID ∧ o'.Text = o.Text ∧
            o.Votes ≤ o'.Votes) ∧
    (∀ (ops : List Op) (id : String) (poll : Poll),
      GetPoll (run NewStore ops) id = some poll →
      ∀ (i : Nat) (o : PollOption), poll.Options[i]? = some o →
        o.ID = (i : Int) ∧ 0 ≤ o.Votes) := by
  constructor
  · intro s ops id poll hf hp
    obtain ⟨poll', hp', hk⟩ := OptionsKept_run s ops id poll hf hp
    exact ⟨poll', hp', hk.1, hk.2⟩
  · intro ops id poll hp
    exact WellIndexed_run NewStore ops (fun k q hq => by simp [NewStore, mapGet] at hq) id poll hp

theorem options_immutable_witness :
    freshRun votedStore laterOps = true ∧
    GetPoll votedStore "p1" = some (countVote samplePoll 0) ∧
    (∃ poll', GetPoll (run votedStore laterOps) "p1" = some poll' ∧
      poll'.Options.length = (countVote samplePoll 0).Options.length ∧
      ∀ (i : Nat) (o : PollOption), (countVote samplePoll 0).Options[i]? = some o →
        ∃ o', poll'.Options[i]? = some o' ∧ o'.ID = o.ID ∧ o'.Text = o.Text ∧
          o.Votes ≤ o'.Votes) ∧
    GetPoll (run NewStore sampleOps) "d0" = some sampleDefaultPoll ∧
    sampleDefaultPoll.Options[2]? = some { ID := 2, Text := "Go", Votes := 26 } ∧
    (({ ID := 2, Text := "Go", Votes := 26 } : PollOption).ID = ((2 : Nat) : Int) ∧
      (0 : Int) ≤ ({ ID := 2, Text := "Go", Votes := 26 } : PollOption).Votes) :=
  ⟨by decide, by decide,
   options_immutable.1 votedStore laterOps "p1" (countVote samplePoll 0) (by decide)
     (by decide),
   by decide, by decide,
   options_immutable.2 sampleOps "d0" sampleDefaultPoll (by decide) 2
     { ID := 2, Text := "Go", Votes := 26 } (by decide)⟩

/-! ## The create-poll handler -/

theorem filterValid_eq (acc options : List String) :
    filterValid acc options = acc ++ options.filter (fun o => decide (TrimSpace o ≠ "")) := by
  induction options generalizing acc with
  | nil => simp [filterValid]
  | cons o rest ih =>
    by_cases ho : TrimSpace o = ""
    · simp [filterValid, ho, ih]
    · simp [filterValid, ho, ih]

theorem length_filter_le_two (options : List String) (h : options.length < 2) :
    (options.filter (fun o => decide (TrimSpace o ≠ ""))).length < 2 :=
  Nat.lt_of_le_of_lt (List.length_filter_le _ _) h

/-- C12: on a decoded create-poll request the handler answers 400 exactly when
the question is empty after trimming or fewer than two option texts are
non-empty after trimming, and then the store is unchanged; otherwise it answers
201 with the poll that `CreatePoll` made from the question and the surviving
options, and that poll is stored under the generated id. -/
theorem handleCreatePoll_status (s : Store) (id createdAt : String)
    (req : CreatePollRequest) :
    ((handleCreatePoll s id createdAt req).2.status = 400 ↔
      (TrimSpace req.Question = "" ∨
        (req.Options.filter (fun o => decide (TrimSpace o ≠ ""))).length < 2)) ∧
    ((TrimSpace req.Question = "" ∨
        (req.Options.filter (fun o => decide (TrimSpace o ≠ ""))).length < 2) →
      (handleCreatePoll s id createdAt req).1 = s ∧
      (handleCreatePoll s id createdAt req).2.status = 400 ∧
      ∃ msg, (handleCreatePoll s id createdAt req).2.body = .error msg) ∧
    (¬ (TrimSpace req.Question = "" ∨
        (req.Options.filter (fun o => decide (TrimSpace o ≠ ""))).length < 2) →
      (handleCreatePoll s id createdAt req).2.status = 201 ∧
      (handleCreatePoll s id createdAt req).2.body =
        .poll (CreatePoll s id createdAt req.Question
          (req.Options.filter (fun o => decide (TrimSpace o ≠ "")))).2 ∧
      (handleCreatePoll s id createdAt req).1 =
        (CreatePoll s id createdAt req.Question
          (req.Options.filter (fun o => decide (TrimSpace o ≠ "")))).1 ∧
      GetPoll (handleCreatePoll s id createdAt req).1 id =
        some (CreatePoll s id createdAt req.Question
          (req.Options.filter (fun o => decide (TrimSpace o ≠ "")))).2) := by
  have hfv : filterValid [] req.Options =
      req.Options.filter (fun o => decide (TrimSpace o ≠ "")) := by
    rw [filterValid_eq]; rfl
  by_cases h1 : TrimSpace req.Question = "" ∨ req.Options.length < 2
  · have hbad : TrimSpace req.Question = "" ∨
        (req.Options.filter (fun o => decide (TrimSpace o ≠ ""))).length < 2 := by
      rcases h1 with h | h
      · exact Or.inl h
      · exact Or.inr (length_filter_le_two _ h)
    have hres : handleCreatePoll s id createdAt req =
        (s, { status := 400,
              body := .error "Question and at least 2 options are required." }) := by
      simp only [handleCreatePoll, if_pos h1]
    rw [hres]
    exact ⟨⟨fun _ => hbad, fun _ => rfl⟩, fun _ => ⟨rfl, rfl, _, rfl⟩,
      fun hn => absurd hbad hn⟩
  · by_cases h2 : (filterValid [] req.Options).length < 2
    · have hbad : TrimSpace req.Question = "" ∨
          (req.Options.filter (fun o => decide (TrimSpace o ≠ ""))).length < 2 := by
        rw [hfv] at h2; exact Or.inr h2
      have hres : handleCreatePoll s id createdAt req =
          (s, { status := 400,
                body := .error "At least 2 non-empty options are required." }) := by
        simp only [handleCreatePoll, if_neg h1, if_pos h2]
      rw [hres]
      exact ⟨⟨fun _ => hbad, fun _ => rfl⟩, fun _ => ⟨rfl, rfl, _, rfl⟩,
        fun hn => absurd hbad hn⟩
    · have hgood : ¬ (TrimSpace req.Question = "" ∨
          (req.Options.filter (fun o => decide (TrimSpace o ≠ ""))).length < 2) := by
        intro hb
        rcases hb with h | h
        · exact h1 (Or.inl h)
        · rw [hfv] at h2; exact h2 h
      have hres : handleCreatePoll s id createdAt req =
          ((CreatePoll s id createdAt req.Question
              (req.Options.filter (fun o => decide (TrimSpace o ≠ "")))).1,
           { status := 201
             body := .poll (CreatePoll s id createdAt req.Question
              (req.Options.filter (fun o => decide (TrimSpace o ≠ "")))).2 }) := by
        have h2' := h2
        rw [hfv] at h2'
        simp only [handleCreatePoll, if_neg h1, hfv, if_neg h2']
      rw [hres]
      refine ⟨⟨fun h => ?_, fun h => absurd h hgood⟩, fun h => absurd h hgood,
        fun _ => ⟨rfl, rfl, rfl, mapGet_mapSet_self _ _ _⟩⟩
      simp at h

theorem handleCreatePoll_status_witness :
    (TrimSpace "Pick" = "" ∨
      ((["A", " ", " "] : List String).filter
        (fun o => decide (TrimSpace o ≠ ""))).length < 2) ∧
    handleCreatePoll votedStore "p2" "2024-01-03T00:00:00Z"
        { Question := "Pick", Options := ["A", " ", " "] } =
      (votedStore,
       { status := 400, body := .error "At least 2 non-empty options are required." }) ∧
    ((handleCreatePoll votedStore "p2" "2024-01-03T00:00:00Z"
        { Question := "Pick", Options := ["A", " ", " "] }).1 = votedStore ∧
      (handleCreatePoll votedStore "p2" "2024-01-03T00:00:00Z"
        { Question := "Pick", Options := ["A", " ", " "] }).2.status = 400 ∧
      ∃ msg, (handleCreatePoll votedStore "p2" "2024-01-03T00:00:00Z"
        { Question := "Pick", Options := ["A", " ", " "] }).2.body = .error msg) ∧
    ¬ (TrimSpace " Pick " = "" ∨
      ((["A", "B ", " "] : List String).filter
        (fun o => decide (TrimSpace o ≠ ""))).length < 2) ∧
    (handleCreatePoll votedStore "p2" "2024-01-03T00:00:00Z"
        { Question := " Pick ", Options := ["A", "B ", " "] }).2.status = 201 :=
  ⟨by decide, by decide,
   (handleCreatePoll_status votedStore "p2" "2024-01-03T00:00:00Z"
      { Question := "Pick", Options := ["A", " ", " "] }).2.1 (by decide),
   by decide,
   ((handleCreatePoll_status votedStore "p2" "2024-01-03T00:00:00Z"
      { Question := " Pick ", Options := ["A", "B ", " "] }).2.2 (by decide)).1⟩

/-- C13: a create-poll request with a non-empty question and options
`["A", " ", "B"]` creates a poll with exactly the two options "A" (id 0) and
"B" (id 1). In general, when the handler accepts a request, the created poll's
option texts are the trimmed input entries that are non-empty after trimming,
in their original order, with ids `0..k-1` and zero votes, and the poll is the
one stored under the generated id. -/
theorem handleCreatePoll_options :
    (∀ (s : Store) (id createdAt question : String), TrimSpace question ≠ "" →
      (handleCreatePoll s id createdAt
          { Question := question, Options := ["A", " ", "B"] }).2 =
        { status := 201
          body := .poll
            { ID := id, Question := TrimSpace question,
              Options := [{ ID := 0, Text := "A", Votes := 0 },
                          { ID := 1, Text := "B", Votes := 0 }],
              TotalVotes := 0, Closed := false, CreatedAt := createdAt } }) ∧
    (∀ (s : Store) (id createdAt : String) (req : CreatePollRequest) (poll : Poll),
      (handleCreatePoll s id createdAt req).2 = { status := 201, body := .poll poll } →
      poll.Options.map PollOption.Text =
        (req.Options.map TrimSpace).filter (fun t => decide (t ≠ "")) ∧
      poll.Options.map PollOption.ID =
        (List.range poll.Options.length).map (fun n => (n : Int)) ∧
      poll.Options.map PollOption.Votes = List.replicate poll.Options.length 0 ∧
      GetPoll (handleCreatePoll s id createdAt req).1 id = some poll) := by
  constructor
  · intro s id createdAt question hq
    have h1 : ¬ (TrimSpace question = "" ∨ (["A", " ", "B"] : List String).length < 2) := by
      intro h
      rcases h with h | h
      · exact hq h
      · revert h; decide
    have h2 : filterValid [] ["A", " ", "B"] = ["A", "B"] := by decide
    have h3 : mkOptions 0 ["A", "B"] =
        [{ ID := 0, Text := "A", Votes := 0 }, { ID := 1, Text := "B", Votes := 0 }] := by
      decide
    simp only [handleCreatePoll, if_neg h1, h2, CreatePoll, h3]
    simp
  · intro s id createdAt req poll h
    have hfv : filterValid [] req.Options =
        req.Options.filter (fun o => decide (TrimSpace o ≠ "")) := by
      rw [filterValid_eq]; rfl
    unfold handleCreatePoll at h
    split at h
    · simp at h
    · split at h
      · simp at h
      · simp only [Response.mk.injEq, Body.poll.injEq, true_and] at h
        have hstore : GetPoll (handleCreatePoll s id createdAt req).1 id = some poll := by
          rename_i h1 h2
          simp only [handleCreatePoll, if_neg h1, if_neg h2]
          rw [← h]
          exact mapGet_mapSet_self _ _ _
        have hopts : poll.Options = mkOptions 0 (filterValid [] req.Options) := by
          rw [← h]; rfl
        have hlen : poll.Options.length = (filterValid [] req.Options).length := by
          have := congrArg List.length (mkOptions_texts 0 (filterValid [] req.Options))
          rw [hopts]
          simpa using this
        refine ⟨?_, ?_, ?_, hstore⟩
        · rw [hopts, mkOptions_texts, hfv, List.filter_map]
          rfl
        · rw [hlen, hopts, mkOptions_ids, List.range_eq_range']
        · rw [hlen, hopts, mkOptions_votes]

theorem handleCreatePoll_options_witness :
    TrimSpace " Pick one " ≠ "" ∧
    (handleCreatePoll votedStore "p2" "2024-01-03T00:00:00Z"
        { Question := " Pick one ", Options := ["A", " ", "B"] }).2 =
      { status := 201
        body := .poll
          { ID := "p2", Question := TrimSpace " Pick one ",
            Options := [{ ID := 0, Text := "A", Votes := 0 },
                        { ID := 1, Text := "B", Votes := 0 }],
            TotalVotes := 0, Closed := false, CreatedAt := "2024-01-03T00:00:00Z" } } :=
  ⟨by decide,
   handleCreatePoll_options.1 votedStore "p2" "2024-01-03T00:00:00Z" " Pick one "
     (by decide)⟩

/-! ## The vote handler -/

-- C16 as stated fails for a closed poll: the handler keeps the default status
-- 400 for every error other than not-found and already-voted.
theorem handleVote_closed_counterexample :
    Vote closedStore "p1" "v2" 0 = (closedStore, .err "This poll is closed") ∧
    handleVote closedStore "p1" "v2" { OptionID := some 0 } =
      (closedStore, some { status := 400, body := .error "This poll is closed" }) ∧
    ¬ (∀ (s s' : Store) (pollID voterKey : String) (optionID : Int),
        Vote s pollID voterKey optionID = (s', .err "This poll is closed") →
        ∃ body, (handleVote s pollID voterKey { OptionID := some optionID }).2 =
          some { status := 409, body := body }) := by
  refine ⟨by decide, by decide, fun h => ?_⟩
  obtain ⟨body, hb⟩ := h closedStore closedStore "p1" "v2" 0 (by decide)
  have h400 : (handleVote closedStore "p1" "v2" { OptionID := some 0 }).2 =
      some { status := 400, body := .error "This poll is closed" } := by decide
  rw [h400] at hb
  simp at hb

/-- C16 (amended): for a decoded vote request with `optionId` present, the
handler leaves the store as `Store.Vote` left it and answers with the error
message of `Store.Vote` and status 404 when the poll is unknown, 409 when the
voter has already voted, and 400 when the poll is closed (as for an invalid
option index); on success it answers 200 with the updated poll. -/
theorem handleVote_status (s : Store) (pollID voterKey : String) (optionID : Int) :
    (handleVote s pollID voterKey { OptionID := some optionID }).1 =
      (Vote s pollID voterKey optionID).1 ∧
    (∀ msg, (Vote s pollID voterKey optionID).2 = .err msg →
      (handleVote s pollID voterKey { OptionID := some optionID }).2 =
        some { status := voteErrorStatus msg, body := .error msg }) ∧
    ((Vote s pollID voterKey optionID).2 = .err "Poll not found" →
      (handleVote s pollID voterKey { OptionID := some optionID }).2 =
        some { status := 404, body := .error "Poll not found" }) ∧
    ((Vote s pollID voterKey optionID).2 = .err "You have already voted on this poll" →
      (handleVote s pollID voterKey { OptionID := some optionID }).2 =
        some { status := 409, body := .error "You have already voted on this poll" }) ∧
    ((Vote s pollID voterKey optionID).2 = .err "This poll is closed" →
      (handleVote s pollID voterKey { OptionID := some optionID }).2 =
        some { status := 400, body := .error "This poll is closed" }) ∧
    ((Vote s pollID voterKey optionID).2 = .err "Invalid option" →
      (handleVote s pollID voterKey { OptionID := some optionID }).2 =
        some { status := 400, body := .error "Invalid option" }) ∧
    (∀ poll, (Vote s pollID voterKey optionID).2 = .ok poll →
      (handleVote s pollID voterKey { OptionID := some optionID }).2 =
        some { status := 200
               body := .pollResponse
                 { poll := poll, HasVoted := true, VotedOptionID := some optionID } }) := by
  have herr : ∀ msg, (Vote s pollID voterKey optionID).2 = .err msg →
      (handleVote s pollID voterKey { OptionID := some optionID }).2 =
        some { status := voteErrorStatus msg, body := .error msg } := by
    intro msg hmsg
    simp only [handleVote]
    cases hv : Vote s pollID voterKey optionID with
    | mk s' r =>
      rw [hv] at hmsg
      simp only [] at hmsg
      subst hmsg
      rfl
  refine ⟨?_, herr, fun h => herr _ h, fun h => herr _ h, fun h => herr _ h,
    fun h => herr _ h, ?_⟩
  · simp only [handleVote]
    cases hv : Vote s pollID voterKey optionID with
    | mk s' r => cases r <;> rfl
  · intro poll hpoll
    simp only [handleVote]
    cases hv : Vote s pollID voterKey optionID with
    | mk s' r =>
      rw [hv] at hpoll
      simp only [] at hpoll
      subst hpoll
      rfl

theorem handleVote_status_witness :
    (Vote votedStore "nope" "v1" 0).2 = .err "Poll not found" ∧
    (handleVote votedStore "nope" "v1" { OptionID := some 0 }).2 =
      some { status := 404, body := .error "Poll not found" } ∧
    (Vote votedStore "p1" "v1" 1).2 = .err "You have already voted on this poll" ∧
    (handleVote votedStore "p1" "v1" { OptionID := some 1 }).2 =
      some { status := 409, body := .error "You have already voted on this poll" } ∧
    (Vote closedStore "p1" "v2" 1).2 = .err "This poll is closed" ∧
    (handleVote closedStore "p1" "v2" { OptionID := some 1 }).2 =
      some { status := 400, body := .error "This poll is closed" } ∧
    (Vote votedStore "p1" "v2" 7).2 = .err "Invalid option" ∧
    (handleVote votedStore "p1" "v2" { OptionID := some 7 }).2 =
      some { status := 400, body := .error "Invalid option" } ∧
    (Vote sampleStore "p1" "v1" 0).2 = .ok (countVote samplePoll 0) ∧
    (handleVote sampleStore "p1" "v1" { OptionID := some 0 }).2 =
      some { status := 200
             body := .pollResponse
               { poll := countVote samplePoll 0, HasVoted := true,
                 VotedOptionID := some 0 } } :=
  ⟨by decide, (handleVote_status votedStore "nope" "v1" 0).2.2.1 (by decide),
   by decide, (handleVote_status votedStore "p1" "v1" 1).2.2.2.1 (by decide),
   by decide, (handleVote_status closedStore "p1" "v2" 1).2.2.2.2.1 (by decide),
   by decide, (handleVote_status votedStore "p1" "v2" 7).2.2.2.2.2.1 (by decide),
   by decide,
   (handleVote_status sampleStore "p1" "v1" 0).2.2.2.2.2.2 (countVote samplePoll 0)
     (by decide)⟩

/-! ## Polls and vote records share their lifetime -/

theorem mem_mapKeys_of_get {β : Type} (m : List (String × β)) (k : String) (v : β)
    (h : mapGet m k = some v) : k ∈ mapKeys m :=
  List.mem_map.mpr ⟨(k, v), mapGet_mem m k v h, rfl⟩

theorem mapKeys_mapSet_congr {β γ : Type} (m₁ : List (String × β)) (m₂ : List (String × γ))
    (k : String) (v₁ : β) (v₂ : γ) (h : mapKeys m₁ = mapKeys m₂) :
    mapKeys (mapSet m₁ k v₁) = mapKeys (mapSet m₂ k v₂) := by
  induction m₁ generalizing m₂ with
  | nil =>
    cases m₂ with
    | nil => simp [mapSet, mapKeys]
    | cons hd tl => simp [mapKeys] at h
  | cons hd₁ tl₁ ih =>
    cases m₂ with
    | nil => simp [mapKeys] at h
    | cons hd₂ tl₂ =>
      obtain ⟨k₁, w₁⟩ := hd₁
      obtain ⟨k₂, w₂⟩ := hd₂
      simp only [mapKeys, List.map_cons, List.cons.injEq] at h
      obtain ⟨hk, htl⟩ := h
      subst hk
      have := ih tl₂ htl
      simp only [mapKeys] at this
      by_cases hkk : k₁ = k
      · simp [mapSet, mapKeys, hkk, htl]
      · simp [mapSet, mapKeys, hkk, this]

theorem mem_mapKeys_mapSet {β : Type} (m : List (String × β)) (k k₂ : String) (v : β)
    (h : k₂ ∈ mapKeys m) : k₂ ∈ mapKeys (mapSet m k v) := by
  cases hg : mapGet m k with
  | none => rw [mapKeys_mapSet_of_none _ _ _ hg]; exact List.mem_append_left _ h
  | some w => rw [mapKeys_mapSet_of_get _ _ _ _ hg]; exact h

theorem Vote_keys (s : Store) (pollID voterKey : String) (optionID : Int) :
    mapKeys (Vote s pollID voterKey optionID).1.polls = mapKeys s.polls ∧
    mapKeys (Vote s pollID voterKey optionID).1.votes = mapKeys s.votes := by
  unfold Vote
  split
  · exact ⟨rfl, rfl⟩
  · rename_i poll hp
    split
    · exact ⟨rfl, rfl⟩
    · split
      · exact ⟨rfl, rfl⟩
      · split
        · rename_i voters hv
          split
          · exact ⟨rfl, rfl⟩
          · exact ⟨mapKeys_mapSet_of_get _ _ _ _ hp, mapKeys_mapSet_of_get _ _ _ _ hv⟩
        · exact ⟨mapKeys_mapSet_of_get _ _ _ _ hp, rfl⟩

theorem ClosePoll_keys (s : Store) (id : String) :
    mapKeys (ClosePoll s id).1.polls = mapKeys s.polls ∧
    (ClosePoll s id).1.votes = s.votes := by
  unfold ClosePoll
  split
  · exact ⟨rfl, rfl⟩
  · rename_i poll hp
    exact ⟨mapKeys_mapSet_of_get _ _ _ _ hp, rfl⟩

theorem keys_eq_step (s : Store) (op : Op) (h : mapKeys s.polls = mapKeys s.votes) :
    mapKeys (step s op).polls = mapKeys (step s op).votes := by
  cases op with
  | seedDefault id createdAt => exact mapKeys_mapSet_congr _ _ _ _ _ h
  | createPoll id createdAt question options => exact mapKeys_mapSet_congr _ _ _ _ _ h
  | vote pollID voterKey optionID =>
    simp only [step]
    rw [(Vote_keys s pollID voterKey optionID).1, (Vote_keys s pollID voterKey optionID).2]
    exact h
  | closePoll id =>
    simp only [step]
    rw [(ClosePoll_keys s id).1, (ClosePoll_keys s id).2]
    exact h
  | getPoll id => exact h
  | getAllPolls => exact h
  | hasVoted pollID voterKey => exact h

theorem keys_eq_run (s : Store) (ops : List Op) (h : mapKeys s.polls = mapKeys s.votes) :
    mapKeys (run s ops).polls = mapKeys (run s ops).votes := by
  induction ops generalizing s with
  | nil => exact h
  | cons op ops ih => exact ih (step s op) (keys_eq_step s op h)

theorem keys_grow_step (s : Store) (op : Op) (id : String) :
    (id ∈ mapKeys s.polls → id ∈ mapKeys (step s op).polls) ∧
    (id ∈ mapKeys s.votes → id ∈ mapKeys (step s op).votes) := by
  cases op with
  | seedDefault id' createdAt =>
    exact ⟨mem_mapKeys_mapSet _ _ _ _, mem_mapKeys_mapSet _ _ _ _⟩
  | createPoll id' createdAt question options =>
    exact ⟨mem_mapKeys_mapSet _ _ _ _, mem_mapKeys_mapSet _ _ _ _⟩
  | vote pollID voterKey optionID =>
    simp only [step]
    rw [(Vote_keys s pollID voterKey optionID).1, (Vote_keys s pollID voterKey optionID).2]
    exact ⟨fun h => h, fun h => h⟩
  | closePoll id' =>
    simp only [step]
    rw [(ClosePoll_keys s id').1, (ClosePoll_keys s id').2]
    exact ⟨fun h => h, fun h => h⟩
  | getPoll id' => exact ⟨fun h => h, fun h => h⟩
  | getAllPolls => exact ⟨fun h => h, fun h => h⟩
  | hasVoted pollID voterKey => exact ⟨fun h => h, fun h => h⟩

theorem keys_grow_run (s : Store) (ops : List Op) (id : String) :
    (id ∈ mapKeys s.polls → id ∈ mapKeys (run s ops).polls) ∧
    (id ∈ mapKeys s.votes → id ∈ mapKeys (run s ops).votes) := by
  induction ops generalizing s with
  | nil => exact ⟨fun h => h, fun h => h⟩
  | cons op ops ih =>
    exact ⟨fun h => (ih (step s op)).1 ((keys_grow_step s op id).1 h),
      fun h => (ih (step s op)).2 ((keys_grow_step s op id).2 h)⟩

theorem isSome_get_eq_of_keys_eq (s : Store) (h : mapKeys s.polls = mapKeys s.votes)
    (id : String) : (mapGet s.polls id).isSome = (mapGet s.votes id).isSome := by
  cases hp : mapGet s.polls id with
  | none =>
    cases hv : mapGet s.votes id with
    | none => rfl
    | some voters =>
      have := mem_mapKeys_of_get _ _ _ hv
      rw [← h] at this
      exact absurd this (mapGet_none_not_mem_keys _ _ hp)
  | some poll =>
    cases hv : mapGet s.votes id with
    | none =>
      have := mem_mapKeys_of_get _ _ _ hp
      rw [h] at this
      exact absurd this (mapGet_none_not_mem_keys _ _ hv)
    | some voters => rfl

theorem Vote_no_panic_of_keys_eq (s : Store) (h : mapKeys s.polls = mapKeys s.votes)
    (pollID voterKey : String) (optionID : Int) (msg : String) :
    (Vote s pollID voterKey optionID).2 ≠ .panic msg := by
  unfold Vote
  split
  · simp
  · rename_i poll hp
    split
    · simp
    · split
      · simp
      · split
        · split
          · simp
          · simp
        · rename_i hv
          have := isSome_get_eq_of_keys_eq s h pollID
          rw [hp, hv] at this
          simp at this

/-- C19: in every store reached from `NewStore` by `SeedDefault`, `CreatePoll`,
`Vote` and `ClosePoll` calls (and reads), the poll ids and the ids owning a
vote-record map are the same, and every further operation sequence keeps every
poll id and every vote-record map. Hence whenever the four checks of `Vote`
pass, the poll's vote-record map exists and the option index is in bounds, the
call succeeds, and `Vote` never panics. -/
theorem polls_and_votes_same_lifetime (ops : List Op) :
    mapKeys (run NewStore ops).polls = mapKeys (run NewStore ops).votes ∧
    (∀ id, (GetPoll (run NewStore ops) id).isSome =
      (mapGet (run NewStore ops).votes id).isSome) ∧
    (∀ (more : List Op) (id : String), id ∈ mapKeys (run NewStore ops).polls →
      id ∈ mapKeys (run (run NewStore ops) more).polls ∧
      id ∈ mapKeys (run (run NewStore ops) more).votes) ∧
    (∀ (p v : String) (o : Int), voteChecks (run NewStore ops) p v o = none →
      ∃ poll voters, GetPoll (run NewStore ops) p = some poll ∧
        mapGet (run NewStore ops).votes p = some voters ∧
        0 ≤ o ∧ o.toNat < poll.Options.length ∧
        (Vote (run NewStore ops) p v o).2 = .ok (countVote poll o)) ∧
    (∀ (p v : String) (o : Int) (msg : String),
      (Vote (run NewStore ops) p v o).2 ≠ .panic msg) := by
  have hkeys : mapKeys (run NewStore ops).polls = mapKeys (run NewStore ops).votes :=
    keys_eq_run NewStore ops rfl
  refine ⟨hkeys, isSome_get_eq_of_keys_eq _ hkeys, ?_, ?_,
    Vote_no_panic_of_keys_eq _ hkeys⟩
  · intro more id hid
    have hid' : id ∈ mapKeys (run NewStore ops).votes := by rw [← hkeys]; exact hid
    exact ⟨(keys_grow_run _ more id).1 hid, (keys_grow_run _ more id).2 hid'⟩
  · intro p v o hchk
    have hnp := Vote_no_panic_of_keys_eq _ hkeys p v o
    rw [Vote_eq_checks_writes, hchk] at hnp
    simp only [] at hnp
    unfold voteChecks at hchk
    cases hp : mapGet (run NewStore ops).polls p with
    | none => rw [hp] at hchk; simp at hchk
    | some poll =>
      rw [hp] at hchk
      simp only [] at hchk
      split at hchk
      · simp at hchk
      · split at hchk
        · simp at hchk
        · rename_i hr
          cases hv : mapGet (run NewStore ops).votes p with
          | none =>
            exfalso
            simp only [voteWrites, hp, hv] at hnp
            exact hnp _ rfl
          | some voters =>
            refine ⟨poll, voters, hp, rfl, by omega, by omega, ?_⟩
            rw [Vote_eq_checks_writes]
            have hchk' : voteChecks (run NewStore ops) p v o = none := by
              unfold voteChecks
              rw [hp]
              simp only []
              rw [if_neg (by assumption), if_neg hr]
              exact hchk
            rw [hchk']
            simp only [voteWrites, hp, hv]

theorem polls_and_votes_same_lifetime_witness :
    "d0" ∈ mapKeys (run NewStore sampleOps).polls ∧
    ("d0" ∈ mapKeys (run (run NewStore sampleOps) laterOps).polls ∧
      "d0" ∈ mapKeys (run (run NewStore sampleOps) laterOps).votes) ∧
    voteChecks (run NewStore sampleOps) "p1" "v2" 1 = none ∧
    (∃ poll voters, GetPoll (run NewStore sampleOps) "p1" = some poll ∧
      mapGet (run NewStore sampleOps).votes "p1" = some voters ∧
      (0 : Int) ≤ 1 ∧ (1 : Int).toNat < poll.Options.length ∧
      (Vote (run NewStore sampleOps) "p1" "v2" 1).2 = .ok (countVote poll 1)) :=
  ⟨by decide,
   (polls_and_votes_same_lifetime sampleOps).2.2.1 laterOps "d0" (by decide),
   by decide,
   (polls_and_votes_same_lifetime sampleOps).2.2.2.1 "p1" "v2" 1 (by decide)⟩

/-! ## Concurrent votes by one voter -/

theorem goStep_start (p v : String) (os : List Int) (c : Conc) (i : Nat) (o : Int)
    (hpc : c.pcs[i]? = some Pc.start) (ho : os[i]? = some o) (hl : c.holder = none) :
    goStep p v os c i = { c with holder := some i, pcs := c.pcs.set i Pc.locked } := by
  simp [goStep, hpc, ho, hl]

theorem goStep_blocked (p v : String) (os : List Int) (c : Conc) (i : Nat)
    (hpc : c.pcs[i]? = some Pc.start) (hl : c.holder ≠ none) :
    goStep p v os c i = c := by
  unfold goStep
  rw [hpc]
  cases os[i]? with
  | none => rfl
  | some o => simp [hl]

theorem goStep_locked_err (p v : String) (os : List Int) (c : Conc) (i : Nat) (o : Int)
    (msg : String) (hpc : c.pcs[i]? = some Pc.locked) (ho : os[i]? = some o)
    (hchk : voteChecks c.store p v o = some msg) :
    goStep p v os c i =
      { c with holder := none, pcs := c.pcs.set i (Pc.done (.err msg)) } := by
  simp [goStep, hpc, ho, hchk]

theorem goStep_locked_pass (p v : String) (os : List Int) (c : Conc) (i : Nat) (o : Int)
    (hpc : c.pcs[i]? = some Pc.locked) (ho : os[i]? = some o)
    (hchk : voteChecks c.store p v o = none) :
    goStep p v os c i = { c with pcs := c.pcs.set i Pc.checked } := by
  simp [goStep, hpc, ho, hchk]

theorem goStep_checked (p v : String) (os : List Int) (c : Conc) (i : Nat) (o : Int)
    (hpc : c.pcs[i]? = some Pc.checked) (ho : os[i]? = some o) :
    goStep p v os c i =
      { store := (voteWrites c.store p v o).1
        holder := none
        pcs := c.pcs.set i (Pc.done (voteWrites c.store p v o).2) } := by
  simp [goStep, hpc, ho]

theorem goStep_done (p v : String) (os : List Int) (c : Conc) (i : Nat) (r : Outcome Poll)
    (hpc : c.pcs[i]? = some (Pc.done r)) : goStep p v os c i = c := by
  simp [goStep, hpc]

theorem goStep_out_of_range (p v : String) (os : List Int) (c : Conc) (i : Nat)
    (h : c.pcs[i]? = none ∨ os[i]? = none) : goStep p v os c i = c := by
  unfold goStep
  rcases h with h | h
  · rw [h]
  · rw [h]
    cases c.pcs[i]? with
    | none => rfl
    | some pc => cases pc <;> rfl

theorem voteChecks_cases (s : Store) (p v : String) (poll : Poll)
    (voters : List (String × Int)) (o : Int) (hp : mapGet s.polls p = some poll)
    (hv : mapGet s.votes p = some voters) :
    (voteChecks s p v o = none ∧ poll.Closed = false ∧ 0 ≤ o ∧
      o < (poll.Options.length : Int) ∧ mapGet voters v = none) ∨
    (voteChecks s p v o = some (rejectMsg poll o) ∧
      ¬ (poll.Closed = false ∧ 0 ≤ o ∧ o < (poll.Options.length : Int) ∧
        mapGet voters v = none)) := by
  unfold voteChecks rejectMsg
  simp only [hp, hv]
  by_cases hc : poll.Closed = true
  · right
    simp [hc]
  · have hc' : poll.Closed = false := by simpa using hc
    by_cases hr : o < 0 ∨ o ≥ (poll.Options.length : Int)
    · right
      refine ⟨by simp [hc', hr], fun h => ?_⟩
      omega
    · cases hvk : mapGet voters v with
      | none =>
        left
        exact ⟨by simp [hc', hr], hc', by omega, by omega, rfl⟩
      | some w =>
        right
        exact ⟨by simp [hc', hr], fun h => Option.noConfusion h.2.2.2⟩

theorem Vote_of_checks_pass (s : Store) (p v : String) (poll : Poll)
    (voters : List (String × Int)) (o : Int) (hp : mapGet s.polls p = some poll)
    (hv : mapGet s.votes p = some voters) (hchk : voteChecks s p v o = none) :
    voteWrites s p v o = Vote s p v o ∧
    Vote s p v o =
      ({ polls := mapSet s.polls p (countVote poll o)
         votes := mapSet s.votes p (mapSet voters v o) }, .ok (countVote poll o)) := by
  have h1 : voteWrites s p v o = Vote s p v o := by
    rw [Vote_eq_checks_writes, hchk]
  refine ⟨h1, ?_⟩
  rw [← h1]
  simp only [voteWrites, hp, hv]

theorem voteChecks_after_vote (s : Store) (p v : String) (poll : Poll)
    (voters : List (String × Int)) (o o' : Int) (hp : mapGet s.polls p = some poll)
    (hv : mapGet s.votes p = some voters) (hchk : voteChecks s p v o = none) :
    voteChecks (Vote s p v o).1 p v o' = some (rejectMsg poll o') := by
  rcases voteChecks_cases s p v poll voters o hp hv with ⟨_, hopen, _, _, _⟩ | ⟨h, _⟩
  · rw [(Vote_of_checks_pass s p v poll voters o hp hv hchk).2]
    by_cases hr : o' < 0 ∨ o' ≥ (poll.Options.length : Int)
    · simp [voteChecks, rejectMsg, mapGet_mapSet_self, countVote, hopen,
        length_incVotesAt, hr]
    · simp [voteChecks, rejectMsg, mapGet_mapSet_self, countVote, hopen,
        length_incVotesAt, hr]
  · rw [hchk] at h
    exact Option.noConfusion h

theorem ConcInv_init (s : Store) (p v : String) (os : List Int) (poll : Poll) :
    ConcInv s p v os poll (initConc s os.length) := by
  refine ⟨by simp [initConc], ?_, Or.inl ⟨rfl, ?_⟩⟩
  · intro j hj
    simp only [initConc, List.getElem?_replicate] at hj
    rcases hj with hj | hj <;> split at hj <;> simp at hj
  · intro j pc o hj _
    simp only [initConc, List.getElem?_replicate] at hj
    split at hj
    · exact Or.inl (Option.some.inj hj).symm
    · simp at hj

theorem getElem?_set_lt {pcs : List Pc} {i : Nat} {pc a : Pc} (h : pcs[i]? = some pc) :
    (pcs.set i a)[i]? = some a := by
  have hlt : i < pcs.length := by
    by_contra hge
    rw [List.getElem?_eq_none (by omega)] at h
    exact Option.noConfusion h
  exact List.getElem?_set_self hlt

theorem ConcInv_goStep (s : Store) (p v : String) (os : List Int) (poll : Poll)
    (voters : List (String × Int)) (c : Conc) (i : Nat)
    (hp : mapGet s.polls p = some poll) (hv : mapGet s.votes p = some voters)
    (hinv : ConcInv s p v os poll c) : ConcInv s p v os poll (goStep p v os c i) := by
  obtain ⟨hlen, hlock, hphase⟩ := hinv
  cases hpc : c.pcs[i]? with
  | none => rw [goStep_out_of_range p v os c i (Or.inl hpc)]; exact ⟨hlen, hlock, hphase⟩
  | some pc =>
    cases ho : os[i]? with
    | none => rw [goStep_out_of_range p v os c i (Or.inr ho)]; exact ⟨hlen, hlock, hphase⟩
    | some o =>
      have hseti : ∀ a : Pc, (c.pcs.set i a)[i]? = some a := fun a => getElem?_set_lt hpc
      have hsetne : ∀ (a : Pc) (j : Nat), j ≠ i → (c.pcs.set i a)[j]? = c.pcs[j]? :=
        fun a j hj => List.getElem?_set_ne (fun e => hj e.symm)
      cases pc with
      | start =>
        by_cases hl : c.holder = none
        · rw [goStep_start p v os c i o hpc ho hl]
          refine ⟨by simpa using hlen, ?_, ?_⟩
          · intro j hj
            by_cases hji : j = i
            · rw [hji]
            · simp only [hsetne _ j hji] at hj
              have := hlock j hj
              rw [hl] at this
              exact Option.noConfusion this
          · rcases hphase with ⟨hst, hall⟩ | ⟨w, ow, how, hwchk, hst, hw, hall⟩
            · refine Or.inl ⟨hst, fun j pc o' hj ho' => ?_⟩
              by_cases hji : j = i
              · subst hji
                simp only [hseti] at hj
                exact Or.inr (Or.inl (Option.some.inj hj).symm)
              · simp only [hsetne _ j hji] at hj
                exact hall j pc o' hj ho'
            · have hwi : w ≠ i := by
                intro e; subst e
                rw [hpc] at hw
                exact Pc.noConfusion (Option.some.inj hw)
              refine Or.inr ⟨w, ow, how, hwchk, hst, by simp only [hsetne _ w hwi]; exact hw,
                fun j pc o' hjw hj ho' => ?_⟩
              by_cases hji : j = i
              · subst hji
                simp only [hseti] at hj
                exact Or.inr (Or.inl (Option.some.inj hj).symm)
              · simp only [hsetne _ j hji] at hj
                exact hall j pc o' hjw hj ho'
        · rw [goStep_blocked p v os c i hpc hl]; exact ⟨hlen, hlock, hphase⟩
      | locked =>
        have hhold : c.holder = some i := hlock i (Or.inl hpc)
        have hsole : ∀ j : Nat, j ≠ i →
            ¬ (c.pcs[j]? = some Pc.locked ∨ c.pcs[j]? = some Pc.checked) := by
          intro j hji hj
          have := hlock j hj
          rw [hhold] at this
          exact hji (Option.some.inj this).symm
        rcases hphase with ⟨hst, hall⟩ | ⟨w, ow, how, hwchk, hst, hw, hall⟩
        · rcases voteChecks_cases s p v poll voters o hp hv with ⟨hchk, _⟩ | ⟨hchk, _⟩
          · have hchk' : voteChecks c.store p v o = none := by rw [hst]; exact hchk
            rw [goStep_locked_pass p v os c i o hpc ho hchk']
            refine ⟨by simpa using hlen, ?_, Or.inl ⟨hst, fun j pc o' hj ho' => ?_⟩⟩
            · intro j hj
              by_cases hji : j = i
              · rw [hji]; exact hhold
              · simp only [hsetne _ j hji] at hj
                exact absurd hj (hsole j hji)
            · by_cases hji : j = i
              · subst hji
                simp only [hseti] at hj
                rw [ho] at ho'
                rw [← Option.some.inj ho']
                exact Or.inr (Or.inr (Or.inl ⟨(Option.some.inj hj).symm, hchk⟩))
              · simp only [hsetne _ j hji] at hj
                exact hall j pc o' hj ho'
          · have hchk' : voteChecks c.store p v o = some (rejectMsg poll o) := by
              rw [hst]; exact hchk
            rw [goStep_locked_err p v os c i o _ hpc ho hchk']
            refine ⟨by simpa using hlen, ?_, Or.inl ⟨hst, fun j pc o' hj ho' => ?_⟩⟩
            · intro j hj
              by_cases hji : j = i
              · subst hji
                simp only [hseti] at hj
                rcases hj with hj | hj <;> exact Pc.noConfusion (Option.some.inj hj)
              · simp only [hsetne _ j hji] at hj
                exact absurd hj (hsole j hji)
            · by_cases hji : j = i
              · subst hji
                simp only [hseti] at hj
                rw [ho] at ho'
                rw [← Option.some.inj ho']
                refine Or.inr (Or.inr (Or.inr ⟨(Option.some.inj hj).symm, ?_⟩))
                rw [hchk]
                exact fun e => Option.noConfusion e
              · simp only [hsetne _ j hji] at hj
                exact hall j pc o' hj ho'
        · have hwi : w ≠ i := by
            intro e; subst e
            rw [hpc] at hw
            exact Pc.noConfusion (Option.some.inj hw)
          have hchk : voteChecks c.store p v o = some (rejectMsg poll o) := by
            rw [hst]
            exact voteChecks_after_vote s p v poll voters ow o hp hv hwchk
          rw [goStep_locked_err p v os c i o _ hpc ho hchk]
          refine ⟨by simpa using hlen, ?_, Or.inr ⟨w, ow, how, hwchk, hst,
            by simp only [hsetne _ w hwi]; exact hw, fun j pc o' hjw hj ho' => ?_⟩⟩
          · intro j hj
            by_cases hji : j = i
            · subst hji
              simp only [hseti] at hj
              rcases hj with hj | hj <;> exact Pc.noConfusion (Option.some.inj hj)
            · simp only [hsetne _ j hji] at hj
              exact absurd hj (hsole j hji)
          · by_cases hji : j = i
            · subst hji
              simp only [hseti] at hj
              rw [ho] at ho'
              rw [← Option.some.inj ho']
              exact Or.inr (Or.inr (Option.some.inj hj).symm)
            · simp only [hsetne _ j hji] at hj
              exact hall j pc o' hjw hj ho'
      | checked =>
        have hhold : c.holder = some i := hlock i (Or.inr hpc)
        have hsole : ∀ j : Nat, j ≠ i →
            ¬ (c.pcs[j]? = some Pc.locked ∨ c.pcs[j]? = some Pc.checked) := by
          intro j hji hj
          have := hlock j hj
          rw [hhold] at this
          exact hji (Option.some.inj this).symm
        rw [goStep_checked p v os c i o hpc ho]
        rcases hphase with ⟨hst, hall⟩ | ⟨w, ow, how, hwchk, hst, hw, hall⟩
        · have hchk : voteChecks s p v o = none := by
            rcases hall i Pc.checked o hpc ho with h | h | h | h
            · exact Pc.noConfusion h
            · exact Pc.noConfusion h
            · exact h.2
            · exact Pc.noConfusion h.1
          have hwr : voteWrites c.store p v o = Vote s p v o := by
            rw [hst]; exact (Vote_of_checks_pass s p v poll voters o hp hv hchk).1
          rw [hwr]
          refine ⟨by simpa using hlen, ?_, Or.inr ⟨i, o, ho, hchk, rfl, hseti _,
            fun j pc o' hji hj ho' => ?_⟩⟩
          · intro j hj
            by_cases hji : j = i
            · subst hji
              simp only [hseti] at hj
              rcases hj with hj | hj <;> exact Pc.noConfusion (Option.some.inj hj)
            · simp only [hsetne _ j hji] at hj
              exact absurd hj (hsole j hji)
          · simp only [hsetne _ j hji] at hj
            rcases hall j pc o' hj ho' with h | h | h | h
            · exact Or.inl h
            · exact absurd (Or.inl (h ▸ hj)) (hsole j hji)
            · exact absurd (Or.inr (h.1 ▸ hj)) (hsole j hji)
            · exact Or.inr (Or.inr h.1)
        · have hwi : i ≠ w := by
            intro e; subst e
            rw [hpc] at hw
            exact Pc.noConfusion (Option.some.inj hw)
          rcases hall i Pc.checked o hwi hpc ho with h | h | h <;> exact Pc.noConfusion h
      | done r => rw [goStep_done p v os c i r hpc]; exact ⟨hlen, hlock, hphase⟩

theorem ConcInv_exec (s : Store) (p v : String) (os : List Int) (poll : Poll)
    (voters : List (String × Int)) (c : Conc) (sched : List Nat)
    (hp : mapGet s.polls p = some poll) (hv : mapGet s.votes p = some voters)
    (hinv : ConcInv s p v os poll c) : ConcInv s p v os poll (exec p v os c sched) := by
  induction sched generalizing c with
  | nil => exact hinv
  | cons i sched ih =>
    exact ih (goStep p v os c i) (ConcInv_goStep s p v os poll voters c i hp hv hinv)

theorem notFound_goStep (s : Store) (p v : String) (os : List Int) (c : Conc) (i : Nat)
    (hp : mapGet s.polls p = none)
    (hinv : c.pcs.length = os.length ∧ c.store = s ∧
      ∀ (j : Nat) (pc : Pc), c.pcs[j]? = some pc →
        pc = Pc.start ∨ pc = Pc.locked ∨ pc = Pc.done (.err "Poll not found")) :
    (goStep p v os c i).pcs.length = os.length ∧ (goStep p v os c i).store = s ∧
      ∀ (j : Nat) (pc : Pc), (goStep p v os c i).pcs[j]? = some pc →
        pc = Pc.start ∨ pc = Pc.locked ∨ pc = Pc.done (.err "Poll not found") := by
  obtain ⟨hlen, hst, hall⟩ := hinv
  cases hpc : c.pcs[i]? with
  | none => rw [goStep_out_of_range p v os c i (Or.inl hpc)]; exact ⟨hlen, hst, hall⟩
  | some pc =>
    have hset : ∀ a : Pc,
        (a = Pc.start ∨ a = Pc.locked ∨ a = Pc.done (.err "Poll not found")) →
        ∀ (j : Nat) (pc : Pc), (c.pcs.set i a)[j]? = some pc →
          pc = Pc.start ∨ pc = Pc.locked ∨ pc = Pc.done (.err "Poll not found") := by
      intro a ha j pc' hj
      by_cases hji : j = i
      · subst hji
        rw [getElem?_set_lt hpc] at hj
        rw [← Option.some.inj hj]
        exact ha
      · rw [List.getElem?_set_ne (fun e => hji e.symm)] at hj
        exact hall j pc' hj
    cases ho : os[i]? with
    | none => rw [goStep_out_of_range p v os c i (Or.inr ho)]; exact ⟨hlen, hst, hall⟩
    | some o =>
      cases pc with
      | start =>
        by_cases hl : c.holder = none
        · rw [goStep_start p v os c i o hpc ho hl]
          exact ⟨by simpa using hlen, hst, hset _ (Or.inr (Or.inl rfl))⟩
        · rw [goStep_blocked p v os c i hpc hl]; exact ⟨hlen, hst, hall⟩
      | locked =>
        have hchk : voteChecks c.store p v o = some "Poll not found" := by
          rw [hst]
          simp only [voteChecks, hp]
        rw [goStep_locked_err p v os c i o _ hpc ho hchk]
        exact ⟨by simpa using hlen, hst, hset _ (Or.inr (Or.inr rfl))⟩
      | checked =>
        rcases hall i _ hpc with h | h | h <;> exact Pc.noConfusion h
      | done r => rw [goStep_done p v os c i r hpc]; exact ⟨hlen, hst, hall⟩

theorem notFound_exec (s : Store) (p v : String) (os : List Int) (c : Conc)
    (sched : List Nat) (hp : mapGet s.polls p = none)
    (hinv : c.pcs.length = os.length ∧ c.store = s ∧
      ∀ (j : Nat) (pc : Pc), c.pcs[j]? = some pc →
        pc = Pc.start ∨ pc = Pc.locked ∨ pc = Pc.done (.err "Poll not found")) :
    (exec p v os c sched).pcs.length = os.length ∧ (exec p v os c sched).store = s ∧
      ∀ (j : Nat) (pc : Pc), (exec p v os c sched).pcs[j]? = some pc →
        pc = Pc.start ∨ pc = Pc.locked ∨ pc = Pc.done (.err "Poll not found") := by
  induction sched generalizing c with
  | nil => exact hinv
  | cons i sched ih => exact ih (goStep p v os c i) (notFound_goStep s p v os c i hp hinv)

/-- Concurrent calls for a poll id that is not in the store: once all have
returned, each got the not-found error and the store is untouched. -/
theorem concurrent_not_found (s : Store) (p v : String) (os : List Int) (sched : List Nat)
    (hp : mapGet s.polls p = none)
    (hdone : allDone (exec p v os (initConc s os.length) sched) = true) :
    (exec p v os (initConc s os.length) sched).store = s ∧
    ∀ (j : Nat) (o : Int), os[j]? = some o →
      (exec p v os (initConc s os.length) sched).pcs[j]? =
        some (Pc.done (.err "Poll not found")) := by
  obtain ⟨hlen, hst, hall⟩ := notFound_exec s p v os (initConc s os.length) sched hp
    ⟨by simp [initConc], rfl, fun j pc hj => by
      simp only [initConc, List.getElem?_replicate] at hj
      split at hj
      · exact Or.inl (Option.some.inj hj).symm
      · simp at hj⟩
  refine ⟨hst, fun j o ho => ?_⟩
  simp only [allDone, List.all_eq_true] at hdone
  have hj : j < (exec p v os (initConc s os.length) sched).pcs.length := by
    rw [hlen]
    by_contra hge
    rw [List.getElem?_eq_none (by omega)] at ho
    exact Option.noConfusion ho
  have hget := List.getElem?_eq_getElem hj
  have hd := hdone _ (List.getElem?_mem hget)
  rcases hall j _ hget with h | h | h
  · rw [h] at hd; exact absurd hd (by decide)
  · rw [h] at hd; exact absurd hd (by decide)
  · rw [hget, h]

/-- What the lock discipline gives once every call has returned: either no
call passed the checks, the store is untouched and every call got `rejectMsg`;
or exactly one call `w` passed them, the store is the one its `Vote` produces,
and every other call got `rejectMsg`. -/
theorem concurrent_outcome (s : Store) (p v : String) (os : List Int) (poll : Poll)
    (voters : List (String × Int)) (sched : List Nat)
    (hp : mapGet s.polls p = some poll) (hv : mapGet s.votes p = some voters)
    (hdone : allDone (exec p v os (initConc s os.length) sched) = true) :
    ((exec p v os (initConc s os.length) sched).store = s ∧
      ∀ (j : Nat) (o : Int), os[j]? = some o →
        (exec p v os (initConc s os.length) sched).pcs[j]? =
          some (Pc.done (.err (rejectMsg poll o))) ∧
        voteChecks s p v o ≠ none) ∨
    ∃ (w : Nat) (ow : Int), os[w]? = some ow ∧ voteChecks s p v ow = none ∧
      (exec p v os (initConc s os.length) sched).store = (Vote s p v ow).1 ∧
      (exec p v os (initConc s os.length) sched).pcs[w]? =
        some (Pc.done (.ok (countVote poll ow))) ∧
      ∀ (j : Nat) (o : Int), j ≠ w → os[j]? = some o →
        (exec p v os (initConc s os.length) sched).pcs[j]? =
          some (Pc.done (.err (rejectMsg poll o))) := by
  obtain ⟨hlen, _, hphase⟩ := ConcInv_exec s p v os poll voters (initConc s os.length) sched
    hp hv (ConcInv_init s p v os poll)
  simp only [allDone, List.all_eq_true] at hdone
  have hget : ∀ (j : Nat) (o : Int), os[j]? = some o →
      ∃ pc, (exec p v os (initConc s os.length) sched).pcs[j]? = some pc ∧
        pc.isDone = true := by
    intro j o ho
    have hj : j < (exec p v os (initConc s os.length) sched).pcs.length := by
      rw [hlen]
      by_contra hge
      rw [List.getElem?_eq_none (by omega)] at ho
      exact Option.noConfusion ho
    exact ⟨_, List.getElem?_eq_getElem hj, hdone _ (List.getElem?_mem
      (List.getElem?_eq_getElem hj))⟩
  rcases hphase with ⟨hst, hall⟩ | ⟨w, ow, how, hwchk, hst, hw, hall⟩
  · refine Or.inl ⟨hst, fun j o ho => ?_⟩
    obtain ⟨pc, hpc, hd⟩ := hget j o ho
    rcases hall j pc o hpc ho with h | h | h | h
    · rw [h] at hd; exact absurd hd (by decide)
    · rw [h] at hd; exact absurd hd (by decide)
    · rw [h.1] at hd; exact absurd hd (by decide)
    · exact ⟨by rw [hpc, h.1], h.2⟩
  · refine Or.inr ⟨w, ow, how, hwchk, hst, ?_, fun j o hjw ho => ?_⟩
    · rw [hw, (Vote_of_checks_pass s p v poll voters ow hp hv hwchk).2]
    · obtain ⟨pc, hpc, hd⟩ := hget j o ho
      rcases hall j pc o hjw hpc ho with h | h | h
      · rw [h] at hd; exact absurd hd (by decide)
      · rw [h] at hd; exact absurd hd (by decide)
      · rw [hpc, h]

theorem goStep_thrice (p v : String) (os : List Int) (c : Conc) (k : Nat) (o : Int)
    (hl : c.holder = none) (hpc : c.pcs[k]? = some Pc.start) (ho : os[k]? = some o) :
    ∃ st r, goStep p v os (goStep p v os (goStep p v os c k) k) k =
      { store := st, holder := none, pcs := c.pcs.set k (Pc.done r) } := by
  rw [goStep_start p v os c k o hpc ho hl]
  have h1 : (c.pcs.set k Pc.locked)[k]? = some Pc.locked := getElem?_set_lt hpc
  cases hchk : voteChecks c.store p v o with
  | some msg =>
    have e2 := goStep_locked_err p v os
      { store := c.store, holder := some k, pcs := c.pcs.set k Pc.locked } k o msg h1 ho hchk
    have h2 : ((c.pcs.set k Pc.locked).set k (Pc.done (.err msg)))[k]? =
        some (Pc.done (.err msg)) := getElem?_set_lt h1
    have e3 := goStep_done p v os
      { store := c.store, holder := none,
        pcs := (c.pcs.set k Pc.locked).set k (Pc.done (.err msg)) } k _ h2
    simp only [] at e2 e3
    rw [e2, e3]
    exact ⟨c.store, .err msg, by simp [List.set_set]⟩
  | none =>
    have e2 := goStep_locked_pass p v os
      { store := c.store, holder := some k, pcs := c.pcs.set k Pc.locked } k o h1 ho hchk
    have h2 : ((c.pcs.set k Pc.locked).set k Pc.checked)[k]? = some Pc.checked :=
      getElem?_set_lt h1
    have e3 := goStep_checked p v os
      { store := c.store, holder := some k,
        pcs := (c.pcs.set k Pc.locked).set k Pc.checked } k o h2 ho
    simp only [] at e2 e3
    rw [e2, e3]
    exact ⟨(voteWrites c.store p v o).1, (voteWrites c.store p v o).2, by
      simp [List.set_set]⟩

theorem exec_seqSched (p v : String) (os : List Int) (m k : Nat) (c : Conc)
    (hl : c.holder = none)
    (hstart : ∀ j, k ≤ j → j < k + m → c.pcs[j]? = some Pc.start ∧ ∃ o, os[j]? = some o) :
    (exec p v os c (seqSched k m)).holder = none ∧
    (exec p v os c (seqSched k m)).pcs.length = c.pcs.length ∧
    (∀ j, k ≤ j → j < k + m → ∃ r, (exec p v os c (seqSched k m)).pcs[j]? = some (Pc.done r)) ∧
    (∀ j, j < k → (exec p v os c (seqSched k m)).pcs[j]? = c.pcs[j]?) := by
  induction m generalizing k c with
  | zero =>
    refine ⟨hl, rfl, ?_, fun j _ => rfl⟩
    intro j h1 h2
    omega
  | succ m ih =>
    obtain ⟨hk, o, ho⟩ := hstart k (Nat.le_refl k) (by omega)
    obtain ⟨st, r, h3⟩ := goStep_thrice p v os c k o hl hk ho
    simp only [seqSched, exec, h3]
    have hne : ∀ j, j ≠ k → (c.pcs.set k (Pc.done r))[j]? = c.pcs[j]? :=
      fun j hj => List.getElem?_set_ne (fun e => hj e.symm)
    obtain ⟨i1, i2, i3, i4⟩ := ih (k + 1)
      { store := st, holder := none, pcs := c.pcs.set k (Pc.done r) } rfl
      (fun j h1 h2 => by
        have := hstart j (by omega) (by omega)
        simp only [hne j (by omega)]
        exact this)
    refine ⟨i1, by simpa using i2, ?_, ?_⟩
    · intro j h1 h2
      by_cases hjk : j = k
      · subst hjk
        have := i4 j (by omega)
        simp only [getElem?_set_lt hk] at this
        exact ⟨r, this⟩
      · exact i3 j (by omega) (by omega)
    · intro j hj
      have := i4 j (by omega)
      simp only [hne j (by omega)] at this
      exact this

theorem allDone_seqSched (s : Store) (p v : String) (os : List Int) :
    allDone (exec p v os (initConc s os.length) (seqSched 0 os.length)) = true := by
  obtain ⟨_, hlen, hdone, _⟩ := exec_seqSched p v os os.length 0 (initConc s os.length) rfl
    (fun j _ hj => by
      have hj' : j < os.length := by omega
      refine ⟨by simp [initConc, List.getElem?_replicate, hj'], os[j], ?_⟩
      exact List.getElem?_eq_getElem hj')
  simp only [allDone, List.all_eq_true]
  intro pc hpc
  obtain ⟨j, hj⟩ := List.mem_iff_getElem?.mp hpc
  have hjlt : j < os.length := by
    by_contra hge
    have hlen' : (initConc s os.length).pcs.length = os.length := by simp [initConc]
    rw [List.getElem?_eq_none (by rw [hlen, hlen']; omega)] at hj
    exact Option.noConfusion hj
  obtain ⟨r, hr⟩ := hdone j (Nat.zero_le j) (by omega)
  rw [hr] at hj
  rw [← Option.some.inj hj]
  rfl

-- C6 as stated fails in three ways. On a closed poll two concurrent calls by
-- one voter both return the poll-closed error and none succeeds. When the
-- voter has already voted, both calls return already-voted and none succeeds.
-- With an out-of-range index in one call, that call returns the
-- invalid-option error, not already-voted, while the other call succeeds.
theorem concurrent_votes_counterexample :
    GetPoll closedStore "p1" = some { countVote samplePoll 0 with Closed := true } ∧
    HasVoted closedStore "p1" "v2" = (false, -1) ∧
    allDone (exec "p1" "v2" [0, 1] (initConc closedStore 2) (seqSched 0 2)) = true ∧
    (exec "p1" "v2" [0, 1] (initConc closedStore 2) (seqSched 0 2)).pcs =
      [Pc.done (.err "This poll is closed"), Pc.done (.err "This poll is closed")] ∧
    HasVoted votedStore "p1" "v1" = (true, 0) ∧
    allDone (exec "p1" "v1" [0, 1] (initConc votedStore 2) (seqSched 0 2)) = true ∧
    (exec "p1" "v1" [0, 1] (initConc votedStore 2) (seqSched 0 2)).pcs =
      [Pc.done (.err "You have already voted on this poll"),
       Pc.done (.err "You have already voted on this poll")] ∧
    allDone (exec "p1" "v1" [5, 0] (initConc sampleStore 2) (seqSched 0 2)) = true ∧
    (exec "p1" "v1" [5, 0] (initConc sampleStore 2) (seqSched 0 2)).pcs =
      [Pc.done (.err "Invalid option"), Pc.done (.ok (countVote samplePoll 0))] ∧
    ¬ (∀ (s : Store) (p v : String) (os : List Int) (sched : List Nat),
        os ≠ [] → (∃ poll, GetPoll s p = some poll) →
        allDone (exec p v os (initConc s os.length) sched) = true →
        ∃ (i : Nat) (poll' : Poll),
          (exec p v os (initConc s os.length) sched).pcs[i]? =
            some (Pc.done (.ok poll'))) ∧
    ¬ (∀ (s : Store) (p v : String) (os : List Int) (sched : List Nat) (j : Nat)
        (r : Outcome Poll),
        (∃ poll, GetPoll s p = some poll ∧ poll.Closed = false) →
        HasVoted s p v = (false, -1) →
        allDone (exec p v os (initConc s os.length) sched) = true →
        (exec p v os (initConc s os.length) sched).pcs[j]? = some (Pc.done r) →
        (∃ poll', r = .ok poll') ∨ r = .err "You have already voted on this poll") := by
  refine ⟨by decide, by decide, by decide, by decide, by decide, by decide, by decide,
    by decide, by decide, fun h => ?_, fun h => ?_⟩
  · obtain ⟨i, poll', hi⟩ := h closedStore "p1" "v2" [0, 1] (seqSched 0 2) (by decide)
      ⟨{ countVote samplePoll 0 with Closed := true }, by decide⟩ (by decide)
    have hpcs : (exec "p1" "v2" [0, 1] (initConc closedStore ([0, 1] : List Int).length)
        (seqSched 0 2)).pcs =
        [Pc.done (.err "This poll is closed"), Pc.done (.err "This poll is closed")] := by
      decide
    rw [hpcs] at hi
    match i, hi with
    | 0, hi => simp at hi
    | 1, hi => simp at hi
    | n + 2, hi => simp at hi
  · have := h sampleStore "p1" "v1" [5, 0] (seqSched 0 2) 0 (.err "Invalid option")
      ⟨samplePoll, by decide, by decide⟩ (by decide) (by decide) (by decide)
    rcases this with ⟨poll', hp'⟩ | hmsg
    · exact Outcome.noConfusion hp'
    · revert hmsg
      decide

/-- C6 (amended): let any number of goroutines call `Vote` concurrently for
one voter and one poll id; the checks and writes of `Vote` run while the caller
holds the store lock. In every interleaving in which all calls have returned:
if no poll has this id, every call returns the not-found error and the store is
unchanged. If the poll exists, with its vote record: when the poll is open, the
voter has no recorded vote and some call has an option index in range, then
exactly one call, one with an index in range, succeeds, the store is the one a
single `Vote` of that call produces, and `TotalVotes` has increased by exactly
one; otherwise no call succeeds and the store is unchanged. Every call that
does not succeed returns `rejectMsg`: the poll-closed error if the poll is
closed, else the invalid-option error if its index is out of range, else the
already-voted error. In particular, for one or more calls on an open poll by a
voter without a recorded vote, all with an index in range, exactly one
succeeds and all others return already-voted. In every store reached from
`NewStore` an existing poll has its vote record. The calls do all return when
scheduled one after the other. -/
theorem concurrent_votes_same_voter (s : Store) (p v : String) (os : List Int) :
    (GetPoll s p = none → ∀ sched,
      allDone (exec p v os (initConc s os.length) sched) = true →
      (exec p v os (initConc s os.length) sched).store = s ∧
      ∀ (j : Nat) (o : Int), os[j]? = some o →
        (exec p v os (initConc s os.length) sched).pcs[j]? =
          some (Pc.done (.err "Poll not found"))) ∧
    (∀ (poll : Poll) (voters : List (String × Int)),
      GetPoll s p = some poll → mapGet s.votes p = some voters →
      (∀ sched, allDone (exec p v os (initConc s os.length) sched) = true →
        ((∀ o ∈ os, ¬ (poll.Closed = false ∧ mapGet voters v = none ∧ 0 ≤ o ∧
            o < (poll.Options.length : Int))) →
          (exec p v os (initConc s os.length) sched).store = s ∧
          ∀ (j : Nat) (o : Int), os[j]? = some o →
            (exec p v os (initConc s os.length) sched).pcs[j]? =
              some (Pc.done (.err (rejectMsg poll o)))) ∧
        ((∃ o ∈ os, poll.Closed = false ∧ mapGet voters v = none ∧ 0 ≤ o ∧
            o < (poll.Options.length : Int)) →
          ∃ (w : Nat) (ow : Int), os[w]? = some ow ∧ 0 ≤ ow ∧
            ow < (poll.Options.length : Int) ∧
            (exec p v os (initConc s os.length) sched).pcs[w]? =
              some (Pc.done (.ok (countVote poll ow))) ∧
            (∀ (j : Nat) (o : Int), j ≠ w → os[j]? = some o →
              (exec p v os (initConc s os.length) sched).pcs[j]? =
                some (Pc.done (.err (rejectMsg poll o)))) ∧
            (exec p v os (initConc s os.length) sched).store = (Vote s p v ow).1 ∧
            GetPoll (exec p v os (initConc s os.length) sched).store p =
              some (countVote poll ow) ∧
            (countVote poll ow).TotalVotes = poll.TotalVotes + 1 ∧
            HasVoted (exec p v os (initConc s os.length) sched).store p v = (true, ow)) ∧
        (os ≠ [] → poll.Closed = false → mapGet voters v = none →
          (∀ o ∈ os, 0 ≤ o ∧ o < (poll.Options.length : Int)) →
          ∃ (i : Nat) (o : Int) (poll' : Poll), os[i]? = some o ∧
            (exec p v os (initConc s os.length) sched).pcs[i]? =
              some (Pc.done (.ok poll')) ∧
            (∀ j : Nat, j < os.length → j ≠ i →
              (exec p v os (initConc s os.length) sched).pcs[j]? =
                some (Pc.done (.err "You have already voted on this poll"))) ∧
            (exec p v os (initConc s os.length) sched).store = (Vote s p v o).1 ∧
            GetPoll (exec p v os (initConc s os.length) sched).store p = some poll' ∧
            poll'.TotalVotes = poll.TotalVotes + 1 ∧
            HasVoted (exec p v os (initConc s os.length) sched).store p v = (true, o))) ∧
      (poll.Closed = true → ∀ o, rejectMsg poll o = "This poll is closed") ∧
      (poll.Closed = false → ∀ o, (o < 0 ∨ o ≥ (poll.Options.length : Int)) →
        rejectMsg poll o = "Invalid option") ∧
      (poll.Closed = false → ∀ o, 0 ≤ o → o < (poll.Options.length : Int) →
        rejectMsg poll o = "You have already voted on this poll")) ∧
    (∀ (ops : List Op) (poll : Poll), GetPoll (run NewStore ops) p = some poll →
      ∃ voters, mapGet (run NewStore ops).votes p = some voters) ∧
    allDone (exec p v os (initConc s os.length) (seqSched 0 os.length)) = true := by
  refine ⟨fun hnone sched hdone => concurrent_not_found s p v os sched hnone hdone,
    fun poll voters hp hv => ?_, fun ops poll hp => ?_, allDone_seqSched s p v os⟩
  · simp only [GetPoll] at hp
    have hrej_in : poll.Closed = false → ∀ o, 0 ≤ o → o < (poll.Options.length : Int) →
        rejectMsg poll o = "You have already voted on this poll" := by
      intro hc o h0 hlt
      have : ¬ (o < 0 ∨ o ≥ (poll.Options.length : Int)) := by omega
      simp [rejectMsg, hc, this]
    have hsome : ∀ sched, allDone (exec p v os (initConc s os.length) sched) = true →
        (∃ o ∈ os, poll.Closed = false ∧ mapGet voters v = none ∧ 0 ≤ o ∧
            o < (poll.Options.length : Int)) →
        ∃ (w : Nat) (ow : Int), os[w]? = some ow ∧ 0 ≤ ow ∧
          ow < (poll.Options.length : Int) ∧
          (exec p v os (initConc s os.length) sched).pcs[w]? =
            some (Pc.done (.ok (countVote poll ow))) ∧
          (∀ (j : Nat) (o : Int), j ≠ w → os[j]? = some o →
            (exec p v os (initConc s os.length) sched).pcs[j]? =
              some (Pc.done (.err (rejectMsg poll o)))) ∧
          (exec p v os (initConc s os.length) sched).store = (Vote s p v ow).1 ∧
          GetPoll (exec p v os (initConc s os.length) sched).store p =
            some (countVote poll ow) ∧
          (countVote poll ow).TotalVotes = poll.TotalVotes + 1 ∧
          HasVoted (exec p v os (initConc s os.length) sched).store p v = (true, ow) := by
      intro sched hdone ⟨o, hmem, hopen, hnv, h0, hlt⟩
      rcases concurrent_outcome s p v os poll voters sched hp hv hdone with
        ⟨_, hall⟩ | ⟨w, ow, how, hwchk, hst, hw, hall⟩
      · obtain ⟨j, hj⟩ := List.mem_iff_getElem?.mp hmem
        have hne := (hall j o hj).2
        rcases voteChecks_cases s p v poll voters o hp hv with ⟨hchk, _⟩ | ⟨_, hnot⟩
        · exact absurd hchk hne
        · exact absurd ⟨hopen, h0, hlt, hnv⟩ hnot
      · rcases voteChecks_cases s p v poll voters ow hp hv with
          ⟨_, _, hw0, hwlt, _⟩ | ⟨hchk, _⟩
        · have hvote := (Vote_of_checks_pass s p v poll voters ow hp hv hwchk).2
          refine ⟨w, ow, how, hw0, hwlt, hw, hall, hst, ?_, rfl, ?_⟩
          · rw [hst, hvote]
            exact mapGet_mapSet_self _ _ _
          · rw [hst, hvote]
            simp only [HasVoted, mapGet_mapSet_self]
        · rw [hwchk] at hchk
          exact Option.noConfusion hchk
    refine ⟨fun sched hdone => ⟨?_, hsome sched hdone, ?_⟩, ?_, ?_, hrej_in⟩
    · intro hnone
      rcases concurrent_outcome s p v os poll voters sched hp hv hdone with
        ⟨hst, hall⟩ | ⟨w, ow, how, hwchk, _, _, _⟩
      · exact ⟨hst, fun j o ho => (hall j o ho).1⟩
      · rcases voteChecks_cases s p v poll voters ow hp hv with
          ⟨_, hopen, hw0, hwlt, hnv⟩ | ⟨hchk, _⟩
        · exact absurd ⟨hopen, hnv, hw0, hwlt⟩ (hnone ow (List.getElem?_mem how))
        · rw [hwchk] at hchk
          exact Option.noConfusion hchk
    · intro hne hopen hnv hvalid
      obtain ⟨o₀, ho₀⟩ := List.exists_mem_of_ne_nil os hne
      obtain ⟨w, ow, how, _, _, hw, hall, hst, hget, htot, hhas⟩ := hsome sched hdone
        ⟨o₀, ho₀, hopen, hnv, (hvalid o₀ ho₀).1, (hvalid o₀ ho₀).2⟩
      refine ⟨w, ow, countVote poll ow, how, hw, ?_, hst, hget, htot, hhas⟩
      intro j hj hjw
      have hoj := List.getElem?_eq_getElem hj
      rw [hall j _ hjw hoj, hrej_in hopen _ (hvalid _ (List.getElem?_mem hoj)).1
        (hvalid _ (List.getElem?_mem hoj)).2]
    · intro hc o
      simp [rejectMsg, hc]
    · intro hc o hr
      simp [rejectMsg, hc, hr]
  · have hkeys : mapKeys (run NewStore ops).polls = mapKeys (run NewStore ops).votes :=
      keys_eq_run NewStore ops rfl
    have hsome := isSome_get_eq_of_keys_eq _ hkeys p
    simp only [GetPoll] at hp
    rw [hp] at hsome
    cases hv : mapGet (run NewStore ops).votes p with
    | none => rw [hv] at hsome; simp at hsome
    | some voters => exact ⟨voters, rfl⟩

theorem concurrent_votes_same_voter_witness :
    GetPoll sampleStore "p1" = some samplePoll ∧
    mapGet sampleStore.votes "p1" = some [] ∧
    allDone (exec "p1" "v1" [0, 1, 1] (initConc sampleStore 3) sampleSched) = true ∧
    (exec "p1" "v1" [0, 1, 1] (initConc sampleStore 3) sampleSched).pcs =
      [Pc.done (.err "You have already voted on this poll"),
       Pc.done (.ok (countVote samplePoll 1)),
       Pc.done (.err "You have already voted on this poll")] ∧
    (∃ (i : Nat) (o : Int) (poll' : Poll), ([0, 1, 1] : List Int)[i]? = some o ∧
      (exec "p1" "v1" [0, 1, 1] (initConc sampleStore ([0, 1, 1] : List Int).length)
        sampleSched).pcs[i]? = some (Pc.done (.ok poll')) ∧
      (∀ j : Nat, j < ([0, 1, 1] : List Int).length → j ≠ i →
        (exec "p1" "v1" [0, 1, 1] (initConc sampleStore ([0, 1, 1] : List Int).length)
          sampleSched).pcs[j]? =
            some (Pc.done (.err "You have already voted on this poll"))) ∧
      (exec "p1" "v1" [0, 1, 1] (initConc sampleStore ([0, 1, 1] : List Int).length)
        sampleSched).store = (Vote sampleStore "p1" "v1" o).1 ∧
      GetPoll (exec "p1" "v1" [0, 1, 1]
        (initConc sampleStore ([0, 1, 1] : List Int).length) sampleSched).store "p1" =
          some poll' ∧
      poll'.TotalVotes = samplePoll.TotalVotes + 1 ∧
      HasVoted (exec "p1" "v1" [0, 1, 1]
        (initConc sampleStore ([0, 1, 1] : List Int).length) sampleSched).store "p1" "v1" =
          (true, o)) ∧
    GetPoll closedStore "p1" = some { countVote samplePoll 0 with Closed := true } ∧
    mapGet closedStore.votes "p1" = some [("v1", 0)] ∧
    ((exec "p1" "v2" [0, 7] (initConc closedStore ([0, 7] : List Int).length)
        (seqSched 0 2)).store = closedStore ∧
      ∀ (j : Nat) (o : Int), ([0, 7] : List Int)[j]? = some o →
        (exec "p1" "v2" [0, 7] (initConc closedStore ([0, 7] : List Int).length)
          (seqSched 0 2)).pcs[j]? =
            some (Pc.done (.err
              (rejectMsg { countVote samplePoll 0 with Closed := true } o)))) ∧
    (∃ (w : Nat) (ow : Int), ([5, 0] : List Int)[w]? = some ow ∧ 0 ≤ ow ∧
      ow < (samplePoll.Options.length : Int) ∧
      (exec "p1" "v1" [5, 0] (initConc sampleStore ([5, 0] : List Int).length)
        (seqSched 0 2)).pcs[w]? = some (Pc.done (.ok (countVote samplePoll ow))) ∧
      (∀ (j : Nat) (o : Int), j ≠ w → ([5, 0] : List Int)[j]? = some o →
        (exec "p1" "v1" [5, 0] (initConc sampleStore ([5, 0] : List Int).length)
          (seqSched 0 2)).pcs[j]? = some (Pc.done (.err (rejectMsg samplePoll o)))) ∧
      (exec "p1" "v1" [5, 0] (initConc sampleStore ([5, 0] : List Int).length)
        (seqSched 0 2)).store = (Vote sampleStore "p1" "v1" ow).1 ∧
      GetPoll (exec "p1" "v1" [5, 0] (initConc sampleStore ([5, 0] : List Int).length)
        (seqSched 0 2)).store "p1" = some (countVote samplePoll ow) ∧
      (countVote samplePoll ow).TotalVotes = samplePoll.TotalVotes + 1 ∧
      HasVoted (exec "p1" "v1" [5, 0] (initConc sampleStore ([5, 0] : List Int).length)
        (seqSched 0 2)).store "p1" "v1" = (true, ow)) ∧
    GetPoll sampleStore "nope" = none ∧
    ((exec "nope" "v1" [0, 1] (initConc sampleStore ([0, 1] : List Int).length)
        (seqSched 0 2)).store = sampleStore ∧
      ∀ (j : Nat) (o : Int), ([0, 1] : List Int)[j]? = some o →
        (exec "nope" "v1" [0, 1] (initConc sampleStore ([0, 1] : List Int).length)
          (seqSched 0 2)).pcs[j]? = some (Pc.done (.err "Poll not found"))) ∧
    (exec "nope" "v1" [0, 1] (initConc sampleStore 2) (seqSched 0 2)).pcs =
      [Pc.done (.err "Poll not found"), Pc.done (.err "Poll not found")] :=
  ⟨by decide, by decide, by decide, by decide,
   (((concurrent_votes_same_voter sampleStore "p1" "v1" [0, 1, 1]).2.1 samplePoll []
      (by decide) (by decide)).1 sampleSched (by decide)).2.2
      (by decide) (by decide) (by decide) (by decide),
   by decide, by decide,
   (((concurrent_votes_same_voter closedStore "p1" "v2" [0, 7]).2.1
      { countVote samplePoll 0 with Closed := true } [("v1", 0)]
      (by decide) (by decide)).1 (seqSched 0 2) (by decide)).1 (by decide),
   (((concurrent_votes_same_voter sampleStore "p1" "v1" [5, 0]).2.1 samplePoll []
      (by decide) (by decide)).1 (seqSched 0 2) (by decide)).2.1 (by decide),
   by decide,
   (concurrent_votes_same_voter sampleStore "nope" "v1" [0, 1]).1 (by decide)
     (seqSched 0 2) (by decide),
   by decide⟩

/-! ## HasVoted -/

/-- C17: `HasVoted(pollID, voterKey)` returns `(true, o)` exactly when the
poll's vote record maps the voter key to `o`, and `(false, -1)` otherwise, in
particular when the poll id has no vote record, as for every poll id unknown to
a store reached from `NewStore`. After a successful `Vote(p, v, o)` it returns
`(true, o)`. A call of `HasVoted` leaves the store unchanged. -/
theorem HasVoted_spec (s : Store) (pollID voterKey : String) :
    (∀ o, HasVoted s pollID voterKey = (true, o) ↔
      ∃ voters, mapGet s.votes pollID = some voters ∧ mapGet voters voterKey = some o) ∧
    (HasVoted s pollID voterKey = (false, -1) ↔
      ¬ ∃ voters o, mapGet s.votes pollID = some voters ∧
        mapGet voters voterKey = some o) ∧
    (mapGet s.votes pollID = none → HasVoted s pollID voterKey = (false, -1)) ∧
    (∀ ops : List Op, GetPoll (run NewStore ops) pollID = none →
      HasVoted (run NewStore ops) pollID voterKey = (false, -1)) ∧
    (∀ (o : Int) (s' : Store) (poll' : Poll),
      Vote s pollID voterKey o = (s', .ok poll') →
      HasVoted s' pollID voterKey = (true, o)) ∧
    step s (Op.hasVoted pollID voterKey) = s ∧
    run s [Op.hasVoted pollID voterKey] = s := by
  have hnone : ∀ t : Store, mapGet t.votes pollID = none →
      HasVoted t pollID voterKey = (false, -1) := by
    intro t h
    simp only [HasVoted, h]
  refine ⟨?_, ?_, hnone s, ?_, ?_, rfl, rfl⟩
  · intro o
    unfold HasVoted
    cases hv : mapGet s.votes pollID with
    | none => simp
    | some voters =>
      cases hvk : mapGet voters voterKey with
      | none => simp [hvk]
      | some o' => simp [hvk]
  · unfold HasVoted
    cases hv : mapGet s.votes pollID with
    | none => simp
    | some voters =>
      cases hvk : mapGet voters voterKey with
      | none => simp [hvk]
      | some o' => simp [hvk]
  · intro ops hp
    apply hnone
    have hkeys : mapKeys (run NewStore ops).polls = mapKeys (run NewStore ops).votes :=
      keys_eq_run NewStore ops rfl
    have := isSome_get_eq_of_keys_eq _ hkeys pollID
    simp only [GetPoll] at hp
    rw [hp] at this
    cases hv : mapGet (run NewStore ops).votes pollID with
    | none => rfl
    | some voters => rw [hv] at this; simp at this
  · intro o s' poll' hvote
    obtain ⟨poll, voters, _, _, _, _, _, _, _, hs'⟩ :=
      Vote_ok_inv s s' pollID voterKey o poll' hvote
    rw [hs']
    simp only [HasVoted, mapGet_mapSet_self]

theorem HasVoted_spec_witness :
    (∃ voters, mapGet votedStore.votes "p1" = some voters ∧
      mapGet voters "v1" = some 0) ∧
    HasVoted votedStore "p1" "v1" = (true, 0) ∧
    mapGet votedStore.votes "nope" = none ∧
    HasVoted votedStore "nope" "v1" = (false, -1) ∧
    GetPoll (run NewStore sampleOps) "nope" = none ∧
    HasVoted (run NewStore sampleOps) "nope" "v1" = (false, -1) ∧
    Vote sampleStore "p1" "v1" 0 = (votedStore, .ok (countVote samplePoll 0)) ∧
    HasVoted votedStore "p1" "v2" = (false, -1) :=
  ⟨⟨[("v1", 0)], by decide, by decide⟩,
   ((HasVoted_spec votedStore "p1" "v1").1 0).mpr ⟨[("v1", 0)], by decide, by decide⟩,
   by decide,
   (HasVoted_spec votedStore "nope" "v1").2.2.1 (by decide),
   by decide,
   (HasVoted_spec votedStore "nope" "v1").2.2.2.1 sampleOps (by decide),
   by decide,
   (HasVoted_spec votedStore "p1" "v2").2.1.mpr (by
     intro h
     obtain ⟨voters, o, hv, hvo⟩ := h
     have hv' : mapGet votedStore.votes "p1" = some [("v1", 0)] := by decide
     rw [hv'] at hv
     rw [← Option.some.inj hv] at hvo
     revert hvo
     simp [mapGet])⟩

/-! ## The results view and the end-to-end scenario -/

theorem mathRound_intCast (n : Int) : mathRound (n : ℚ) = (n : ℚ) := by
  unfold mathRound
  split
  · have : ⌊(n : ℚ) + 1 / 2⌋ = n := by
      rw [Int.floor_eq_iff]
      constructor
      · linarith
      · linarith
    rw [this]
  · have : ⌊-(n : ℚ) + 1 / 2⌋ = -n := by
      rw [Int.floor_eq_iff]
      constructor
      · push_cast; linarith
      · push_cast; linarith
    rw [this]
    push_cast
    ring

set_option maxRecDepth 100000 in
theorem percentageF64_one_one :
    percentageF64 1 1 = { mant := 7036874417766400, exp := -46 } := by
  decide

set_option maxRecDepth 100000 in
theorem percentageF64_zero_one : percentageF64 0 1 = { mant := 0, exp := 0 } := by
  decide

theorem percentage_one_one : percentage 1 1 = 100 := by
  have h : Int.toNat 46 = 46 := rfl
  simp only [percentage, percentageF64_one_one, F64.toRat]
  norm_num [h]

theorem percentage_zero_one : percentage 0 1 = 0 := by
  simp only [percentage, percentageF64_zero_one, F64.toRat]
  norm_num

theorem mkResultOptions_fields (total : Int) (opts : List PollOption) :
    (mkResultOptions total opts).length = opts.length ∧
    (mkResultOptions total opts).map ResultOption.ID = opts.map PollOption.ID ∧
    (mkResultOptions total opts).map ResultOption.Text = opts.map PollOption.Text ∧
    (mkResultOptions total opts).map ResultOption.Votes = opts.map PollOption.Votes := by
  induction opts with
  | nil => simp [mkResultOptions]
  | cons o rest ih =>
    obtain ⟨h1, h2, h3, h4⟩ := ih
    simp [mkResultOptions, h1, h2, h3, h4]

theorem percentage_of_total_nonpos (votes total : Int) (h : total ≤ 0) :
    percentage votes total = 0 := by
  have : ¬ total > 0 := by omega
  simp [percentage, this]

theorem log2Fuel_spec (fuel n : Nat) (hn : 0 < n) (hf : n ≤ fuel) :
    2 ^ log2Fuel fuel n ≤ n ∧ n < 2 ^ (log2Fuel fuel n + 1) := by
  induction fuel generalizing n with
  | zero => omega
  | succ fuel ih =>
    by_cases h2 : n < 2
    · simp only [log2Fuel, if_pos h2]
      constructor <;> simp <;> omega
    · simp only [log2Fuel, if_neg h2]
      obtain ⟨h1, h3⟩ := ih (n / 2) (by omega) (by omega)
      have e1 : 2 ^ (log2Fuel fuel (n / 2) + 1) = 2 * 2 ^ log2Fuel fuel (n / 2) := by
        rw [pow_succ]; ring
      have e2 : 2 ^ (log2Fuel fuel (n / 2) + 1 + 1) = 2 * 2 ^ (log2Fuel fuel (n / 2) + 1) := by
        rw [pow_succ]; ring
      rw [e2]
      rw [e1] at h3 ⊢
      constructor <;> omega

theorem log2_spec (n : Nat) (hn : 0 < n) : 2 ^ log2 n ≤ n ∧ n < 2 ^ (log2 n + 1) :=
  log2Fuel_spec n n hn (Nat.le_refl n)

theorem roundHalfEven_spec (num den : Nat) (hden : 0 < den) :
    |((roundHalfEven num den : Nat) : ℚ) - (num : ℚ) / (den : ℚ)| ≤ 1 / 2 := by
  have hdq : (0 : ℚ) < (den : ℚ) := by exact_mod_cast hden
  have hdm : (num : ℚ) = (den : ℚ) * ((num / den : Nat) : ℚ) + ((num % den : Nat) : ℚ) := by
    exact_mod_cast (Nat.div_add_mod num den).symm
  have hq : (num : ℚ) / (den : ℚ) =
      ((num / den : Nat) : ℚ) + ((num % den : Nat) : ℚ) / (den : ℚ) := by
    rw [eq_comm, ← sub_eq_zero]
    field_simp
    linarith
  have hr0 : (0 : ℚ) ≤ ((num % den : Nat) : ℚ) / (den : ℚ) := by positivity
  have hr1 : ((num % den : Nat) : ℚ) / (den : ℚ) < 1 := by
    rw [div_lt_one hdq]
    exact_mod_cast Nat.mod_lt num hden
  rw [hq, abs_le]
  unfold roundHalfEven
  split_ifs with h1 h2 h3
  · have : ((num % den : Nat) : ℚ) / (den : ℚ) < 1 / 2 := by
      rw [div_lt_iff₀ hdq]
      have : ((2 * (num % den) : Nat) : ℚ) < (den : ℚ) := by exact_mod_cast h1
      push_cast at this
      linarith
    constructor <;> linarith
  · have : 1 / 2 < ((num % den : Nat) : ℚ) / (den : ℚ) := by
      rw [lt_div_iff₀ hdq]
      have : ((den : Nat) : ℚ) < ((2 * (num % den) : Nat) : ℚ) := by exact_mod_cast h2
      push_cast at this
      linarith
    push_cast
    constructor <;> linarith
  · have : ((num % den : Nat) : ℚ) / (den : ℚ) = 1 / 2 := by
      rw [div_eq_iff (ne_of_gt hdq)]
      have : ((2 * (num % den) : Nat) : ℚ) = (den : ℚ) := by
        exact_mod_cast (by omega : 2 * (num % den) = den)
      push_cast at this
      linarith
    constructor <;> linarith
  · have : ((num % den : Nat) : ℚ) / (den : ℚ) = 1 / 2 := by
      rw [div_eq_iff (ne_of_gt hdq)]
      have : ((2 * (num % den) : Nat) : ℚ) = (den : ℚ) := by
        exact_mod_cast (by omega : 2 * (num % den) = den)
      push_cast at this
      linarith
    push_cast
    constructor <;> linarith

theorem roundHalfEven_tie (num den : Nat) (hden : 0 < den)
    (h : |((roundHalfEven num den : Nat) : ℚ) - (num : ℚ) / (den : ℚ)| = 1 / 2) :
    roundHalfEven num den % 2 = 0 := by
  have hdq : (0 : ℚ) < (den : ℚ) := by exact_mod_cast hden
  have hdm : (num : ℚ) = (den : ℚ) * ((num / den : Nat) : ℚ) + ((num % den : Nat) : ℚ) := by
    exact_mod_cast (Nat.div_add_mod num den).symm
  have hq : (num : ℚ) / (den : ℚ) =
      ((num / den : Nat) : ℚ) + ((num % den : Nat) : ℚ) / (den : ℚ) := by
    rw [eq_comm, ← sub_eq_zero]
    field_simp
    linarith
  have hr0 : (0 : ℚ) ≤ ((num % den : Nat) : ℚ) / (den : ℚ) := by positivity
  have hr1 : ((num % den : Nat) : ℚ) / (den : ℚ) < 1 := by
    rw [div_lt_one hdq]
    exact_mod_cast Nat.mod_lt num hden
  rw [hq] at h
  unfold roundHalfEven at h ⊢
  split_ifs at h ⊢ with h1 h2 h3
  · exfalso
    have : ((num % den : Nat) : ℚ) / (den : ℚ) < 1 / 2 := by
      rw [div_lt_iff₀ hdq]
      have : ((2 * (num % den) : Nat) : ℚ) < (den : ℚ) := by exact_mod_cast h1
      push_cast at this
      linarith
    have hle : ((num / den : Nat) : ℚ) -
        (((num / den : Nat) : ℚ) + ((num % den : Nat) : ℚ) / (den : ℚ)) ≤ 0 := by linarith
    rw [abs_of_nonpos hle] at h
    linarith
  · exfalso
    have : 1 / 2 < ((num % den : Nat) : ℚ) / (den : ℚ) := by
      rw [lt_div_iff₀ hdq]
      have : ((den : Nat) : ℚ) < ((2 * (num % den) : Nat) : ℚ) := by exact_mod_cast h2
      push_cast at this
      linarith
    push_cast at h
    have hge : (0 : ℚ) ≤ ((num / den : Nat) : ℚ) + 1 -
        (((num / den : Nat) : ℚ) + ((num % den : Nat) : ℚ) / (den : ℚ)) := by linarith
    rw [abs_of_nonneg hge] at h
    linarith
  · exact h3
  · omega

theorem F64.toRat_eq_zpow (x : F64) : x.toRat = (x.mant : ℚ) * (2 : ℚ) ^ x.exp := by
  unfold F64.toRat
  split_ifs with h
  · obtain ⟨k, hk⟩ := Int.eq_ofNat_of_zero_le h
    rw [hk]
    simp
  · obtain ⟨k, hk⟩ := Int.eq_ofNat_of_zero_le (by omega : 0 ≤ -x.exp)
    have hx : x.exp = -(k : Int) := by omega
    rw [hx]
    simp [div_eq_mul_inv]

theorem scaled_eq (a d : Nat) (e : Int) :
    ((a * 2 ^ (-e).toNat : Nat) : ℚ) / ((d * 2 ^ e.toNat : Nat) : ℚ) =
      (a : ℚ) / (d : ℚ) * (2 : ℚ) ^ (-e) := by
  rcases le_or_lt 0 e with h | h
  · obtain ⟨k, hk⟩ := Int.eq_ofNat_of_zero_le h
    subst hk
    simp
    field_simp
  · obtain ⟨k, hk⟩ := Int.eq_ofNat_of_zero_le (by omega : 0 ≤ -e)
    have hx : e = -(k : Int) := by omega
    subst hx
    simp
    field_simp

theorem roundToF64_shape (n : Int) (d : Nat) (hn : n ≠ 0) (hd : 0 < d) :
    ∃ (e : Int) (m : Nat),
      m = roundHalfEven (n.natAbs * 2 ^ (-e).toNat) (d * 2 ^ e.toNat) ∧
      (2 : ℚ) ^ (52 : Int) ≤ (n.natAbs : ℚ) / (d : ℚ) * (2 : ℚ) ^ (-e) ∧
      (n.natAbs : ℚ) / (d : ℚ) * (2 : ℚ) ^ (-e) < (2 : ℚ) ^ (53 : Int) ∧
      roundToF64 n d =
        { mant := if n < 0 then -((if m = 2 ^ 53 then 2 ^ 52 else m : Nat) : Int)
                  else ((if m = 2 ^ 53 then 2 ^ 52 else m : Nat) : Int)
          exp := if m = 2 ^ 53 then e + 1 else e } := by
  have ha : 0 < n.natAbs := Int.natAbs_pos.mpr hn
  have hdq : (0 : ℚ) < (d : ℚ) := by exact_mod_cast hd
  obtain ⟨ha1, ha2⟩ := log2_spec n.natAbs ha
  obtain ⟨hd1, hd2⟩ := log2_spec d hd
  have hA1 : (2 : ℚ) ^ (log2 n.natAbs : Int) ≤ (n.natAbs : ℚ) := by
    rw [zpow_natCast]; exact_mod_cast ha1
  have hA2 : (n.natAbs : ℚ) < (2 : ℚ) ^ ((log2 n.natAbs : Int) + 1) := by
    have : ((log2 n.natAbs : Int) + 1) = ((log2 n.natAbs + 1 : Nat) : Int) := by push_cast; rfl
    rw [this, zpow_natCast]; exact_mod_cast ha2
  have hD1 : (2 : ℚ) ^ (log2 d : Int) ≤ (d : ℚ) := by
    rw [zpow_natCast]; exact_mod_cast hd1
  have hD2 : (d : ℚ) < (2 : ℚ) ^ ((log2 d : Int) + 1) := by
    have : ((log2 d : Int) + 1) = ((log2 d + 1 : Nat) : Int) := by push_cast; rfl
    rw [this, zpow_natCast]; exact_mod_cast hd2
  have h2 : (2 : ℚ) ≠ 0 := two_ne_zero
  have hpos : ∀ k : Int, (0 : ℚ) < (2 : ℚ) ^ k := fun k => zpow_pos (by norm_num) k
  -- the first guess of the exponent
  have hhi : (n.natAbs : ℚ) / (d : ℚ) *
      (2 : ℚ) ^ (-((log2 n.natAbs : Int) - (log2 d : Int) - 52)) < (2 : ℚ) ^ (53 : Int) := by
    rw [div_mul_eq_mul_div, div_lt_iff₀ hdq]
    calc (n.natAbs : ℚ) * (2 : ℚ) ^ (-((log2 n.natAbs : Int) - (log2 d : Int) - 52))
        < (2 : ℚ) ^ ((log2 n.natAbs : Int) + 1) *
            (2 : ℚ) ^ (-((log2 n.natAbs : Int) - (log2 d : Int) - 52)) :=
          mul_lt_mul_of_pos_right hA2 (hpos _)
      _ = (2 : ℚ) ^ (53 : Int) * (2 : ℚ) ^ (log2 d : Int) := by
          rw [← zpow_add₀ h2, ← zpow_add₀ h2]; congr 1; ring
      _ ≤ (2 : ℚ) ^ (53 : Int) * (d : ℚ) := mul_le_mul_of_nonneg_left hD1 (le_of_lt (hpos _))
  have hlo : (2 : ℚ) ^ (51 : Int) < (n.natAbs : ℚ) / (d : ℚ) *
      (2 : ℚ) ^ (-((log2 n.natAbs : Int) - (log2 d : Int) - 52)) := by
    rw [div_mul_eq_mul_div, lt_div_iff₀ hdq]
    calc (2 : ℚ) ^ (51 : Int) * (d : ℚ)
        < (2 : ℚ) ^ (51 : Int) * (2 : ℚ) ^ ((log2 d : Int) + 1) :=
          mul_lt_mul_of_pos_left hD2 (hpos _)
      _ = (2 : ℚ) ^ (log2 n.natAbs : Int) *
            (2 : ℚ) ^ (-((log2 n.natAbs : Int) - (log2 d : Int) - 52)) := by
          rw [← zpow_add₀ h2, ← zpow_add₀ h2]; congr 1; ring
      _ ≤ (n.natAbs : ℚ) * (2 : ℚ) ^ (-((log2 n.natAbs : Int) - (log2 d : Int) - 52)) :=
          mul_le_mul_of_nonneg_right hA1 (le_of_lt (hpos _))
  have hcond : (n.natAbs * 2 ^ (-((log2 n.natAbs : Int) - (log2 d : Int) - 52)).toNat <
        2 ^ 52 * (d * 2 ^ ((log2 n.natAbs : Int) - (log2 d : Int) - 52).toNat)) ↔
      (n.natAbs : ℚ) / (d : ℚ) *
        (2 : ℚ) ^ (-((log2 n.natAbs : Int) - (log2 d : Int) - 52)) < (2 : ℚ) ^ (52 : Int) := by
    rw [← scaled_eq]
    have hDpos : (0 : ℚ) <
        ((d * 2 ^ ((log2 n.natAbs : Int) - (log2 d : Int) - 52).toNat : Nat) : ℚ) := by
      have : 0 < d * 2 ^ ((log2 n.natAbs : Int) - (log2 d : Int) - 52).toNat := by positivity
      exact_mod_cast this
    rw [div_lt_iff₀ hDpos]
    have e52 : (2 : ℚ) ^ (52 : Int) = ((2 ^ 52 : Nat) : ℚ) := by norm_num
    rw [e52]
    exact_mod_cast Iff.rfl
  have hn0 : ¬ (n = 0 ∨ d = 0) := by
    intro h
    rcases h with h | h
    · exact hn h
    · omega
  by_cases hc : n.natAbs * 2 ^ (-((log2 n.natAbs : Int) - (log2 d : Int) - 52)).toNat <
        2 ^ 52 * (d * 2 ^ ((log2 n.natAbs : Int) - (log2 d : Int) - 52).toNat)
  · refine ⟨(log2 n.natAbs : Int) - (log2 d : Int) - 52 - 1, _, rfl, ?_, ?_, ?_⟩
    · have := hlo
      have e : (-((log2 n.natAbs : Int) - (log2 d : Int) - 52 - 1)) =
          (-((log2 n.natAbs : Int) - (log2 d : Int) - 52)) + 1 := by ring
      rw [e, zpow_add₀ h2, zpow_one, ← mul_assoc]
      have e51 : (2 : ℚ) ^ (52 : Int) = (2 : ℚ) ^ (51 : Int) * 2 := by norm_num
      rw [e51]
      linarith
    · have := hcond.mp hc
      have e : (-((log2 n.natAbs : Int) - (log2 d : Int) - 52 - 1)) =
          (-((log2 n.natAbs : Int) - (log2 d : Int) - 52)) + 1 := by ring
      rw [e, zpow_add₀ h2, zpow_one, ← mul_assoc]
      have e53 : (2 : ℚ) ^ (53 : Int) = (2 : ℚ) ^ (52 : Int) * 2 := by norm_num
      rw [e53]
      linarith
    · simp only [roundToF64, if_neg hn0, if_pos hc]
  · refine ⟨(log2 n.natAbs : Int) - (log2 d : Int) - 52, _, rfl, ?_, hhi, ?_⟩
    · exact not_lt.mp (fun h => hc (hcond.mpr h))
    · simp only [roundToF64, if_neg hn0, if_neg hc]

/-- `roundToF64 n d` is the binary64 value nearest to `n / d`, ties to even:
its mantissa has exactly 53 bits, its sign is the sign of `n`, it lies within
half a unit in the last place of `n / d`, and when it lies exactly half a unit
away its mantissa is even. -/
theorem roundToF64_spec (n : Int) (d : Nat) (hn : n ≠ 0) (hd : 0 < d) :
    2 ^ 52 ≤ (roundToF64 n d).mant.natAbs ∧ (roundToF64 n d).mant.natAbs < 2 ^ 53 ∧
    ((roundToF64 n d).mant < 0 ↔ n < 0) ∧
    |(roundToF64 n d).toRat - (n : ℚ) / (d : ℚ)| * 2 ≤ (2 : ℚ) ^ (roundToF64 n d).exp ∧
    (|(roundToF64 n d).toRat - (n : ℚ) / (d : ℚ)| * 2 = (2 : ℚ) ^ (roundToF64 n d).exp →
      (roundToF64 n d).mant.natAbs % 2 = 0) := by
  obtain ⟨e, m, hm, hlo, hhi, heq⟩ := roundToF64_shape n d hn hd
  have hD : 0 < d * 2 ^ e.toNat := by positivity
  have habs := roundHalfEven_spec (n.natAbs * 2 ^ (-e).toNat) (d * 2 ^ e.toNat) hD
  have htie := roundHalfEven_tie (n.natAbs * 2 ^ (-e).toNat) (d * 2 ^ e.toNat) hD
  rw [scaled_eq, ← hm] at htie
  rw [scaled_eq, ← hm, abs_le] at habs
  have h2 : (2 : ℚ) ≠ 0 := two_ne_zero
  have hpe : (0 : ℚ) < (2 : ℚ) ^ e := zpow_pos (by norm_num) e
  have e52 : (2 : ℚ) ^ (52 : Int) = ((2 ^ 52 : Nat) : ℚ) := by norm_num
  have e53 : (2 : ℚ) ^ (53 : Int) = ((2 ^ 53 : Nat) : ℚ) := by norm_num
  have hm52 : 2 ^ 52 ≤ m := by
    by_contra hlt
    have h1 : m + 1 ≤ 2 ^ 52 := by omega
    have h1q : ((m + 1 : Nat) : ℚ) ≤ ((2 ^ 52 : Nat) : ℚ) := by exact_mod_cast h1
    push_cast at h1q e52
    linarith [habs.1]
  have hm53 : m ≤ 2 ^ 53 := by
    by_contra hlt
    have h1 : 2 ^ 53 + 1 ≤ m := by omega
    have h1q : ((2 ^ 53 + 1 : Nat) : ℚ) ≤ (m : ℚ) := by exact_mod_cast h1
    push_cast at h1q e53
    linarith [habs.2]
  have hxe : (n.natAbs : ℚ) / (d : ℚ) =
      (n.natAbs : ℚ) / (d : ℚ) * (2 : ℚ) ^ (-e) * (2 : ℚ) ^ e := by
    rw [mul_assoc, ← zpow_add₀ h2]
    simp
  have hcore : |(m : ℚ) * (2 : ℚ) ^ e - (n.natAbs : ℚ) / (d : ℚ)| * 2 ≤ (2 : ℚ) ^ e := by
    have : (m : ℚ) * (2 : ℚ) ^ e - (n.natAbs : ℚ) / (d : ℚ) =
        ((m : ℚ) - (n.natAbs : ℚ) / (d : ℚ) * (2 : ℚ) ^ (-e)) * (2 : ℚ) ^ e := by
      rw [sub_mul, ← hxe]
    rw [this, abs_mul, abs_of_pos hpe]
    have h3 : |(m : ℚ) - (n.natAbs : ℚ) / (d : ℚ) * (2 : ℚ) ^ (-e)| ≤ 1 / 2 :=
      abs_le.mpr habs
    nlinarith
  have heven : |(m : ℚ) * (2 : ℚ) ^ e - (n.natAbs : ℚ) / (d : ℚ)| * 2 =
      (2 : ℚ) ^ (if m = 2 ^ 53 then e + 1 else e) →
      (if m = 2 ^ 53 then 2 ^ 52 else m : Nat) % 2 = 0 := by
    intro h
    split_ifs at h ⊢ with h53
    · norm_num
    · apply htie
      have : (m : ℚ) * (2 : ℚ) ^ e - (n.natAbs : ℚ) / (d : ℚ) =
          ((m : ℚ) - (n.natAbs : ℚ) / (d : ℚ) * (2 : ℚ) ^ (-e)) * (2 : ℚ) ^ e := by
        rw [sub_mul, ← hxe]
      rw [this, abs_mul, abs_of_pos hpe] at h
      have hne : (2 : ℚ) ^ e ≠ 0 := ne_of_gt hpe
      have h4 : |(m : ℚ) - (n.natAbs : ℚ) / (d : ℚ) * (2 : ℚ) ^ (-e)| * 2 = 1 := by
        have : (|(m : ℚ) - (n.natAbs : ℚ) / (d : ℚ) * (2 : ℚ) ^ (-e)| * 2) * (2 : ℚ) ^ e =
            1 * (2 : ℚ) ^ e := by linarith
        exact mul_right_cancel₀ hne this
      linarith
  have hm' : 2 ^ 52 ≤ (if m = 2 ^ 53 then 2 ^ 52 else m : Nat) ∧
      (if m = 2 ^ 53 then 2 ^ 52 else m : Nat) < 2 ^ 53 := by
    split_ifs with h
    · exact ⟨Nat.le_refl _, by norm_num⟩
    · exact ⟨hm52, by omega⟩
  have hval : (((if m = 2 ^ 53 then 2 ^ 52 else m : Nat) : Int) : ℚ) *
      (2 : ℚ) ^ (if m = 2 ^ 53 then e + 1 else e) = (m : ℚ) * (2 : ℚ) ^ e := by
    split_ifs with h
    · rw [h, zpow_add₀ h2, zpow_one]
      push_cast
      ring
    · push_cast
      rfl
  have hexp : (2 : ℚ) ^ e ≤ (2 : ℚ) ^ (if m = 2 ^ 53 then e + 1 else e) := by
    split_ifs with h
    · rw [zpow_add₀ h2, zpow_one]
      linarith
    · exact le_refl _
  rw [heq, F64.toRat_eq_zpow]
  by_cases hneg : n < 0
  · simp only [if_pos hneg]
    have hnq : (n : ℚ) = -(n.natAbs : ℚ) := by
      rw [Nat.cast_natAbs, abs_of_neg hneg]
      push_cast
      ring
    refine ⟨by rw [Int.natAbs_neg, Int.natAbs_ofNat]; exact hm'.1,
      by rw [Int.natAbs_neg, Int.natAbs_ofNat]; exact hm'.2,
      ⟨fun _ => hneg, fun _ => ?_⟩, ?_⟩
    · have : (0 : Int) < ((if m = 2 ^ 53 then 2 ^ 52 else m : Nat) : Int) := by
        have := hm'.1
        omega
      omega
    · have : ((-((if m = 2 ^ 53 then 2 ^ 52 else m : Nat) : Int) : Int) : ℚ) *
          (2 : ℚ) ^ (if m = 2 ^ 53 then e + 1 else e) - (n : ℚ) / (d : ℚ) =
          -((m : ℚ) * (2 : ℚ) ^ e - (n.natAbs : ℚ) / (d : ℚ)) := by
        rw [hnq, Int.cast_neg, neg_mul, hval]
        ring
      rw [this, abs_neg]
      exact ⟨le_trans hcore hexp, fun h => by
        rw [Int.natAbs_neg, Int.natAbs_ofNat]; exact heven h⟩
  · simp only [if_neg hneg]
    have hnq : (n : ℚ) = (n.natAbs : ℚ) := by
      rw [Nat.cast_natAbs, abs_of_nonneg (not_lt.mp hneg)]
    refine ⟨by rw [Int.natAbs_ofNat]; exact hm'.1, by rw [Int.natAbs_ofNat]; exact hm'.2,
      ⟨fun h => ?_, fun h => absurd h hneg⟩, ?_⟩
    · have : (0 : Int) ≤ ((if m = 2 ^ 53 then 2 ^ 52 else m : Nat) : Int) :=
        Int.ofNat_nonneg _
      omega
    · rw [hval, hnq]
      exact ⟨le_trans hcore hexp, fun h => by rw [Int.natAbs_ofNat]; exact heven h⟩

theorem two_pow_ratio (k : Int) :
    (2 : ℚ) ^ k.toNat / (2 : ℚ) ^ (-k).toNat = (2 : ℚ) ^ k := by
  rcases le_or_lt 0 k with h | h
  · obtain ⟨j, hj⟩ := Int.eq_ofNat_of_zero_le h
    subst hj
    simp
  · obtain ⟨j, hj⟩ := Int.eq_ofNat_of_zero_le (by omega : 0 ≤ -k)
    have hx : k = -(j : Int) := by omega
    subst hx
    simp

/-- `f64Mul` rounds the exact product of the two numbers. -/
theorem f64Mul_exact (x y : F64) :
    0 < 2 ^ (-(x.exp + y.exp)).toNat ∧
    ((x.mant * y.mant * 2 ^ (x.exp + y.exp).toNat : Int) : ℚ) /
      ((2 ^ (-(x.exp + y.exp)).toNat : Nat) : ℚ) = x.toRat * y.toRat := by
  refine ⟨by positivity, ?_⟩
  rw [F64.toRat_eq_zpow, F64.toRat_eq_zpow]
  push_cast
  rw [mul_div_assoc, two_pow_ratio, zpow_add₀ two_ne_zero]
  ring

/-- `f64Div` rounds the exact quotient of the two numbers. -/
theorem f64Div_exact (x y : F64) (hy : y.mant ≠ 0) :
    0 < y.mant.natAbs * 2 ^ (y.exp - x.exp).toNat ∧
    (((if y.mant < 0 then -x.mant else x.mant) * 2 ^ (x.exp - y.exp).toNat : Int) : ℚ) /
      ((y.mant.natAbs * 2 ^ (y.exp - x.exp).toNat : Nat) : ℚ) = x.toRat / y.toRat := by
  have hpos : 0 < y.mant.natAbs := Int.natAbs_pos.mpr hy
  refine ⟨by positivity, ?_⟩
  rw [F64.toRat_eq_zpow, F64.toRat_eq_zpow]
  have hyq : (y.mant : ℚ) ≠ 0 := by exact_mod_cast hy
  have hk : (y.exp - x.exp) = -(x.exp - y.exp) := by ring
  have h2 : (2 : ℚ) ^ (x.exp - y.exp) = (2 : ℚ) ^ x.exp / (2 : ℚ) ^ y.exp :=
    zpow_sub₀ two_ne_zero _ _
  have hpy : (2 : ℚ) ^ y.exp ≠ 0 := zpow_ne_zero _ two_ne_zero
  rw [hk]
  push_cast
  rw [mul_div_mul_comm, two_pow_ratio, h2]
  split_ifs with hneg
  · have : ((y.mant.natAbs : Nat) : ℚ) = -(y.mant : ℚ) := by
      rw [Nat.cast_natAbs, abs_of_neg hneg]
      push_cast
      ring
    rw [this]
    field_simp
  · have : ((y.mant.natAbs : Nat) : ℚ) = (y.mant : ℚ) := by
      rw [Nat.cast_natAbs, abs_of_nonneg (not_lt.mp hneg)]
    rw [this]
    field_simp

theorem floor_add_half (a d : Nat) (hd : 0 < d) :
    ⌊(a : ℚ) / (d : ℚ) + 1 / 2⌋ = (((2 * a + d) / (2 * d) : Nat) : Int) := by
  have hd' : (d : ℚ) ≠ 0 := by exact_mod_cast Nat.pos_iff_ne_zero.mp hd
  have h : (a : ℚ) / (d : ℚ) + 1 / 2 = ((2 * a + d : Nat) : ℚ) / ((2 * d : Nat) : ℚ) := by
    push_cast
    field_simp
    ring
  rw [h, Rat.floor_natCast_div_natCast]
  norm_cast

theorem F64.toRat_of_neg_exp (x : F64) (h : x.exp < 0) :
    x.toRat = (x.mant : ℚ) / ((2 ^ (-x.exp).toNat : Nat) : ℚ) := by
  have : ¬ 0 ≤ x.exp := by omega
  simp only [F64.toRat, if_neg this]

/-- `f64Round` is `math.Round`: on a float with a fractional part it is the
float of the integer nearest to the number the float denotes, halves away from
zero; a float with `exp ≥ 0` denotes an integer and is returned as it is. -/
theorem f64Round_spec (x : F64) :
    (0 ≤ x.exp → f64Round x = x ∧ mathRound x.toRat = x.toRat) ∧
    (x.exp < 0 → ∃ K : Int, (K : ℚ) = mathRound x.toRat ∧ f64Round x = f64OfInt K) := by
  constructor
  · intro h
    refine ⟨by simp only [f64Round, if_pos h], ?_⟩
    have : x.toRat = ((x.mant * (2 ^ x.exp.toNat : Nat) : Int) : ℚ) := by
      simp only [F64.toRat, if_pos h]
      push_cast
      ring
    rw [this, mathRound_intCast]
  · intro h
    have hneg : ¬ 0 ≤ x.exp := by omega
    have hd : 0 < 2 ^ (-x.exp).toNat := by positivity
    have hdq : (0 : ℚ) < ((2 ^ (-x.exp).toNat : Nat) : ℚ) := by exact_mod_cast hd
    rw [F64.toRat_of_neg_exp x h]
    by_cases hm : x.mant < 0
    · refine ⟨-(((2 * x.mant.natAbs + 2 ^ (-x.exp).toNat) / (2 * 2 ^ (-x.exp).toNat) : Nat) :
          Int), ?_, by simp only [f64Round, if_neg hneg, if_pos hm]⟩
      have hlt : (x.mant : ℚ) / ((2 ^ (-x.exp).toNat : Nat) : ℚ) < 0 :=
        div_neg_of_neg_of_pos (by exact_mod_cast hm) hdq
      have habs : -((x.mant : ℚ) / ((2 ^ (-x.exp).toNat : Nat) : ℚ)) =
          (x.mant.natAbs : ℚ) / ((2 ^ (-x.exp).toNat : Nat) : ℚ) := by
        have hcast : (x.mant.natAbs : ℚ) = -(x.mant : ℚ) := by
          rw [Nat.cast_natAbs, abs_of_neg hm]
          push_cast
          rfl
        rw [hcast, neg_div]
      simp only [mathRound, if_neg (not_le.mpr hlt)]
      rw [habs, floor_add_half _ _ hd]
      push_cast
      ring
    · refine ⟨(((2 * x.mant.natAbs + 2 ^ (-x.exp).toNat) / (2 * 2 ^ (-x.exp).toNat) : Nat) :
          Int), ?_, by simp only [f64Round, if_neg hneg, if_neg hm]⟩
      have hge : (0 : ℚ) ≤ (x.mant : ℚ) / ((2 ^ (-x.exp).toNat : Nat) : ℚ) :=
        div_nonneg (by exact_mod_cast (not_lt.mp hm)) (le_of_lt hdq)
      have habs : (x.mant : ℚ) / ((2 ^ (-x.exp).toNat : Nat) : ℚ) =
          (x.mant.natAbs : ℚ) / ((2 ^ (-x.exp).toNat : Nat) : ℚ) := by
        have hcast : (x.mant.natAbs : ℚ) = (x.mant : ℚ) := by
          rw [Nat.cast_natAbs, abs_of_nonneg (not_lt.mp hm)]
        rw [hcast]
      simp only [mathRound, if_pos hge]
      rw [habs, floor_add_half _ _ hd]

theorem mkResultOptions_getElem? (total : Int) (opts : List PollOption) (i : Nat) :
    (mkResultOptions total opts)[i]? =
      (opts[i]?).map (fun o =>
        ({ ID := o.ID, Text := o.Text, Votes := o.Votes,
           Percentage := percentage o.Votes total } : ResultOption)) := by
  induction opts generalizing i with
  | nil => simp [mkResultOptions]
  | cons o rest ih =>
    cases i with
    | zero => simp [mkResultOptions]
    | succ i => simp [mkResultOptions, ih]

set_option maxRecDepth 100000 in
theorem percentageF64_201_400 :
    f64Mul (f64Div (f64OfInt 201) (f64OfInt 400)) (f64OfInt 1000) =
      { mant := 8840073487319039, exp := -44 } ∧
    percentageF64 201 400 = { mant := 7065021915437466, exp := -47 } ∧
    roundToF64 502 10 = { mant := 7065021915437466, exp := -47 } ∧
    roundToF64 503 10 = { mant := 7079095664272998, exp := -47 } := by
  decide

theorem specPercentage_201_400 :
    ((201 : Int) : ℚ) / ((400 : Int) : ℚ) * 1000 = 1005 / 2 ∧
    mathRound (1005 / 2) = ((503 : Int) : ℚ) ∧
    specPercentage 201 400 = 503 / 10 := by
  have h1 : ((201 : Int) : ℚ) / ((400 : Int) : ℚ) * 1000 = 1005 / 2 := by norm_num
  have h2 : mathRound (1005 / 2) = ((503 : Int) : ℚ) := by
    have h0 : (0 : ℚ) ≤ 1005 / 2 := by norm_num
    have hf : ⌊(1005 / 2 : ℚ) + 1 / 2⌋ = 503 := by
      rw [Int.floor_eq_iff]
      constructor <;> norm_num
    simp only [mathRound, if_pos h0, hf]
  refine ⟨h1, h2, ?_⟩
  simp only [specPercentage, h1, h2]
  norm_num

-- C14 as stated fails for 201 votes of 400: votes/total*1000 is exactly 502.5,
-- which rounds to 503 and gives 50.3, but the float64 product is
-- 502.49999999999994, which `math.Round` takes to 502, and the handler
-- returns the float64 nearest to 50.2.
theorem percentage_counterexample :
    ((201 : Int) : ℚ) / ((400 : Int) : ℚ) * 1000 = 1005 / 2 ∧
    specPercentage 201 400 = 503 / 10 ∧
    (f64Mul (f64Div (f64OfInt 201) (f64OfInt 400)) (f64OfInt 1000)).toRat =
      8840073487319039 / 17592186044416 ∧
    (8840073487319039 / 17592186044416 : ℚ) < 1005 / 2 ∧
    percentage 201 400 = 3532510957718733 / 70368744177664 ∧
    percentage 201 400 = (roundToF64 502 10).toRat ∧
    (roundToF64 503 10).toRat = 3539547832136499 / 70368744177664 ∧
    percentage 201 400 < specPercentage 201 400 - 9 / 100 ∧
    ¬ (∀ (votes total k : Int), total > 0 →
        (k : ℚ) = mathRound ((votes : ℚ) / (total : ℚ) * 1000) →
        percentage votes total = (roundToF64 k 10).toRat) := by
  obtain ⟨hmul, hpct, h502, h503⟩ := percentageF64_201_400
  obtain ⟨hq, hround, hspec⟩ := specPercentage_201_400
  have h44 : Int.toNat 44 = 44 := rfl
  have h47 : Int.toNat 47 = 47 := rfl
  have hp : percentage 201 400 = 3532510957718733 / 70368744177664 := by
    simp only [percentage, hpct, F64.toRat]
    norm_num [h47]
  have h503' : (roundToF64 503 10).toRat = 3539547832136499 / 70368744177664 := by
    simp only [h503, F64.toRat]
    norm_num [h47]
  refine ⟨hq, hspec, ?_, by norm_num, hp, ?_, h503', ?_, ?_⟩
  · simp only [hmul, F64.toRat]
    norm_num [h44]
  · rw [hp]
    simp only [h502, F64.toRat]
    norm_num [h47]
  · rw [hp, hspec]
    norm_num
  · intro h
    have := h 201 400 503 (by decide) (by rw [hq, hround])
    rw [hp, h503'] at this
    norm_num at this

/-- C14 (amended): in the results view of a poll the result options are the
poll's options in order, with the same id, text and vote count. The percentage
is `0` when `TotalVotes` is `0` (or negative); when `TotalVotes > 0` it is the
`float64` value of `math.Round(float64(votes)/float64(TotalVotes)*1000) / 10`,
each conversion, division and multiplication rounded to the nearest `float64`,
with `math.Round` rounding the rounded product to the nearest integer, halves
away from zero. Here `float64(n)`, `x * y` and `x / y` are the exact integer,
product and quotient put through `roundToF64`, and `roundToF64` gives the
value with a 53-bit mantissa nearest to its argument, ties to the even
mantissa. -/
theorem results_view_percentage (s : Store) (pollID : String) (poll : Poll)
    (hp : GetPoll s pollID = some poll) :
    ∃ r : PollResults, handleGetResults s pollID = { status := 200, body := .results r } ∧
      r.ID = poll.ID ∧ r.Question = poll.Question ∧ r.TotalVotes = poll.TotalVotes ∧
      r.Closed = poll.Closed ∧ r.CreatedAt = poll.CreatedAt ∧
      r.Options.length = poll.Options.length ∧
      (∀ (i : Nat) (o : PollOption), poll.Options[i]? = some o →
        ∃ ro, r.Options[i]? = some ro ∧ ro.ID = o.ID ∧ ro.Text = o.Text ∧
          ro.Votes = o.Votes ∧
          (poll.TotalVotes = 0 → ro.Percentage = 0) ∧
          (poll.TotalVotes ≤ 0 → ro.Percentage = 0) ∧
          (poll.TotalVotes > 0 → ro.Percentage =
            (f64Div (f64Round (f64Mul
              (f64Div (f64OfInt o.Votes) (f64OfInt poll.TotalVotes)) (f64OfInt 1000)))
              (f64OfInt 10)).toRat)) ∧
      (∀ x : F64,
        (0 ≤ x.exp → f64Round x = x ∧ mathRound x.toRat = x.toRat) ∧
        (x.exp < 0 → ∃ K : Int, (K : ℚ) = mathRound x.toRat ∧ f64Round x = f64OfInt K)) ∧
      (∀ n : Int, f64OfInt n = roundToF64 n 1) ∧
      (∀ x y : F64, ∃ (N : Int) (D : Nat), 0 < D ∧
        (N : ℚ) / (D : ℚ) = x.toRat * y.toRat ∧ f64Mul x y = roundToF64 N D) ∧
      (∀ x y : F64, y.mant ≠ 0 → ∃ (N : Int) (D : Nat), 0 < D ∧
        (N : ℚ) / (D : ℚ) = x.toRat / y.toRat ∧ f64Div x y = roundToF64 N D) ∧
      (∀ d : Nat, roundToF64 0 d = { mant := 0, exp := 0 }) ∧
      (∀ (n : Int) (d : Nat), n ≠ 0 → 0 < d →
        2 ^ 52 ≤ (roundToF64 n d).mant.natAbs ∧ (roundToF64 n d).mant.natAbs < 2 ^ 53 ∧
        ((roundToF64 n d).mant < 0 ↔ n < 0) ∧
        |(roundToF64 n d).toRat - (n : ℚ) / (d : ℚ)| * 2 ≤
          (2 : ℚ) ^ (roundToF64 n d).exp ∧
        (|(roundToF64 n d).toRat - (n : ℚ) / (d : ℚ)| * 2 = (2 : ℚ) ^ (roundToF64 n d).exp →
          (roundToF64 n d).mant.natAbs % 2 = 0)) ∧
      (∀ x : F64, x.toRat = (x.mant : ℚ) * (2 : ℚ) ^ x.exp) := by
  refine ⟨PollResults.mk poll.ID poll.Question
      (mkResultOptions poll.TotalVotes poll.Options) poll.TotalVotes poll.Closed
      poll.CreatedAt,
    by simp only [handleGetResults, hp], rfl, rfl, rfl, rfl, rfl,
    (mkResultOptions_fields _ _).1, ?_, f64Round_spec, fun _ => rfl,
    fun x y => ⟨_, _, (f64Mul_exact x y).1, (f64Mul_exact x y).2, rfl⟩,
    fun x y hy => ⟨_, _, (f64Div_exact x y hy).1, (f64Div_exact x y hy).2, rfl⟩,
    fun d => by simp [roundToF64], roundToF64_spec, F64.toRat_eq_zpow⟩
  intro i o ho
  refine ⟨ResultOption.mk o.ID o.Text o.Votes (percentage o.Votes poll.TotalVotes),
    by simp only [mkResultOptions_getElem?, ho, Option.map_some'], rfl, rfl, rfl,
    fun h0 => percentage_of_total_nonpos o.Votes poll.TotalVotes (by omega),
    fun h0 => percentage_of_total_nonpos o.Votes poll.TotalVotes h0, fun hpos => ?_⟩
  simp only [percentage, if_pos hpos, percentageF64]

theorem results_view_percentage_witness :
    GetPoll votedStore "p1" = some (countVote samplePoll 0) ∧
    handleGetResults votedStore "p1" =
      { status := 200
        body := .results
          { ID := "p1", Question := "Pick one",
            Options := [{ ID := 0, Text := "X", Votes := 1, Percentage := 100 },
                        { ID := 1, Text := "Y", Votes := 0, Percentage := 0 }],
            TotalVotes := 1, Closed := false, CreatedAt := "2024-01-01T00:00:00Z" } } ∧
    ∃ r : PollResults,
      handleGetResults votedStore "p1" = { status := 200, body := .results r } ∧
      r.ID = (countVote samplePoll 0).ID ∧ r.Question = (countVote samplePoll 0).Question ∧
      r.TotalVotes = (countVote samplePoll 0).TotalVotes ∧
      r.Closed = (countVote samplePoll 0).Closed ∧
      r.CreatedAt = (countVote samplePoll 0).CreatedAt ∧
      r.Options.length = (countVote samplePoll 0).Options.length ∧
      (∀ (i : Nat) (o : PollOption), (countVote samplePoll 0).Options[i]? = some o →
        ∃ ro, r.Options[i]? = some ro ∧ ro.ID = o.ID ∧ ro.Text = o.Text ∧
          ro.Votes = o.Votes ∧
          ((countVote samplePoll 0).TotalVotes = 0 → ro.Percentage = 0) ∧
          ((countVote samplePoll 0).TotalVotes ≤ 0 → ro.Percentage = 0) ∧
          ((countVote samplePoll 0).TotalVotes > 0 → ro.Percentage =
            (f64Div (f64Round (f64Mul
              (f64Div (f64OfInt o.Votes) (f64OfInt (countVote samplePoll 0).TotalVotes))
              (f64OfInt 1000))) (f64OfInt 10)).toRat)) ∧
      (∀ x : F64,
        (0 ≤ x.exp → f64Round x = x ∧ mathRound x.toRat = x.toRat) ∧
        (x.exp < 0 → ∃ K : Int, (K : ℚ) = mathRound x.toRat ∧ f64Round x = f64OfInt K)) ∧
      (∀ n : Int, f64OfInt n = roundToF64 n 1) ∧
      (∀ x y : F64, ∃ (N : Int) (D : Nat), 0 < D ∧
        (N : ℚ) / (D : ℚ) = x.toRat * y.toRat ∧ f64Mul x y = roundToF64 N D) ∧
      (∀ x y : F64, y.mant ≠ 0 → ∃ (N : Int) (D : Nat), 0 < D ∧
        (N : ℚ) / (D : ℚ) = x.toRat / y.toRat ∧ f64Div x y = roundToF64 N D) ∧
      (∀ d : Nat, roundToF64 0 d = { mant := 0, exp := 0 }) ∧
      (∀ (n : Int) (d : Nat), n ≠ 0 → 0 < d →
        2 ^ 52 ≤ (roundToF64 n d).mant.natAbs ∧ (roundToF64 n d).mant.natAbs < 2 ^ 53 ∧
        ((roundToF64 n d).mant < 0 ↔ n < 0) ∧
        |(roundToF64 n d).toRat - (n : ℚ) / (d : ℚ)| * 2 ≤
          (2 : ℚ) ^ (roundToF64 n d).exp ∧
        (|(roundToF64 n d).toRat - (n : ℚ) / (d : ℚ)| * 2 = (2 : ℚ) ^ (roundToF64 n d).exp →
          (roundToF64 n d).mant.natAbs % 2 = 0)) ∧
      (∀ x : F64, x.toRat = (x.mant : ℚ) * (2 : ℚ) ^ x.exp) :=
  ⟨by decide,
   by
    have h : GetPoll votedStore "p1" = some (countVote samplePoll 0) := by decide
    have hopts : (countVote samplePoll 0) =
        { ID := "p1", Question := "Pick one",
          Options := [{ ID := 0, Text := "X", Votes := 1 },
                      { ID := 1, Text := "Y", Votes := 0 }],
          TotalVotes := 1, Closed := false, CreatedAt := "2024-01-01T00:00:00Z" } := by
      decide
    simp only [handleGetResults, h, hopts, mkResultOptions, percentage_one_one,
      percentage_zero_one],
   results_view_percentage votedStore "p1" (countVote samplePoll 0) (by decide)⟩

/-- C15: the end-to-end scenario, on any store and for any generated id and
timestamp. A poll "Pick one" with options "X", "Y" is created; `Vote` by "v1"
for option 0 succeeds; the results view shows X with 1 vote and 100%, Y with 0
votes and 0%, total 1; a second `Vote` by "v1" (for either option) fails
with the already-voted error, which the handler reports as 409, and the total
is still 1; `ClosePoll` succeeds; a later `Vote` by "v2" fails with the
closed-poll error and the total is still 1. -/
theorem end_to_end_scenario (s : Store) (id createdAt : String) :
    ∃ (s₁ s₂ s₃ : Store) (p₀ p₁ p₂ : Poll),
      CreatePoll s id createdAt "Pick one" ["X", "Y"] = (s₁, p₀) ∧
      p₀ = { ID := id, Question := "Pick one",
             Options := [{ ID := 0, Text := "X", Votes := 0 },
                         { ID := 1, Text := "Y", Votes := 0 }],
             TotalVotes := 0, Closed := false, CreatedAt := createdAt } ∧
      Vote s₁ id "v1" 0 = (s₂, .ok p₁) ∧
      p₁.TotalVotes = 1 ∧
      handleGetResults s₂ id =
        { status := 200
          body := .results
            { ID := id, Question := "Pick one",
              Options := [{ ID := 0, Text := "X", Votes := 1, Percentage := 100 },
                          { ID := 1, Text := "Y", Votes := 0, Percentage := 0 }],
              TotalVotes := 1, Closed := false, CreatedAt := createdAt } } ∧
      Vote s₂ id "v1" 0 = (s₂, .err "You have already voted on this poll") ∧
      Vote s₂ id "v1" 1 = (s₂, .err "You have already voted on this poll") ∧
      handleVote s₂ id "v1" { OptionID := some 0 } =
        (s₂, some { status := 409, body := .error "You have already voted on this poll" }) ∧
      (GetPoll s₂ id).map Poll.TotalVotes = some 1 ∧
      ClosePoll s₂ id = (s₃, .ok p₂) ∧
      p₂.Closed = true ∧ p₂.TotalVotes = 1 ∧
      (∀ o, Vote s₃ id "v2" o = (s₃, .err "This poll is closed")) ∧
      (GetPoll s₃ id).map Poll.TotalVotes = some 1 := by
  have hq : TrimSpace "Pick one" = "Pick one" := by decide
  have hopts : mkOptions 0 ["X", "Y"] =
      [{ ID := 0, Text := "X", Votes := 0 }, { ID := 1, Text := "Y", Votes := 0 }] := by
    decide
  have hcreate : CreatePoll s id createdAt "Pick one" ["X", "Y"] =
      ({ polls := mapSet s.polls id
            { ID := id, Question := "Pick one",
              Options := [{ ID := 0, Text := "X", Votes := 0 },
                          { ID := 1, Text := "Y", Votes := 0 }],
              TotalVotes := 0, Closed := false, CreatedAt := createdAt },
         votes := mapSet s.votes id [] },
       { ID := id, Question := "Pick one",
         Options := [{ ID := 0, Text := "X", Votes := 0 },
                     { ID := 1, Text := "Y", Votes := 0 }],
         TotalVotes := 0, Closed := false, CreatedAt := createdAt }) := by
    simp only [CreatePoll, hq, hopts]
  have hvote : Vote
      { polls := mapSet s.polls id
            { ID := id, Question := "Pick one",
              Options := [{ ID := 0, Text := "X", Votes := 0 },
                          { ID := 1, Text := "Y", Votes := 0 }],
              TotalVotes := 0, Closed := false, CreatedAt := createdAt },
        votes := mapSet s.votes id [] } id "v1" 0 =
      ({ polls := mapSet s.polls id
            { ID := id, Question := "Pick one",
              Options := [{ ID := 0, Text := "X", Votes := 1 },
                          { ID := 1, Text := "Y", Votes := 0 }],
              TotalVotes := 1, Closed := false, CreatedAt := createdAt },
         votes := mapSet s.votes id [("v1", 0)] },
       .ok { ID := id, Question := "Pick one",
             Options := [{ ID := 0, Text := "X", Votes := 1 },
                         { ID := 1, Text := "Y", Votes := 0 }],
             TotalVotes := 1, Closed := false, CreatedAt := createdAt }) := by
    simp [Vote, mapGet_mapSet_self, mapSet_mapSet_same, mapGet, mapSet, countVote,
      incVotesAt]
  have hagain : ∀ o : Int, (o = 0 ∨ o = 1) → Vote
      { polls := mapSet s.polls id
            { ID := id, Question := "Pick one",
              Options := [{ ID := 0, Text := "X", Votes := 1 },
                          { ID := 1, Text := "Y", Votes := 0 }],
              TotalVotes := 1, Closed := false, CreatedAt := createdAt },
        votes := mapSet s.votes id [("v1", 0)] } id "v1" o =
      ({ polls := mapSet s.polls id
            { ID := id, Question := "Pick one",
              Options := [{ ID := 0, Text := "X", Votes := 1 },
                          { ID := 1, Text := "Y", Votes := 0 }],
              TotalVotes := 1, Closed := false, CreatedAt := createdAt },
         votes := mapSet s.votes id [("v1", 0)] },
       .err "You have already voted on this poll") := by
    intro o ho
    rcases ho with ho | ho <;> subst ho <;> simp [Vote, mapGet_mapSet_self, mapGet]
  have hclose : ClosePoll
      { polls := mapSet s.polls id
            { ID := id, Question := "Pick one",
              Options := [{ ID := 0, Text := "X", Votes := 1 },
                          { ID := 1, Text := "Y", Votes := 0 }],
              TotalVotes := 1, Closed := false, CreatedAt := createdAt },
        votes := mapSet s.votes id [("v1", 0)] } id =
      ({ polls := mapSet s.polls id
            { ID := id, Question := "Pick one",
              Options := [{ ID := 0, Text := "X", Votes := 1 },
                          { ID := 1, Text := "Y", Votes := 0 }],
              TotalVotes := 1, Closed := true, CreatedAt := createdAt },
         votes := mapSet s.votes id [("v1", 0)] },
       .ok { ID := id, Question := "Pick one",
             Options := [{ ID := 0, Text := "X", Votes := 1 },
                         { ID := 1, Text := "Y", Votes := 0 }],
             TotalVotes := 1, Closed := true, CreatedAt := createdAt }) := by
    simp [ClosePoll, mapGet_mapSet_self, mapSet_mapSet_same]
  refine ⟨_, _, _, _, _, _, hcreate, rfl, hvote, rfl, ?_, hagain 0 (Or.inl rfl),
    hagain 1 (Or.inr rfl), ?_, ?_, hclose, rfl, rfl, ?_, ?_⟩
  · simp [handleGetResults, GetPoll, mapGet_mapSet_self, mkResultOptions,
      percentage_one_one, percentage_zero_one]
  · simp only [handleVote, hagain 0 (Or.inl rfl)]
    rfl
  · simp [GetPoll, mapGet_mapSet_self]
  · intro o
    simp [Vote, mapGet_mapSet_self]
  · simp [GetPoll, mapGet_mapSet_self]

/-! ## Counters against vote records -/

theorem countFor_append (voters : List (String × Int)) (v : String) (o i : Int) :
    countFor (voters ++ [(v, o)]) i = countFor voters i + (if o = i then 1 else 0) := by
  unfold countFor
  rw [List.filter_append, List.length_append]
  by_cases h : o = i
  · simp [List.filter, h]
  · simp [List.filter, h]

theorem Tally_new (poll : Poll) (base : List Int)
    (hlen : base.length = poll.Options.length)
    (hopts : poll.Options.map PollOption.Votes = base)
    (htot : poll.TotalVotes = base.sum) : Tally poll [] base := by
  refine ⟨hlen, fun kv hkv => by simp at hkv, fun i o c ho hc => ?_, by simp [htot]⟩
  have : (poll.Options.map PollOption.Votes)[i]? = some o.Votes := by
    rw [List.getElem?_map, ho]; rfl
  rw [hopts, hc] at this
  simp only [countFor, List.filter_nil, List.length_nil, Nat.cast_zero, Int.add_zero]
  exact (Option.some.inj this).symm

theorem Tally_countVote (poll : Poll) (voters : List (String × Int)) (base : List Int)
    (v : String) (o : Int) (h0 : 0 ≤ o) (hlt : o < (poll.Options.length : Int))
    (ht : Tally poll voters base) :
    Tally (countVote poll o) (voters ++ [(v, o)]) base := by
  obtain ⟨hlen, hrange, hcount, htot⟩ := ht
  have hl : (countVote poll o).Options.length = poll.Options.length :=
    length_incVotesAt _ _
  refine ⟨by rw [hl]; exact hlen, ?_, ?_, ?_⟩
  · intro kv hkv
    rw [hl]
    rcases List.mem_append.mp hkv with h | h
    · exact hrange kv h
    · rw [List.mem_singleton] at h
      rw [h]
      exact ⟨h0, hlt⟩
  · intro i q c hq hc
    rw [countFor_append]
    by_cases hi : i = o.toNat
    · have hoi : o = (i : Int) := by rw [hi]; omega
      have hlt' : i < poll.Options.length := by omega
      have hold := hcount i _ c (List.getElem?_eq_getElem hlt') hc
      simp only [countVote, hi, getElem?_incVotesAt_self] at hq
      rw [← hi, List.getElem?_eq_getElem hlt'] at hq
      simp only [Option.map_some', Option.some.injEq] at hq
      rw [← hq]
      simp only [hoi, if_true]
      rw [hold]
      push_cast
      ring
    · have hoi : ¬ o = (i : Int) := by
        intro e; apply hi; rw [e]; simp
      simp only [countVote, getElem?_incVotesAt_ne _ _ _ hi] at hq
      have hold := hcount i q c hq hc
      simp only [hoi, if_false, Nat.add_zero]
      exact hold
  · simp only [countVote, List.length_append, List.length_singleton]
    rw [htot]
    push_cast
    ring

theorem CountInv_set (s : Store) (b : List (String × List Int)) (id : String) (poll : Poll)
    (base : List Int) (hinv : CountInv s b) (ht : Tally poll [] base) :
    CountInv { polls := mapSet s.polls id poll, votes := mapSet s.votes id [] }
      (mapSet b id base) := by
  intro k q hq
  simp only [mapGet_mapSet] at hq ⊢
  by_cases hk : k = id
  · simp only [hk, if_true, Option.some.injEq] at hq ⊢
    rw [← hq]
    exact ⟨[], base, rfl, rfl, ht⟩
  · simp only [hk, if_false] at hq ⊢
    exact hinv k q hq

theorem Tally_defaultPoll (id createdAt : String) :
    Tally (defaultPoll id createdAt) [] seedCounts :=
  Tally_new _ _ rfl rfl (by simp [defaultPoll, seedCounts])

theorem Tally_created (s : Store) (id createdAt question : String) (options : List String) :
    Tally (CreatePoll s id createdAt question options).2 []
      (List.replicate options.length 0) := by
  refine Tally_new _ _ ?_ (mkOptions_votes 0 options) (by simp [CreatePoll])
  have := congrArg List.length (mkOptions_votes 0 options)
  simp only [List.length_map, List.length_replicate] at this
  simp only [List.length_replicate, CreatePoll]
  exact this.symm

theorem CountInv_step (s : Store) (b : List (String × List Int)) (op : Op)
    (hinv : CountInv s b) : CountInv (step s op) (baseStep b op) := by
  cases op with
  | seedDefault id createdAt =>
    exact CountInv_set s b id _ _ hinv (Tally_defaultPoll id createdAt)
  | createPoll id createdAt question options =>
    exact CountInv_set s b id _ _ hinv (Tally_created s id createdAt question options)
  | vote pollID voterKey optionID =>
    intro k q hq
    simp only [step, baseStep] at hq ⊢
    by_cases hk : k = pollID
    · subst hk
      revert hq
      unfold Vote
      cases hp : mapGet s.polls k with
      | none => intro hq; simp only [hp] at hq; exact Option.noConfusion hq
      | some poll =>
        obtain ⟨voters, base, hv, hb, ht⟩ := hinv k poll hp
        simp only [hv]
        split
        · intro hq
          simp only [hp] at hq
          rw [← Option.some.inj hq]
          exact ⟨voters, base, hv, hb, ht⟩
        · split
          · intro hq
            simp only [hp] at hq
            rw [← Option.some.inj hq]
            exact ⟨voters, base, hv, hb, ht⟩
          · rename_i hr
            split
            · intro hq
              simp only [hp] at hq
              rw [← Option.some.inj hq]
              exact ⟨voters, base, hv, hb, ht⟩
            · rename_i hvk
              intro hq
              simp only [mapGet_mapSet_self, Option.some.injEq] at hq ⊢
              rw [← hq, mapSet_append_of_none _ _ _ hvk]
              exact ⟨_, base, rfl, hb,
                Tally_countVote poll voters base voterKey optionID (by omega) (by omega) ht⟩
    · rw [Vote_polls_other _ _ _ _ _ hk] at hq
      rw [Vote_votes_other _ _ _ _ _ hk]
      exact hinv k q hq
  | closePoll id =>
    intro k q hq
    simp only [step, baseStep] at hq ⊢
    rw [ClosePoll_polls] at hq
    rw [(ClosePoll_keys s id).2]
    cases hp : mapGet s.polls k with
    | none => rw [hp] at hq; simp at hq
    | some poll =>
      rw [hp] at hq
      simp only [Option.map_some', Option.some.injEq] at hq
      obtain ⟨voters, base, hv, hb, ht⟩ := hinv k poll hp
      refine ⟨voters, base, hv, hb, ?_⟩
      rw [← hq]
      split
      · exact ht
      · exact ht
  | getPoll id => exact hinv
  | getAllPolls => exact hinv
  | hasVoted pollID voterKey => exact hinv

theorem CountInv_run (s : Store) (b : List (String × List Int)) (ops : List Op)
    (hinv : CountInv s b) : CountInv (run s ops) (baseRun b ops) := by
  induction ops generalizing s b with
  | nil => exact hinv
  | cons op ops ih => exact ih (step s op) (baseStep b op) (CountInv_step s b op hinv)

theorem baseStep_sub (s : Store) (b : List (String × List Int)) (op : Op)
    (hsub : ∀ id, (mapGet b id).isSome = true → (mapGet s.polls id).isSome = true) :
    ∀ id, (mapGet (baseStep b op) id).isSome = true →
      (mapGet (step s op).polls id).isSome = true := by
  intro k hk
  cases op with
  | seedDefault id createdAt =>
    simp only [baseStep, step, SeedDefault, mapGet_mapSet] at hk ⊢
    by_cases e : k = id
    · simp [e]
    · simp only [e, if_false] at hk ⊢
      exact hsub k hk
  | createPoll id createdAt question options =>
    simp only [baseStep, step, CreatePoll, mapGet_mapSet] at hk ⊢
    by_cases e : k = id
    · simp [e]
    · simp only [e, if_false] at hk ⊢
      exact hsub k hk
  | vote pollID voterKey optionID =>
    have := hsub k hk
    cases hp : mapGet s.polls k with
    | none => rw [hp] at this; simp at this
    | some poll =>
      obtain ⟨poll', hp'⟩ := Vote_polls_isSome s pollID voterKey optionID k poll hp
      simp only [step, hp']
      rfl
  | closePoll id =>
    have := hsub k hk
    simp only [step, ClosePoll_polls]
    cases hp : mapGet s.polls k with
    | none => rw [hp] at this; simp at this
    | some poll => rfl
  | getPoll id => exact hsub k hk
  | getAllPolls => exact hsub k hk
  | hasVoted pollID voterKey => exact hsub k hk

theorem baseStep_persist (s : Store) (b : List (String × List Int)) (op : Op)
    (hf : freshOp s op = true)
    (hsub : ∀ id, (mapGet b id).isSome = true → (mapGet s.polls id).isSome = true)
    (id : String) (base : List Int) (hb : mapGet b id = some base) :
    mapGet (baseStep b op) id = some base := by
  have hne : ∀ id', freshId s id' = true → id ≠ id' := by
    intro id' hfresh e
    subst e
    have := hsub id (by rw [hb]; rfl)
    simp only [freshId, Bool.and_eq_true, Option.isNone_iff_eq_none] at hfresh
    rw [hfresh.1] at this
    simp at this
  cases op with
  | seedDefault id' createdAt =>
    simp only [baseStep]
    rw [mapGet_mapSet_ne _ _ _ _ (hne id' hf), hb]
  | createPoll id' createdAt question options =>
    simp only [baseStep]
    rw [mapGet_mapSet_ne _ _ _ _ (hne id' hf), hb]
  | vote pollID voterKey optionID => exact hb
  | closePoll id' => exact hb
  | getPoll id' => exact hb
  | getAllPolls => exact hb
  | hasVoted pollID voterKey => exact hb

theorem baseRun_spec (s : Store) (b : List (String × List Int)) (ops : List Op)
    (hf : freshRun s ops = true)
    (hsub : ∀ id, (mapGet b id).isSome = true → (mapGet s.polls id).isSome = true) :
    (∀ id base, mapGet b id = some base → mapGet (baseRun b ops) id = some base) ∧
    (∀ id t q os, Op.createPoll id t q os ∈ ops →
      mapGet (baseRun b ops) id = some (List.replicate os.length 0)) ∧
    (∀ id t, Op.seedDefault id t ∈ ops → mapGet (baseRun b ops) id = some seedCounts) := by
  induction ops generalizing s b with
  | nil =>
    exact ⟨fun id base h => h, fun id t q os h => by simp at h, fun id t h => by simp at h⟩
  | cons op ops ih =>
    simp only [freshRun, Bool.and_eq_true] at hf
    obtain ⟨i1, i2, i3⟩ := ih (step s op) (baseStep b op) hf.2 (baseStep_sub s b op hsub)
    refine ⟨fun id base h => i1 id base (baseStep_persist s b op hf.1 hsub id base h), ?_, ?_⟩
    · intro id t q os hmem
      rcases List.mem_cons.mp hmem with h | h
      · subst h
        exact i1 id _ (mapGet_mapSet_self _ _ _)
      · exact i2 id t q os h
    · intro id t hmem
      rcases List.mem_cons.mp hmem with h | h
      · subst h
        exact i1 id _ (mapGet_mapSet_self _ _ _)
      · exact i3 id t h

theorem getElem?_replicate_zero (n i : Nat) (c : Int)
    (h : (List.replicate n (0 : Int))[i]? = some c) : c = 0 := by
  rw [List.getElem?_replicate] at h
  split at h
  · exact (Option.some.inj h).symm
  · exact Option.noConfusion h

/-- C18: in every store reached from `NewStore` by `CreatePoll`, `Vote` and
`ClosePoll` calls (also `SeedDefault` and reads), generated ids being fresh,
every poll has a vote record with one entry per voter key, and every recorded
option index lies in `[0, number of options)`. For a poll created by
`CreatePoll`, each option's `Votes` is the number of voters recorded for its
index and `TotalVotes` is the number of voters recorded. For the seeded default
poll the same holds on top of the seeded counts 12, 18, 25, 8, 15, 10 and the
seeded total 88. -/
theorem votes_match_records (ops : List Op) (id : String) (poll : Poll)
    (hf : freshRun NewStore ops = true)
    (hp : GetPoll (run NewStore ops) id = some poll) :
    ∃ voters, mapGet (run NewStore ops).votes id = some voters ∧
      (mapKeys voters).Nodup ∧
      (∀ kv ∈ voters, 0 ≤ kv.2 ∧ kv.2 < (poll.Options.length : Int)) ∧
      ((∃ t q os, Op.createPoll id t q os ∈ ops) →
        (∀ (i : Nat) (o : PollOption), poll.Options[i]? = some o →
          o.Votes = (countFor voters (i : Int) : Int)) ∧
        poll.TotalVotes = (voters.length : Int)) ∧
      ((∃ t, Op.seedDefault id t ∈ ops) →
        (∀ (i : Nat) (o : PollOption) (c : Int), poll.Options[i]? = some o →
          seedCounts[i]? = some c → o.Votes = c + (countFor voters (i : Int) : Int)) ∧
        poll.Options.length = 6 ∧
        poll.TotalVotes = 88 + (voters.length : Int)) := by
  have hinv : CountInv (run NewStore ops) (baseRun [] ops) :=
    CountInv_run NewStore [] ops (fun k q hq => by simp [NewStore, mapGet] at hq)
  obtain ⟨voters, base, hv, hb, hlen, hrange, hcount, htot⟩ := hinv id poll hp
  obtain ⟨_, hcreated, hseeded⟩ := baseRun_spec NewStore [] ops hf
    (fun k hk => by simp [mapGet] at hk)
  have hnodup : (mapKeys voters).Nodup :=
    VotesNodup_run NewStore ops (fun kv hkv => by simp [NewStore] at hkv) (id, voters)
      (mapGet_mem _ _ _ hv)
  refine ⟨voters, hv, hnodup, hrange, ?_, ?_⟩
  · rintro ⟨t, q, os, hmem⟩
    have hbase : base = List.replicate os.length 0 := by
      have := hcreated id t q os hmem
      rw [hb] at this
      exact Option.some.inj this
    subst hbase
    constructor
    · intro i o ho
      have hi : i < poll.Options.length := by
        by_contra hge
        rw [List.getElem?_eq_none (by omega)] at ho
        exact Option.noConfusion ho
      have hi' : i < (List.replicate os.length (0 : Int)).length := by rw [hlen]; exact hi
      have hc := List.getElem?_eq_getElem hi'
      have hz := getElem?_replicate_zero _ _ _ hc
      have := hcount i o _ ho hc
      rw [hz] at this
      simpa using this
    · rw [htot]
      simp
  · rintro ⟨t, hmem⟩
    have hbase : base = seedCounts := by
      have := hseeded id t hmem
      rw [hb] at this
      exact Option.some.inj this
    subst hbase
    refine ⟨fun i o c ho hc => hcount i o c ho hc, hlen.symm, ?_⟩
    rw [htot]
    simp [seedCounts]

theorem votes_match_records_witness :
    freshRun NewStore sampleOps = true ∧
    GetPoll (run NewStore sampleOps) "d0" = some sampleDefaultPoll ∧
    (∃ voters, mapGet (run NewStore sampleOps).votes "d0" = some voters ∧
      (mapKeys voters).Nodup ∧
      (∀ kv ∈ voters, 0 ≤ kv.2 ∧ kv.2 < (sampleDefaultPoll.Options.length : Int)) ∧
      ((∃ t q os, Op.createPoll "d0" t q os ∈ sampleOps) →
        (∀ (i : Nat) (o : PollOption), sampleDefaultPoll.Options[i]? = some o →
          o.Votes = (countFor voters (i : Int) : Int)) ∧
        sampleDefaultPoll.TotalVotes = (voters.length : Int)) ∧
      ((∃ t, Op.seedDefault "d0" t ∈ sampleOps) →
        (∀ (i : Nat) (o : PollOption) (c : Int), sampleDefaultPoll.Options[i]? = some o →
          seedCounts[i]? = some c → o.Votes = c + (countFor voters (i : Int) : Int)) ∧
        sampleDefaultPoll.Options.length = 6 ∧
        sampleDefaultPoll.TotalVotes = 88 + (voters.length : Int))) ∧
    mapGet (run NewStore sampleOps).votes "d0" = some [("v1", 2)] ∧
    Op.seedDefault "d0" "2024-01-01T00:00:00Z" ∈ sampleOps ∧
    sampleDefaultPoll.TotalVotes = 88 + (([("v1", 2)] : List (String × Int)).length : Int) ∧
    (26 : Int) = 25 + (countFor [("v1", 2)] 2 : Int) :=
  ⟨by decide, by decide,
   votes_match_records sampleOps "d0" sampleDefaultPoll (by decide) (by decide),
   by decide, by decide, by decide, by decide⟩

end PollCreator
